import Mathlib

/-!
Verification of the TB Global Analysis cleaning/analysis pipeline.

This file gives a shallow embedding of the repository's data-handling code
(`src/data_cleaning.py`, `src/analysis.py`, `src/pipeline.py`, `src/config.py`)
and proves or refutes the specified properties against it.

Tables are modelled as a list of column names, a parallel list of pandas
column dtypes, and a list of rows (each row a list of cell values aligned
with the column list).  Cell values model the pandas/NumPy scalar kinds the
code can observe: missing (`NaN`/`pd.NA`), integers, non-integral numerics
(modelled exactly as rationals), strings, and booleans.
-/

deriving instance DecidableEq for Except

namespace TBGA

/-- Scalar cell values, as observed by the Python code.  `num` carries a
rational standing for a float; the cleaning code performs no arithmetic that
distinguishes binary floats from rationals. -/
inductive Val where
  | null
  | int (n : ℤ)
  | num (q : ℚ)
  | str (s : String)
  | bool (b : Bool)
deriving Repr, DecidableEq

/-- pandas column dtypes, to the resolution `select_dtypes(include=[np.number])`
observes: `obj` (object), `i64`/`f64` (int64/float64), `i64n` (nullable Int64),
`boolean` (bool). -/
inductive DType where
  | obj
  | i64
  | f64
  | i64n
  | boolean
deriving Repr, DecidableEq

/-- Columns selected by `select_dtypes(include=[np.number])`: int64, float64 and
the nullable Int64 extension dtype are numeric; object and bool are not. -/
def DType.isNum : DType → Bool
  | .i64 => true
  | .f64 => true
  | .i64n => true
  | _ => false

/-- Python `==` on scalar cells as used by `drop_duplicates` and key matching:
`NaN` hashes/compares equal to `NaN` for deduplication purposes, an int equals a
float of the same value, and values of unrelated kinds are unequal. -/
def valEq : Val → Val → Bool
  | .null, .null => true
  | .int a, .int b => a == b
  | .int a, .num b => (a : ℚ) == b
  | .num a, .int b => a == (b : ℚ)
  | .num a, .num b => a == b
  | .str a, .str b => a == b
  | .bool a, .bool b => a == b
  | _, _ => false

/-- Missingness test (`isna`). -/
def isNull : Val → Bool
  | .null => true
  | _ => false

/-- A row is a list of cells aligned with the table's column list. -/
abbrev Row := List Val

/-- Row equality used by `drop_duplicates` (all columns equal under Python
value equality). -/
def rowEqB (a b : Row) : Bool :=
  a.length == b.length && (List.zip a b).all fun p => valEq p.1 p.2

/-- An in-memory pandas DataFrame: column names, their dtypes (parallel to
`cols`), and the rows.  The row position is the (default `RangeIndex`) label. -/
structure Table where
  cols : List String
  dtypes : List DType
  rows : List Row
deriving Repr, DecidableEq

/-- The empty DataFrame `pd.DataFrame()`. -/
def emptyTable : Table := ⟨[], [], []⟩

/-- Position of a column label, as pandas label lookup (first match). -/
def colIdx (t : Table) (c : String) : Option ℕ :=
  t.cols.findIdx? (· == c)

/-- Cell of row `r` in column `c` of table `t` (missing column reads as null;
all uses in the embedding are guarded by column-presence checks, as the code's
`KeyError`-raising accesses are modelled with `Except`). -/
def cellAt (t : Table) (c : String) (r : Row) : Val :=
  match colIdx t c with
  | some i => r.getD i .null
  | none => .null

/- ##### Column-name normalization (`clean_tb_data`, lines 30-36) ##### -/

/-- Whitespace as stripped by `str.strip()` (ASCII subset; the repository's
column names are ASCII). -/
def isWsChar (c : Char) : Bool :=
  c == ' ' || c == '\t' || c == '\n' || c == '\r'

/-- ASCII `str.lower()` on a single character. -/
def lowerChar : Char → Char
  | 'A' => 'a' | 'B' => 'b' | 'C' => 'c' | 'D' => 'd' | 'E' => 'e' | 'F' => 'f'
  | 'G' => 'g' | 'H' => 'h' | 'I' => 'i' | 'J' => 'j' | 'K' => 'k' | 'L' => 'l'
  | 'M' => 'm' | 'N' => 'n' | 'O' => 'o' | 'P' => 'p' | 'Q' => 'q' | 'R' => 'r'
  | 'S' => 's' | 'T' => 't' | 'U' => 'u' | 'V' => 'v' | 'W' => 'w' | 'X' => 'x'
  | 'Y' => 'y' | 'Z' => 'z'
  | c => c

/-- The `.str.replace(" ", "_").str.replace("-", "_")` step on one character. -/
def replChar (c : Char) : Char :=
  if c == ' ' || c == '-' then '_' else c

/-- One character through lowercasing then separator replacement. -/
def normChar (c : Char) : Char := replChar (lowerChar c)

/-- The `.str.strip()` step. -/
def trimChars (l : List Char) : List Char :=
  ((l.dropWhile isWsChar).reverse.dropWhile isWsChar).reverse

/-- Column-name normalization pipeline on the character list. -/
def normChars (l : List Char) : List Char :=
  (trimChars l).map normChar

/-- Column-name normalization: strip, lowercase, replace spaces and hyphens
with underscores (`clean_tb_data` lines 30-36). -/
def normName (s : String) : String := ⟨normChars s.data⟩

/-- The column-renaming of `df.columns = df.columns.str...` (values untouched). -/
def normalizeCols (t : Table) : Table :=
  { t with cols := t.cols.map normName }

/-- Substring test (Python `pat in s`). -/
def charsContains : List Char → List Char → Bool
  | [], p => p.isEmpty
  | c :: t, p => p.isPrefixOf (c :: t) || charsContains t p

/-- Python substring membership `pat in s` on strings. -/
def strContains (s pat : String) : Bool := charsContains s.data pat.data

/- ##### Generic table steps ##### -/

/-- The `df.rename(columns=\x7bo: n\x7d)` step (labels only). -/
def renameCol (t : Table) (o n : String) : Table :=
  { t with cols := t.cols.map fun c => if c = o then n else c }

/-- The guarded rename `if o in df.columns: df = df.rename(columns=...)`. -/
def renameIf (t : Table) (o n : String) : Table :=
  if o ∈ t.cols then renameCol t o n else t

/-- The `drop_duplicates()` step: keep the first occurrence of each row under
pandas row equality.  `seen` accumulates rows already emitted. -/
def dedupRowsAux (seen : List Row) : List Row → List Row
  | [] => []
  | r :: rest =>
    if seen.any (fun s => rowEqB s r) then dedupRowsAux seen rest
    else r :: dedupRowsAux (r :: seen) rest

/-- Rows of `df.drop_duplicates()` in order. -/
def dedupRows (rows : List Row) : List Row := dedupRowsAux [] rows

/-- The `df.dropna(subset=cs)` step (default `how='any'`). -/
def dropnaAny (t : Table) (cs : List String) : Table :=
  { t with rows := t.rows.filter fun r => cs.all fun c => !isNull (cellAt t c r) }

/-- The `df.dropna(subset=cs, how='all')` step. -/
def dropnaAllNull (t : Table) (cs : List String) : Table :=
  { t with rows := t.rows.filter fun r => !(cs.all fun c => isNull (cellAt t c r)) }

/- ##### Numeric coercion ##### -/

/-- Parse an optional sign and a run of digits; returns the value and the rest. -/
def parseDigits : List Char → Option (ℕ × ℕ) → Option (ℕ × ℕ)
  | [], acc => acc
  | c :: rest, acc =>
    if c.isDigit then
      let v := (acc.map Prod.fst).getD 0
      parseDigits rest (some (v * 10 + (c.toNat - 48), (acc.map Prod.snd).getD 0 + 1))
    else none

/-- Decimal numeral parser modelling the fragment of `pd.to_numeric` string
parsing the datasets exercise: optional sign, digits, optional fractional part.
Anything else coerces to null under `errors='coerce'`. -/
def parseNum (s : String) : Option ℚ :=
  let l := trimChars s.data
  let (sign, l) : ℚ × List Char :=
    match l with
    | '-' :: rest => (-1, rest)
    | '+' :: rest => (1, rest)
    | _ => (1, l)
  match l.findIdx? (· == '.') with
  | none =>
    match parseDigits l (some (0, 0)) with
    | some (v, k) => if k = 0 then none else some (sign * v)
    | none => none
  | some i =>
    let intPart := l.take i
    let fracPart := l.drop (i + 1)
    match parseDigits intPart (some (0, 0)), parseDigits fracPart (some (0, 0)) with
    | some (v, _), some (f, k) =>
      if intPart.isEmpty ∧ fracPart.isEmpty then none
      else some (sign * ((v : ℚ) + (f : ℚ) / ((10 : ℚ) ^ k)))
    | _, _ => none

/-- One cell through `pd.to_numeric(errors='coerce')`: numerics pass through,
booleans become 0/1, parseable strings become numbers (integral strings become
integers), anything else becomes null. -/
def toNumeric : Val → Val
  | .null => .null
  | .int n => .int n
  | .num q => .num q
  | .bool b => .int (if b then 1 else 0)
  | .str s =>
    match parseNum s with
    | some q => if q.den = 1 then .int q.num else .num q
    | none => .null

/-- The `> 100` mask of the percentage-column step (null and non-numeric cells
compare false, as in pandas). -/
def valGt100 : Val → Bool
  | .int n => 100 < n
  | .num q => 100 < q
  | _ => false

/-- One cell of `year` through `.astype('Int64')` after `to_numeric`: floats
must be integral, otherwise pandas raises (`cannot safely cast`). -/
def astypeInt64Cell : Val → Except String Val
  | .null => .ok .null
  | .int n => .ok (.int n)
  | .num q =>
    if q.den = 1 then .ok (.int q.num)
    else .error "cannot safely cast non-equivalent float64 to int64"
  | .bool b => .ok (.int (if b then 1 else 0))
  | .str _ => .error "object cannot be cast to Int64"

/-- Analysis window start (`config.MIN_YEAR`). -/
def MIN_YEAR : ℤ := 1990

/-- Analysis window end (`config.MAX_YEAR`). -/
def MAX_YEAR : ℤ := 2023

/-- The `(df['year'] >= MIN_YEAR) & (df['year'] <= MAX_YEAR)` mask on one cell. -/
def yearInRange : Val → Bool
  | .int n => MIN_YEAR ≤ n && n ≤ MAX_YEAR
  | .num q => (MIN_YEAR : ℚ) ≤ q && q ≤ (MAX_YEAR : ℚ)
  | _ => false

/-- Column-wise `.astype('Int64')` over the rows: applies `astypeInt64Cell` to
the cell at position `i` of every row, failing as a whole if any cell fails
(pandas raises on the whole column cast). -/
def astypeCol (i : ℕ) : List Row → Except String (List Row)
  | [] => .ok []
  | r :: rest =>
    match astypeInt64Cell (r.getD i .null), astypeCol i rest with
    | .ok v, .ok rest2 => .ok (r.set i v :: rest2)
    | .error e, _ => .error e
    | _, .error e => .error e

/-- The year-coercion block of `clean_tb_data` (lines 51-58): coerce `year`
to numeric, cast to nullable Int64 (raising on non-integral floats), drop rows
with null year, and filter to the valid window. -/
def yearStep (t : Table) : Except String Table :=
  match colIdx t "year" with
  | none => .ok t
  | some i =>
    match astypeCol i (t.rows.map fun r => r.set i (toNumeric (r.getD i .null))) with
    | .error e => .error e
    | .ok rows2 =>
      let t2 : Table := ⟨t.cols, t.dtypes.set i .i64n, rows2⟩
      let t3 := dropnaAny t2 ["year"]
      .ok { t3 with rows := t3.rows.filter fun r => yearInRange (r.getD i .null) }

/- ##### Sorting (`sort_values`) ##### -/

/-- Linear sort key for a scalar cell.  pandas sorts within a homogeneously
typed column; the cross-kind ranking (null, then numerics, then strings) is an
arbitrary completion never exercised by the guarded call sites.  Strings are
keyed by their character lists (code-point lexicographic, as in Python). -/
abbrev KV := ℕ ×ₗ (ℚ ×ₗ List Char)

/-- Sort key of one cell. -/
def valKV : Val → KV
  | .null => toLex (0, toLex (0, []))
  | .bool b => toLex (1, toLex (if b then 1 else 0, []))
  | .int n => toLex (1, toLex ((n : ℚ), []))
  | .num q => toLex (1, toLex (q, []))
  | .str s => toLex (2, toLex (0, s.data))

/-- Order on row positions used by the sorting indexer: compare the keys of the
rows at the two positions, breaking ties by position. -/
abbrev posRel {K : Type} [LinearOrder K] (key : Row → K) (rows : List Row) (i j : ℕ) : Prop :=
  (toLex (key (rows.getD i []), i) : K ×ₗ ℕ) ≤ toLex (key (rows.getD j []), j)

/-- Stable sort of rows by a key, modelling pandas `sort_values`: an indexer is
computed as the positions `0..n-1` ordered by `(key, position)` (the stable
argsort / `np.lexsort` semantics, with ties kept in positional order), and the
rows are gathered through it. -/
def sortRowsBy {K : Type} [LinearOrder K] (key : Row → K) (rows : List Row) : List Row :=
  (List.insertionSort (posRel key rows) (List.range rows.length)).map
    fun i => rows.getD i []

/-- Key of `sort_values(['country', 'year'])` given the two column positions. -/
def rowKeyCY (ci yi : ℕ) (r : Row) : KV ×ₗ KV :=
  toLex (valKV (r.getD ci .null), valKV (r.getD yi .null))

/-- The `df.sort_values(['country', 'year']).reset_index(drop=True)` step. -/
def sortStep (t : Table) : Table :=
  match colIdx t "country", colIdx t "year" with
  | some ci, some yi => { t with rows := sortRowsBy (rowKeyCY ci yi) t.rows }
  | _, _ => t

/- ##### clean_tb_data ##### -/

/-- First half of `clean_tb_data` (data_cleaning.py lines 27-48): normalize
column names, drop duplicate rows, and drop rows with missing keys (only when
both key columns exist). -/
def clean_tb_pre (t : Table) : Table :=
  let t1 := normalizeCols t
  let t2 := { t1 with rows := dedupRows t1.rows }
  if "country" ∈ t2.cols ∧ "year" ∈ t2.cols then dropnaAny t2 ["country", "year"] else t2

/-- General cleaning `clean_tb_data` (data_cleaning.py lines 15-65): the
pre-stage above, then year coercion and windowing (lines 51-58), then the
(country, year) sort (lines 61-62).  The only failure path is the
`astype('Int64')` cast on a non-integral year. -/
def clean_tb_data (t : Table) : Except String Table :=
  let t3 := clean_tb_pre t
  match (if "year" ∈ t3.cols then yearStep t3 else .ok t3) with
  | .error e => .error e
  | .ok t4 => .ok (if "country" ∈ t4.cols ∧ "year" ∈ t4.cols then sortStep t4 else t4)

/- ##### Grouped forward fill ##### -/

/-- Lookup of the running last non-null value for a country key. -/
def lookupVal (acc : List (Val × Val)) (k : Val) : Val :=
  match acc.find? (fun p => valEq p.1 k) with
  | some p => p.2
  | none => .null

/-- The `df.groupby('country')[col].transform(lambda x: x.ffill())` step for the
column at position `colI`, grouping on the column at position `ci`:  within each
country group (in row order) a null cell receives the group's most recent
non-null value; rows whose group key is null belong to no group, so the
transform leaves them `NaN` (pandas `groupby` drops null keys and reindexes). -/
def ffillColAux (ci colI : ℕ) (acc : List (Val × Val)) : List Row → List Row
  | [] => []
  | r :: rest =>
    let k := r.getD ci .null
    if isNull k then r.set colI .null :: ffillColAux ci colI acc rest
    else
      let v := r.getD colI .null
      if isNull v then r.set colI (lookupVal acc k) :: ffillColAux ci colI acc rest
      else r :: ffillColAux ci colI ((k, v) :: acc) rest

/-- Forward fill of one column grouped by the country column. -/
def ffillColAt (ci colI : ℕ) (rows : List Row) : List Row :=
  ffillColAux ci colI [] rows

/-- The value a forward fill carries into a gap: the cell (at position `colI`)
of the nearest earlier row whose group key (at position `ci`) equals `k` and
whose cell is known, or null when no such row exists.  This is the declarative
description of one forward-fill step, proved equal to the transform below. -/
def nearestPrev (ci colI : ℕ) (pre : List Row) (k : Val) : Val :=
  match (pre.filter fun r => valEq (r.getD ci .null) k && !isNull (r.getD colI .null)).getLast? with
  | some r => r.getD colI .null
  | none => .null

/-- Left-saturation of a column: whenever a later row of a group has a missing
value (at a real cell position), every earlier row of the same group is missing
too.  This holds after a forward fill and makes a second fill a no-op. -/
def leftP (ci colI : ℕ) (a b : Row) : Prop :=
  valEq (a.getD ci .null) (b.getD ci .null) = true →
    isNull (b.getD colI .null) = true → colI < b.length → isNull (a.getD colI .null) = true

/-- Positions of the columns selected by `select_dtypes(include=[np.number])`. -/
def numericIdxs (t : Table) : List ℕ :=
  (List.range t.cols.length).filter fun i => (t.dtypes.getD i .obj).isNum

/-- The forward-fill loop of `clean_owid_data` (lines 101-106) and
`clean_who_data` (lines 160-164): every numeric column is forward-filled per
country.  The set of numeric columns is computed once, before the loop, as in
the source. -/
def ffillNumeric (t : Table) : Table :=
  match colIdx t "country" with
  | none => t
  | some ci =>
    { t with rows := (numericIdxs t).foldl (fun rs i => ffillColAt ci i rs) t.rows }

/- ##### clean_owid_data / clean_who_data ##### -/

/-- OWID indicator columns checked by the final `dropna(how='all')`. -/
def tb_indicators : List String :=
  ["tb_incidence", "tuberculosis_deaths", "tuberculosis_incidence_rate",
   "tuberculous_mortality_rate", "population"]

/-- WHO indicator columns checked by the final `dropna(how='all')`. -/
def who_indicators : List String :=
  ["tb_cases_notified", "tb_treatment_success_rate", "tb_treatment_coverage",
   "tb_cases_detected", "tb_cases_with_drug_susceptibility_test"]

/-- The three source-specific renames at the top of `clean_owid_data` and
`clean_who_data` (applied to the raw, un-normalized labels). -/
def applyRenames (t : Table) : Table :=
  renameIf
    (renameIf (renameIf t "Entity" "country") "Year" "year")
    "Estimated incidence of all forms of tuberculosis" "tb_incidence"

/-- The trailing `dropna(subset=available_indicators, how='all')` step, guarded
by `if available_indicators:`. -/
def dropAllNullIndicators (t : Table) (indicators : List String) : Table :=
  let avail := indicators.filter (· ∈ t.cols)
  if avail.isEmpty then t else dropnaAllNull t avail

/-- OWID-specific cleaning `clean_owid_data` (lines 68-115): renames, general
cleaning, per-country forward fill of numeric columns (guarded on the presence
of `country`), and removal of rows with all OWID indicators missing. -/
def clean_owid_data (t : Table) : Except String Table :=
  match clean_tb_data (applyRenames t) with
  | .error e => .error e
  | .ok d =>
    let f := if "country" ∈ d.cols then ffillNumeric d else d
    .ok (dropAllNullIndicators f tb_indicators)

/-- Name test for a percentage-type column (`'success_rate' in col or
'coverage' in col`). -/
def isPctName (c : String) : Bool :=
  strContains c "success_rate" || strContains c "coverage"

/-- Positions of the percentage-type columns of `clean_who_data` line 152. -/
def pctIdxs (t : Table) : List ℕ :=
  (List.range t.cols.length).filter fun i => isPctName (t.cols.getD i "")

/-- One cell through the percentage standardization (lines 156-157): numeric
coercion, then values strictly above 100 become null (never capped). -/
def pctCell (v : Val) : Val :=
  let v1 := toNumeric v
  if valGt100 v1 then .null else v1

/-- The percentage-column loop of `clean_who_data` (lines 151-158).  The
assignment rewrites the column, so its dtype becomes numeric (float64; the
exact numeric dtype is irrelevant downstream, only numeric-ness is observed). -/
def pctStep (t : Table) : Table :=
  (pctIdxs t).foldl
    (fun acc i =>
      ⟨acc.cols, acc.dtypes.set i .f64,
        acc.rows.map fun r => r.set i (pctCell (r.getD i .null))⟩)
    t

/-- WHO-specific cleaning `clean_who_data` (lines 118-173): renames, general
cleaning, percentage standardization, per-country forward fill, and removal of
rows with all WHO indicators missing.  Note the percentage step precedes the
forward fill, as in the source. -/
def clean_who_data (t : Table) : Except String Table :=
  match clean_tb_data (applyRenames t) with
  | .error e => .error e
  | .ok d =>
    let p := pctStep d
    let f := if "country" ∈ p.cols then ffillNumeric p else p
    .ok (dropAllNullIndicators f who_indicators)

/- ##### Analysis (`analysis.py`) ##### -/

/-- Column selection `df[cs]` (raises `KeyError` when a label is absent). -/
def selectCols (t : Table) (cs : List String) : Except String Table :=
  if cs.all (· ∈ t.cols) then
    .ok ⟨cs, cs.map (fun c => t.dtypes.getD ((colIdx t c).getD 0) .obj),
         t.rows.map fun r => cs.map fun c => cellAt t c r⟩
  else .error "KeyError"

/-- The cells of row `r` of table `t` outside the join keys, in column order. -/
def nonKeyCells (t : Table) (onKeys : List String) (r : Row) : Row :=
  ((List.range t.cols.length).filter fun i => (t.cols.getD i "") ∉ onKeys).map
    fun i => r.getD i .null

/-- Inner join `pd.merge(l, r, on=onKeys, how='inner')`: for each left row, every
right row with Python-equal key cells contributes one result row; result
columns are the left columns followed by the right non-key columns. -/
def innerMerge (l r : Table) (onKeys : List String) : Table :=
  ⟨l.cols ++ r.cols.filter (· ∉ onKeys),
   l.dtypes ++ (((List.range r.cols.length).filter fun i => (r.cols.getD i "") ∉ onKeys).map
      fun i => r.dtypes.getD i .obj),
   l.rows.flatMap fun lr =>
     (r.rows.filter fun rr => onKeys.all fun c => valEq (cellAt l c lr) (cellAt r c rr)).map
       fun rr => lr ++ nonKeyCells r onKeys rr⟩

/-- Cross-source comparison `compare_incidence_vs_treatment_success`
(analysis.py lines 225-263): bail out with an empty frame when either input
lacks `tb_incidence` (the only indicator ever joined); otherwise inner-join the
`country`/`year`/`tb_incidence` projections (the WHO copy renamed to
`who_tb_incidence`) and sort by (country, year). -/
def compare_incidence_vs_treatment_success (owid_df who_df : Table) :
    Except String Table :=
  if "tb_incidence" ∈ owid_df.cols then
    match selectCols owid_df ["country", "year", "tb_incidence"] with
    | .error e => .error e
    | .ok owid_subset =>
      if "tb_incidence" ∈ who_df.cols then
        match selectCols who_df ["country", "year", "tb_incidence"] with
        | .error e => .error e
        | .ok who_subset0 =>
          let who_subset := renameCol who_subset0 "tb_incidence" "who_tb_incidence"
          .ok (sortStep (innerMerge owid_subset who_subset ["country", "year"]))
      else .ok emptyTable
  else .ok emptyTable

/-- The non-null integer years of the `year` column, for `df['year'].max()`. -/
def intYears (t : Table) : List ℤ :=
  t.rows.filterMap fun r =>
    match cellAt t "year" r with
    | .int n => some n
    | _ => none

/-- The `int(df['year'].max())` computation: fails when the column is absent or
holds no integer value (`max()` of an empty/all-null series is `NaN`). -/
def maxYearZ (t : Table) : Option ℤ :=
  if "year" ∈ t.cols then (intYears t).max? else none

/-- Descending sort key of the ranking indicator. -/
def descKey (t : Table) (c : String) (r : Row) : KVᵒᵈ :=
  OrderDual.toDual (valKV (cellAt t c r))

/-- Contract of the single-column `sort_values(ranking_col, ascending=False)`
call in `owid_top_affected_countries`.  Unlike the multi-column sort of the
cleaner (a stable `np.lexsort`), a single-column `sort_values` uses numpy's
default `kind='quicksort'` (introsort), which guarantees only that the result
is a permutation ordered by the key — the relative order of tied rows is
unspecified.  The ranking function is therefore abstracted over the sorting
algorithm, constrained by this contract. -/
def sortsByKey (s : (Row → KVᵒᵈ) → List Row → List Row) : Prop :=
  ∀ (key : Row → KVᵒᵈ) (rows : List Row),
    (s key rows).Perm rows ∧ (s key rows).Pairwise fun a b => key a ≤ key b

/-- A sort satisfying `sortsByKey` that reverses the insertion order of tied
rows: it witnesses that the contract leaves the tie order open. -/
def revSort (key : Row → KVᵒᵈ) (rows : List Row) : List Row :=
  List.insertionSort (fun a b => key a ≤ key b) rows.reverse

/-- Top-N ranking `owid_top_affected_countries` (analysis.py lines 48-88):
empty input short-circuits; the period defaults to the maximum year present;
rows of that period with a non-null `tb_incidence` are sorted descending by it
by `sortImpl` — any algorithm satisfying `sortsByKey`, since the source's
single-column `sort_values` leaves the tie order unspecified — and the first
`n` are returned, projected to country/year/indicator. -/
def owid_top_affected_countries (sortImpl : (Row → KVᵒᵈ) → List Row → List Row)
    (t : Table) (year : Option ℤ) (n : ℕ) :
    Except String Table :=
  if t.rows.isEmpty then .ok emptyTable
  else
    match (match year with
      | some y => Except.ok y
      | none =>
        match maxYearZ t with
        | some m => Except.ok m
        | none => Except.error "year column absent or empty") with
    | .error e => .error e
    | .ok y =>
      let year_data := { t with rows := t.rows.filter fun r => valEq (cellAt t "year" r) (.int y) }
      if "tb_incidence" ∈ year_data.cols then
        let nn := dropnaAny year_data ["tb_incidence"]
        let srt := { nn with rows := sortImpl (descKey nn "tb_incidence") nn.rows }
        let hd := { srt with rows := srt.rows.take n }
        selectCols hd ["country", "year", "tb_incidence"]
      else .ok emptyTable

/- ##### Outlier flagging (`identify_outliers`, data_cleaning.py 176-202) ##### -/

/-- The `df['is_outlier'] = False` assignment: overwrite the column when it
exists, otherwise append it (dtype bool). -/
def addFlagCol (t : Table) : Table :=
  match colIdx t "is_outlier" with
  | some i =>
    ⟨t.cols, t.dtypes.set i .boolean, t.rows.map fun r => r.set i (.bool false)⟩
  | none =>
    ⟨t.cols ++ ["is_outlier"], t.dtypes ++ [.boolean],
     t.rows.map fun r => r ++ [.bool false]⟩

/-- One iteration of the `identify_outliers` loop for a present column `c`:
`z_scores = np.abs(stats.zscore(df[col].dropna()))` is a Series indexed by the
rows where `df[col]` is non-null, `outliers = z_scores > threshold` is a
boolean Series over that same index, and `df.loc[outliers.index, 'is_outlier']
= True` indexes with `outliers.index` — the full non-null index, irrespective
of the boolean values — so the flag is set on every row whose value in `c` is
non-null.  The computed z-scores never influence the result. -/
def flagNonNull (t : Table) (c : String) : Table :=
  match colIdx t "is_outlier", colIdx t c with
  | some fi, some vi =>
    { t with rows := t.rows.map fun r =>
        if isNull (r.getD vi .null) then r else r.set fi (.bool true) }
  | _, _ => t

/-- The non-emptiness of `df[col].dropna()`.  When the series is empty,
`scipy.stats.zscore` returns `np.empty(a.shape)` — a bare ndarray — so the
subsequent `outliers.index` raises `AttributeError`; the loop only proceeds
when some value of the column is non-null. -/
def hasNonNull (t : Table) (c : String) : Bool :=
  t.rows.any fun r => !isNull (cellAt t c r)

/-- One iteration of the `identify_outliers` loop over a requested column: a
prior exception propagates; an absent column is skipped; a present column with
no non-null values makes `outliers.index` raise `AttributeError` (scipy's
`zscore` returns a bare ndarray for empty input); otherwise the flag is set on
every non-null row of the column. -/
def outlierStep (acc : Except String Table) (c : String) : Except String Table :=
  match acc with
  | .error e => .error e
  | .ok tb =>
    if c ∈ tb.cols then
      (if hasNonNull tb c then .ok (flagNonNull tb c)
       else .error "AttributeError: 'numpy.ndarray' object has no attribute 'index'")
    else .ok tb

/-- Outlier flagging `identify_outliers` (data_cleaning.py lines 176-202):
initialize the flag column to false, then run the loop; an `AttributeError`
raised inside the loop propagates out of the function. -/
def identify_outliers (t : Table) (columns : List String) (_zscore_threshold : ℚ) :
    Except String Table :=
  columns.foldl outlierStep (.ok (addFlagCol t))

/- ##### Pipeline orchestration (`pipeline.py`) ##### -/

/-- Mutable state of `TBAnalysisPipeline`.  The raw tables stand for the files
on disk (`none` models a missing input file); the cleaned/merged slots start
out as `None`. -/
structure PipeState where
  owidRaw : Option Table
  whoRaw : Option Table
  owidClean : Option Table := none
  whoClean : Option Table := none
  merged : Option Table := none
deriving Repr, DecidableEq

/-- Stage names, in pipeline order. -/
inductive StageName where
  | load
  | clean
  | owid
  | who
  | combined
deriving Repr, DecidableEq

/-- Stage 1 `load_data`: succeeds when both input files load. -/
def loadStage (st : PipeState) : Bool × PipeState :=
  match st.owidRaw, st.whoRaw with
  | some _, some _ => (true, st)
  | _, _ => (false, st)

/-- Stage 2 `clean_data`: cleans OWID then WHO; an exception in either leaves
the earlier assignment in place (`self.owid_clean` is set before
`clean_who_data` runs) and the stage reports failure.  Persisting to CSV is a
side effect outside the model. -/
def cleanStage (st : PipeState) : Bool × PipeState :=
  match st.owidRaw, st.whoRaw with
  | some o, some w =>
    match clean_owid_data o with
    | .error _ => (false, st)
    | .ok oc =>
      match clean_who_data w with
      | .error _ => (false, { st with owidClean := some oc })
      | .ok wc => (true, { st with owidClean := some oc, whoClean := some wc })
  | _, _ => (false, st)

/-- Stage 3A `analyze_owid`: raises (hence returns `False`) when no cleaned
OWID table exists or `int(self.owid_clean['year'].max())` fails; the plotting
calls are modelled as succeeding (out of scope per the spec). -/
def owidAnalysisStage (st : PipeState) : Bool × PipeState :=
  match st.owidClean with
  | some t => ((maxYearZ t).isSome, st)
  | none => (false, st)

/-- Stage 3B `analyze_who`, same shape as 3A over the WHO table. -/
def whoAnalysisStage (st : PipeState) : Bool × PipeState :=
  match st.whoClean with
  | some t => ((maxYearZ t).isSome, st)
  | none => (false, st)

/-- Stage 4 `analyze_combined`: raises (returns `False`) when a cleaned table
is missing; otherwise runs the merge and stores it. -/
def combinedStage (st : PipeState) : Bool × PipeState :=
  match st.owidClean, st.whoClean with
  | some o, some w =>
    match compare_incidence_vs_treatment_success o w with
    | .ok m => (true, { st with merged := some m })
    | .error _ => (false, st)
  | _, _ => (false, st)

/-- Result of one `TBAnalysisPipeline.run()` call: the stages that executed in
order, their reported results, overall success, and the final state. -/
structure RunResult where
  executed : List StageName
  results : List Bool
  success : Bool
  final : PipeState
deriving Repr, DecidableEq

/-- The `run` method:  `success = all([self.load_data(), self.clean_data(),
self.analyze_owid(), self.analyze_who(), self.analyze_combined()])` builds the
whole list before `all` folds it, so every stage executes unconditionally, in
order; `all` merely conjoins the already-computed results. -/
def pipelineRun (st0 : PipeState) : RunResult :=
  let (b1, s1) := loadStage st0
  let (b2, s2) := cleanStage s1
  let (b3, s3) := owidAnalysisStage s2
  let (b4, s4) := whoAnalysisStage s3
  let (b5, s5) := combinedStage s4
  ⟨[.load, .clean, .owid, .who, .combined], [b1, b2, b3, b4, b5],
   [b1, b2, b3, b4, b5].all id, s5⟩

/- ##### Derived step forms (groupings of the source's loops) ##### -/

/-- The numeric-column forward-fill fold of `ffillNumeric`, abstracted over the
index list. -/
def ffillFold (ci : ℕ) (idxs : List ℕ) (rows : List Row) : List Row :=
  idxs.foldl (fun rs i => ffillColAt ci i rs) rows

/-- Row image of the percentage-column loop of `clean_who_data`, abstracted
over the index list. -/
def pctRow (idxs : List ℕ) (r : Row) : Row :=
  idxs.foldl (fun r i => r.set i (pctCell (r.getD i .null))) r

/-- Dtype image of the percentage-column loop. -/
def setF64 (idxs : List ℕ) (d : List DType) : List DType :=
  idxs.foldl (fun d i => d.set i .f64) d

/- ##### Key lists for the merge (claim C5) ##### -/

/-- The (country, year) key of each row of a table, in order. -/
def keyPairs (t : Table) : List (Val × Val) :=
  t.rows.map fun r => (cellAt t "country" r, cellAt t "year" r)

/-- pandas equality of two (country, year) keys. -/
def pairEqB (a b : Val × Val) : Bool := valEq a.1 b.1 && valEq a.2 b.2

/-- First-occurrence deduplication under an equality test. -/
def dedupByAux {α : Type} (eq : α → α → Bool) (seen : List α) : List α → List α
  | [] => []
  | a :: rest =>
    if seen.any (fun s => eq s a) then dedupByAux eq seen rest
    else a :: dedupByAux eq (a :: seen) rest

/-- First-occurrence deduplication of a whole list. -/
def dedupBy {α : Type} (eq : α → α → Bool) (l : List α) : List α := dedupByAux eq [] l

/-- The number of distinct (country, year) keys present in both tables (the
spec's row count for the merged table). -/
def sharedKeyCount (l r : Table) : ℕ :=
  ((dedupBy pairEqB (keyPairs l)).filter fun k =>
    (keyPairs r).any fun k' => pairEqB k k').length

/- ##### Spec-side top-N ranking (claim C8) ##### -/

/-- The spec's description of the top-N ranking, formalized from the spec's
words (to be compared with `owid_top_affected_countries`): select the period's
rows, drop null ranking values, stable-sort descending by the indicator
(insertion order kept for ties), and take the first `n`. -/
def topAffectedSpec (t : Table) (y : ℤ) (n : ℕ) : List Row :=
  let sel := t.rows.filter fun r => valEq (cellAt t "year" r) (.int y)
  let nn := sel.filter fun r => !isNull (cellAt t "tb_incidence" r)
  (List.insertionSort
    (fun a b => valKV (cellAt t "tb_incidence" b) ≤ valKV (cellAt t "tb_incidence" a)) nn).take n

/- ##### Generic list helper lemmas ##### -/

theorem set_getD_self {α : Type} (l : List α) (i : ℕ) (d : α) :
    l.set i (l.getD i d) = l := by
  induction l generalizing i with
  | nil => rfl
  | cons a t ih =>
    cases i with
    | zero => rfl
    | succ i => rw [List.getD_cons_succ, List.set_cons_succ, ih i]

theorem getD_set_ne {α : Type} (l : List α) {i j : ℕ} (h : i ≠ j) (v d : α) :
    (l.set j v).getD i d = l.getD i d := by
  by_cases hi : i < l.length
  · rw [List.getD_eq_getElem _ _ (by simpa using hi), List.getD_eq_getElem _ _ hi]
    exact l.getElem_set_ne (Ne.symm h) _
  · rw [List.getD_eq_default _ _ (by simpa using Nat.le_of_not_lt hi),
      List.getD_eq_default _ _ (Nat.le_of_not_lt hi)]

theorem getD_set_self_lt {α : Type} (l : List α) {i : ℕ} (h : i < l.length) (v d : α) :
    (l.set i v).getD i d = v := by
  rw [List.getD_eq_getElem _ _ (by simpa using h)]
  simp

theorem map_eq_self_of {α : Type} {l : List α} {f : α → α} (h : ∀ a ∈ l, f a = a) :
    l.map f = l := by
  rw [List.map_congr_left h]
  simp

theorem ext_getD {α : Type} {l m : List α} (d : α) (hl : l.length = m.length)
    (h : ∀ i, i < l.length → l.getD i d = m.getD i d) : l = m := by
  apply List.ext_getElem hl
  intro i h1 h2
  have := h i h1
  rwa [List.getD_eq_getElem _ _ h1, List.getD_eq_getElem _ _ h2] at this

theorem map_getD_range {α : Type} (d : α) (l : List α) :
    (List.range l.length).map (fun i => l.getD i d) = l := by
  apply List.ext_getElem (by simp)
  intro i h1 h2
  simp only [List.getElem_map, List.getElem_range]
  exact List.getD_eq_getElem _ _ h2

theorem foldl_eq_self {α β : Type} {f : α → β → α} {t : α} {l : List β}
    (h : ∀ b ∈ l, f t b = t) : l.foldl f t = t := by
  induction l with
  | nil => rfl
  | cons b l ih =>
    rw [List.foldl_cons, h b (by simp)]
    exact ih fun b hb => h b (by simp [hb])

/- ##### Value equality lemmas ##### -/

theorem valEq_symm (a b : Val) : valEq a b = valEq b a := by
  cases a <;> cases b <;> simp [valEq, beq_iff_eq, eq_comm]

theorem valEq_trans {a b c : Val} (h1 : valEq a b = true) (h2 : valEq b c = true) :
    valEq a c = true := by
  cases a <;> cases b <;> cases c <;> simp_all [valEq, beq_iff_eq]

/- ##### Column lookup lemmas ##### -/

theorem colIdx_isSome_iff {t : Table} {c : String} :
    (colIdx t c).isSome = true ↔ c ∈ t.cols := by
  rw [colIdx, List.findIdx?_isSome, List.any_eq_true]
  constructor
  · rintro ⟨x, hx, he⟩
    obtain rfl := by simpa using he
    exact hx
  · intro h
    exact ⟨c, h, by simp⟩

theorem colIdx_mem {t : Table} {c : String} (h : c ∈ t.cols) :
    ∃ i, colIdx t c = some i := by
  have := colIdx_isSome_iff.2 h
  exact Option.isSome_iff_exists.1 this

theorem colIdx_spec {t : Table} {c : String} {i : ℕ} (h : colIdx t c = some i) :
    ∃ hlt : i < t.cols.length, t.cols[i] = c := by
  rw [colIdx, List.findIdx?_eq_some_iff_getElem] at h
  obtain ⟨hlt, hp, -⟩ := h
  exact ⟨hlt, by simpa using hp⟩

theorem colIdx_ne {t : Table} {c c' : String} {i j : ℕ} (h1 : colIdx t c = some i)
    (h2 : colIdx t c' = some j) (hne : c ≠ c') : i ≠ j := by
  obtain ⟨hi, hci⟩ := colIdx_spec h1
  obtain ⟨hj, hcj⟩ := colIdx_spec h2
  rintro rfl
  exact hne (hci ▸ hcj)

theorem cellAt_of_colIdx {t : Table} {c : String} {i : ℕ} (h : colIdx t c = some i) (r : Row) :
    cellAt t c r = r.getD i .null := by
  rw [cellAt, h]

theorem cellAt_rows (t : Table) (rs : List Row) (c : String) (r : Row) :
    cellAt { t with rows := rs } c r = cellAt t c r := rfl

/- ##### Sorting lemmas ##### -/

section Sorting

variable {K : Type} [LinearOrder K] (key : Row → K) (rows : List Row)

theorem posRel_trans : ∀ {a b c : ℕ}, posRel key rows a b → posRel key rows b c →
    posRel key rows a c := fun h1 h2 => le_trans h1 h2

theorem posRel_total : ∀ a b : ℕ, posRel key rows a b ∨ posRel key rows b a :=
  fun _ _ => le_total _ _

theorem posRel_antisymm : ∀ {a b : ℕ}, posRel key rows a b → posRel key rows b a → a = b := by
  intro a b h1 h2
  have := le_antisymm h1 h2
  have := congrArg (fun x : K ×ₗ ℕ => (ofLex x).2) this
  simpa using this

theorem sortRowsBy_perm : (sortRowsBy key rows).Perm rows := by
  rw [sortRowsBy]
  have h1 := List.perm_insertionSort (posRel key rows) (List.range rows.length)
  have h2 := h1.map fun i => rows.getD i []
  rwa [map_getD_range] at h2

theorem sortRowsBy_length : (sortRowsBy key rows).length = rows.length :=
  (sortRowsBy_perm key rows).length_eq

theorem sortRowsBy_mem {r : Row} (h : r ∈ sortRowsBy key rows) : r ∈ rows :=
  (sortRowsBy_perm key rows).mem_iff.1 h

theorem posRel_key_le {i j : ℕ} (h : posRel key rows i j) :
    key (rows.getD i []) ≤ key (rows.getD j []) := by
  rcases (Prod.Lex.le_iff _ _).1 h with h' | ⟨h', -⟩
  · exact le_of_lt h'
  · exact le_of_eq h'

theorem sortRowsBy_pairwise :
    (sortRowsBy key rows).Pairwise fun a b => key a ≤ key b := by
  rw [sortRowsBy]
  haveI : IsTotal ℕ (posRel key rows) := ⟨posRel_total key rows⟩
  haveI : IsTrans ℕ (posRel key rows) := ⟨fun _ _ _ => posRel_trans key rows⟩
  have hs := List.sorted_insertionSort (posRel key rows) (List.range rows.length)
  exact hs.map _ fun a b h => posRel_key_le key rows h

theorem sortRowsBy_eq_self (h : rows.Pairwise fun a b => key a ≤ key b) :
    sortRowsBy key rows = rows := by
  rw [sortRowsBy]
  have hs : (List.range rows.length).Sorted (posRel key rows) := by
    rw [List.Sorted, List.pairwise_iff_getElem]
    intro i j hi hj hij
    simp only [List.getElem_range]
    have hk : key (rows.getD i []) ≤ key (rows.getD j []) := by
      rw [List.pairwise_iff_getElem] at h
      rw [List.getD_eq_getElem _ _ (by simpa using hi), List.getD_eq_getElem _ _ (by simpa using hj)]
      exact h i j (by simpa using hi) (by simpa using hj) hij
    rcases lt_or_eq_of_le hk with h' | h'
    · exact (Prod.Lex.le_iff _ _).2 (Or.inl h')
    · exact (Prod.Lex.le_iff _ _).2 (Or.inr ⟨h', le_of_lt hij⟩)
  rw [hs.insertionSort_eq, map_getD_range]

theorem posRel_iff_key_le {K : Type} [LinearOrder K] (key : Row → K) (rows : List Row)
    {i j : ℕ} (hij : i < j) :
    posRel key rows i j ↔ key (rows.getD i []) ≤ key (rows.getD j []) := by
  constructor
  · exact posRel_key_le key rows
  · intro h
    rcases lt_or_eq_of_le h with h' | h'
    · exact (Prod.Lex.le_iff _ _).2 (Or.inl h')
    · exact (Prod.Lex.le_iff _ _).2 (Or.inr ⟨h', le_of_lt hij⟩)

theorem orderedInsert_map_getD {K : Type} [LinearOrder K] (key : Row → K) (rows : List Row)
    (i : ℕ) (J : List ℕ) (hJ : ∀ j ∈ J, i < j) :
    (List.orderedInsert (posRel key rows) i J).map (fun j => rows.getD j []) =
      List.orderedInsert (fun a b : Row => key a ≤ key b) (rows.getD i [])
        (J.map fun j => rows.getD j []) := by
  induction J with
  | nil => rfl
  | cons j J ih =>
    simp only [List.orderedInsert, List.map_cons]
    rw [if_congr (posRel_iff_key_le key rows (hJ j (by simp))) rfl rfl]
    by_cases hc : key (rows.getD i []) ≤ key (rows.getD j [])
    · rw [if_pos hc, if_pos hc]
      simp
    · rw [if_neg hc, if_neg hc, List.map_cons, ih fun j hj => hJ j (by simp [hj])]

theorem insertionSort_range'_map {K : Type} [LinearOrder K] (key : Row → K) (rows : List Row) :
    ∀ (k s : ℕ),
      (List.insertionSort (posRel key rows) (List.range' s k)).map (fun j => rows.getD j []) =
        List.insertionSort (fun a b : Row => key a ≤ key b)
          ((List.range' s k).map fun j => rows.getD j []) := by
  intro k
  induction k with
  | zero => intro s; rfl
  | succ k ih =>
    intro s
    rw [List.range'_succ, List.insertionSort, List.map_cons, List.insertionSort]
    rw [orderedInsert_map_getD key rows s _ ?later, ih (s + 1)]
    intro j hj
    have hm := (List.mem_insertionSort (posRel key rows)).1 hj
    rw [List.mem_range'] at hm
    obtain ⟨w, -, rfl⟩ := hm
    omega

/-- The indexer-based pandas sort coincides with a plain stable insertion sort
of the rows by the key (the spec-side description of a stable sort). -/
theorem sortRowsBy_eq_insertionSort {K : Type} [LinearOrder K] (key : Row → K) (rows : List Row) :
    sortRowsBy key rows = List.insertionSort (fun a b : Row => key a ≤ key b) rows := by
  rw [sortRowsBy, List.range_eq_range', insertionSort_range'_map key rows,
    ← List.range_eq_range', map_getD_range]

theorem orderedInsert_congr {α : Type} {r s : α → α → Prop} [DecidableRel r] [DecidableRel s]
    (h : ∀ a b, r a b ↔ s a b) (a : α) (l : List α) :
    List.orderedInsert r a l = List.orderedInsert s a l := by
  induction l with
  | nil => rfl
  | cons b l ih => simp only [List.orderedInsert, if_congr (h a b) rfl rfl, ih]

theorem insertionSort_congr {α : Type} {r s : α → α → Prop} [DecidableRel r] [DecidableRel s]
    (h : ∀ a b, r a b ↔ s a b) (l : List α) :
    List.insertionSort r l = List.insertionSort s l := by
  induction l with
  | nil => rfl
  | cons b l ih => simp only [List.insertionSort, ih, orderedInsert_congr h]

end Sorting

/- ##### Column-name normalization lemmas ##### -/

theorem lowerChar_cases (c : Char) :
    lowerChar c = c ∨ lowerChar c ∈ ['a', 'b', 'c', 'd', 'e', 'f', 'g', 'h', 'i', 'j', 'k', 'l',
      'm', 'n', 'o', 'p', 'q', 'r', 's', 't', 'u', 'v', 'w', 'x', 'y', 'z'] := by
  unfold lowerChar
  split <;> first | (right; decide) | (left; rfl)

theorem replChar_cases (c : Char) : replChar c = c ∨ replChar c = '_' := by
  rw [replChar]
  split <;> simp

theorem replChar_of_lc {d : Char} (h : d ∈ ['a', 'b', 'c', 'd', 'e', 'f', 'g', 'h', 'i', 'j',
    'k', 'l', 'm', 'n', 'o', 'p', 'q', 'r', 's', 't', 'u', 'v', 'w', 'x', 'y', 'z']) :
    replChar d = d := by
  fin_cases h <;> decide

theorem lowerChar_of_lc {d : Char} (h : d ∈ ['a', 'b', 'c', 'd', 'e', 'f', 'g', 'h', 'i', 'j',
    'k', 'l', 'm', 'n', 'o', 'p', 'q', 'r', 's', 't', 'u', 'v', 'w', 'x', 'y', 'z']) :
    lowerChar d = d := by
  fin_cases h <;> decide

theorem isWs_of_lc {d : Char} (h : d ∈ ['a', 'b', 'c', 'd', 'e', 'f', 'g', 'h', 'i', 'j',
    'k', 'l', 'm', 'n', 'o', 'p', 'q', 'r', 's', 't', 'u', 'v', 'w', 'x', 'y', 'z']) :
    isWsChar d = false := by
  fin_cases h <;> decide

theorem normChar_idem (c : Char) : normChar (normChar c) = normChar c := by
  rcases lowerChar_cases c with h | h
  · have hnc : normChar c = replChar c := by rw [normChar, h]
    rw [hnc]
    rcases replChar_cases c with h' | h'
    · rw [h', normChar, h, h']
    · rw [h']
      decide
  · have hnc : normChar c = lowerChar c := by rw [normChar, replChar_of_lc h]
    rw [hnc, normChar, lowerChar_of_lc h, replChar_of_lc h]

theorem isWs_normChar {c : Char} (h : isWsChar c = false) : isWsChar (normChar c) = false := by
  rcases lowerChar_cases c with h' | h'
  · rw [normChar, h']
    rcases replChar_cases c with h'' | h''
    · rwa [h'']
    · rw [h'']
      decide
  · rw [normChar, replChar_of_lc h']
    exact isWs_of_lc h'

theorem head?_dropWhile_pred {α : Type} (p : α → Bool) (l : List α) {x : α}
    (h : (l.dropWhile p).head? = some x) : p x = false := by
  have hh := List.head?_dropWhile_not p l
  rw [h] at hh
  exact hh

theorem dropWhile_eq_self_of_head {α : Type} {p : α → Bool} {l : List α}
    (h : l.head?.all fun c => !p c) : l.dropWhile p = l := by
  cases l with
  | nil => rfl
  | cons a t =>
    simp only [List.head?_cons, Option.all_some, Bool.not_eq_true'] at h
    rw [List.dropWhile_cons_of_neg (by simp [h])]

theorem trim_ends (l : List Char) :
    ((trimChars l).head?.all fun c => !isWsChar c) ∧
      ((trimChars l).getLast?.all fun c => !isWsChar c) := by
  rw [trimChars]
  set m := ((l.dropWhile isWsChar).reverse).dropWhile isWsChar with hm
  constructor
  · rw [List.head?_reverse]
    cases hml : m.getLast? with
    | none => simp
    | some x =>
      obtain ⟨pre, hpre⟩ := List.dropWhile_suffix (l := (l.dropWhile isWsChar).reverse) isWsChar
      rw [← hm] at hpre
      have hx : ((l.dropWhile isWsChar).reverse).getLast? = some x := by
        rw [← hpre, List.getLast?_append, hml]
        rfl
      rw [List.getLast?_reverse] at hx
      simp only [Option.all_some, Bool.not_eq_true']
      exact head?_dropWhile_pred _ _ hx
  · rw [List.getLast?_reverse]
    cases hml : m.head? with
    | none => simp
    | some x =>
      simp only [Option.all_some, Bool.not_eq_true']
      exact head?_dropWhile_pred _ _ hml

theorem trim_eq_self {l : List Char} (h1 : l.head?.all fun c => !isWsChar c)
    (h2 : l.getLast?.all fun c => !isWsChar c) : trimChars l = l := by
  rw [trimChars, dropWhile_eq_self_of_head h1,
    dropWhile_eq_self_of_head (by rwa [List.head?_reverse]), List.reverse_reverse]

theorem map_normChar_idem (l : List Char) :
    (l.map normChar).map normChar = l.map normChar := by
  rw [List.map_map]
  apply List.map_congr_left
  intro a _
  exact normChar_idem a

theorem normChars_idem (l : List Char) : normChars (normChars l) = normChars l := by
  rw [normChars, normChars, trim_eq_self ?h1 ?h2, map_normChar_idem]
  case h1 =>
    rw [List.head?_map]
    cases hh : (trimChars l).head? with
    | none => simp
    | some x =>
      have hx := (trim_ends l).1
      rw [hh] at hx
      simp only [Option.all_some, Bool.not_eq_true'] at hx ⊢
      simp [isWs_normChar hx]
  case h2 =>
    rw [List.getLast?_map]
    cases hh : (trimChars l).getLast? with
    | none => simp
    | some x =>
      have hx := (trim_ends l).2
      rw [hh] at hx
      simp only [Option.all_some, Bool.not_eq_true'] at hx ⊢
      simp [isWs_normChar hx]

theorem normName_idem (s : String) : normName (normName s) = normName s :=
  congrArg String.mk (normChars_idem s.data)

/- ##### Deduplication lemmas ##### -/

theorem dedupRowsAux_eq_self {seen rows : List Row}
    (hseen : ∀ s ∈ seen, ∀ r ∈ rows, rowEqB s r = false)
    (h : rows.Pairwise fun a b => rowEqB a b = false) : dedupRowsAux seen rows = rows := by
  induction rows generalizing seen with
  | nil => rfl
  | cons r rest ih =>
    rw [dedupRowsAux, if_neg]
    · rw [ih ?hs (List.Pairwise.of_cons h)]
      case hs =>
        intro s hsmem r' hr'
        rcases List.mem_cons.1 hsmem with rfl | hsmem
        · exact (List.pairwise_cons.1 h).1 r' hr'
        · exact hseen s hsmem r' (by simp [hr'])
    · simp only [List.any_eq_true, not_exists, not_and]
      intro s hsmem
      simp [hseen s hsmem r (by simp)]

theorem dedupRows_eq_self {rows : List Row}
    (h : rows.Pairwise fun a b => rowEqB a b = false) : dedupRows rows = rows :=
  dedupRowsAux_eq_self (by simp) h

/- ##### astype / yearStep lemmas ##### -/

theorem astypeInt64Cell_ok_shape {x v : Val} (h : astypeInt64Cell x = .ok v) :
    v = .null ∨ ∃ n : ℤ, v = .int n := by
  cases x with
  | null => simp only [astypeInt64Cell, Except.ok.injEq] at h; exact Or.inl h.symm
  | int n => simp only [astypeInt64Cell, Except.ok.injEq] at h; exact Or.inr ⟨n, h.symm⟩
  | num q =>
    rw [astypeInt64Cell] at h
    split at h
    · simp only [Except.ok.injEq] at h
      exact Or.inr ⟨q.num, h.symm⟩
    · simp at h
  | str s => simp [astypeInt64Cell] at h
  | bool b => simp only [astypeInt64Cell, Except.ok.injEq] at h; exact Or.inr ⟨_, h.symm⟩

theorem astypeCol_ok_char {i : ℕ} {rows out : List Row} (h : astypeCol i rows = .ok out) :
    out.length = rows.length ∧
      ∀ p, p < rows.length →
        ∃ v, astypeInt64Cell ((rows.getD p []).getD i .null) = .ok v ∧
          out.getD p [] = (rows.getD p []).set i v := by
  induction rows generalizing out with
  | nil =>
    rw [astypeCol] at h
    obtain rfl : out = [] := by simpa using h.symm
    exact ⟨rfl, fun p hp => absurd hp (by simp)⟩
  | cons r rest ih =>
    rw [astypeCol] at h
    cases hv : astypeInt64Cell (r.getD i .null) with
    | error e => rw [hv] at h; exact absurd h (by simp)
    | ok v =>
      rw [hv] at h
      cases hr : astypeCol i rest with
      | error e => rw [hr] at h; exact absurd h (by simp)
      | ok rest2 =>
        rw [hr] at h
        simp only [Except.ok.injEq] at h
        subst h
        obtain ⟨hlen, hchar⟩ := ih hr
        refine ⟨by simp [hlen], ?_⟩
        intro p hp
        cases p with
        | zero => exact ⟨v, hv, rfl⟩
        | succ p => exact hchar p (by simpa using hp)

theorem astypeCol_eq_self {i : ℕ} {rows : List Row}
    (h : ∀ r ∈ rows, astypeInt64Cell (r.getD i .null) = .ok (r.getD i .null)) :
    astypeCol i rows = .ok rows := by
  induction rows with
  | nil => rfl
  | cons r rest ih =>
    rw [astypeCol, h r (by simp), ih fun r hr => h r (by simp [hr])]
    show Except.ok (r.set i (r.getD i .null) :: rest) = Except.ok (r :: rest)
    rw [set_getD_self]

/-- Postconditions of the year-coercion block: columns unchanged, year dtype set
to Int64, and every surviving row is an original row rewritten only at the year
position, which now holds an in-window integer. -/
theorem yearStep_post {t u : Table} {i : ℕ} (hy : colIdx t "year" = some i)
    (h : yearStep t = .ok u) :
    u.cols = t.cols ∧ u.dtypes = t.dtypes.set i .i64n ∧
      ∀ r' ∈ u.rows, (∃ r ∈ t.rows, ∀ j, j ≠ i → r'.getD j .null = r.getD j .null) ∧
        ∃ n : ℤ, r'.getD i .null = .int n ∧ MIN_YEAR ≤ n ∧ n ≤ MAX_YEAR := by
  rw [yearStep, hy] at h
  dsimp only at h
  cases hac : astypeCol i (t.rows.map fun r => r.set i (toNumeric (r.getD i .null))) with
  | error e => rw [hac] at h; exact absurd h (by simp)
  | ok rows2 =>
    rw [hac] at h
    simp only [Except.ok.injEq] at h
    subst h
    refine ⟨rfl, rfl, ?_⟩
    intro r' hr'
    simp only [dropnaAny, List.mem_filter] at hr'
    obtain ⟨⟨hr2, hnn⟩, hyr⟩ := hr'
    obtain ⟨hlen, hchar⟩ := astypeCol_ok_char hac
    rw [List.mem_iff_getElem] at hr2
    obtain ⟨p, hp, hpe⟩ := hr2
    have hp' : p < (t.rows.map fun r => r.set i (toNumeric (r.getD i .null))).length := by
      omega
    obtain ⟨v, hv, hout⟩ := hchar p hp'
    rw [List.getD_eq_getElem _ _ hp] at hout
    rw [hpe] at hout
    have hpt : p < t.rows.length := by simpa using hp'
    have hmap : (t.rows.map fun r => r.set i (toNumeric (r.getD i .null))).getD p [] =
        (t.rows.getD p []).set i (toNumeric ((t.rows.getD p []).getD i .null)) := by
      rw [List.getD_eq_getElem _ _ hp', List.getD_eq_getElem _ _ hpt]
      simp
    rw [hmap, List.set_set] at hout
    have hnn' : ¬isNull (r'.getD i .null) = true := by
      have hyu : colIdx (Table.mk t.cols (t.dtypes.set i DType.i64n) rows2) "year" = some i := hy
      simp only [List.all_cons, List.all_nil, Bool.and_true] at hnn
      rw [cellAt_of_colIdx hyu r'] at hnn
      simpa using hnn
    constructor
    · refine ⟨t.rows.getD p [], by rw [List.getD_eq_getElem _ _ hpt]; exact List.getElem_mem hpt, ?_⟩
      intro j hj
      rw [hout, getD_set_ne _ hj]
    · rcases astypeInt64Cell_ok_shape hv with rfl | ⟨n, rfl⟩
      · exfalso
        apply hnn'
        rw [hout]
        by_cases hil : i < (t.rows.getD p []).length
        · rw [getD_set_self_lt _ hil]
          rfl
        · rw [List.set_eq_of_length_le (Nat.le_of_not_lt hil),
            List.getD_eq_default _ _ (Nat.le_of_not_lt hil)]
          rfl
      · by_cases hil : i < (t.rows.getD p []).length
        · have hcell : r'.getD i .null = .int n := by rw [hout]; exact getD_set_self_lt _ hil _ _
          rw [hcell] at hyr
          simp only [yearInRange] at hyr
          exact ⟨n, hcell, by simpa using hyr⟩
        · exfalso
          have hz : r'.getD i .null = .null := by
            rw [hout, List.set_eq_of_length_le (Nat.le_of_not_lt hil),
              List.getD_eq_default _ _ (Nat.le_of_not_lt hil)]
          rw [hz] at hyr
          simp [yearInRange] at hyr

/- ##### sortStep lemmas ##### -/

theorem sortStep_spec {t : Table} {ci yi : ℕ} (hc : colIdx t "country" = some ci)
    (hy : colIdx t "year" = some yi) :
    sortStep t = { t with rows := sortRowsBy (rowKeyCY ci yi) t.rows } := by
  rw [sortStep, hc, hy]

/- ##### clean_tb_data postconditions ##### -/

theorem colIdx_congr {t u : Table} (h : t.cols = u.cols) (c : String) :
    colIdx t c = colIdx u c := by
  rw [colIdx, colIdx, h]

theorem clean_tb_pre_cols (t : Table) : (clean_tb_pre t).cols = t.cols.map normName := by
  rw [clean_tb_pre]
  split <;> rfl

theorem clean_tb_pre_keys {t : Table} (hc : "country" ∈ (clean_tb_pre t).cols)
    (hy : "year" ∈ (clean_tb_pre t).cols) {ci yi : ℕ}
    (hci : colIdx (clean_tb_pre t) "country" = some ci)
    (hyi : colIdx (clean_tb_pre t) "year" = some yi) :
    ∀ r ∈ (clean_tb_pre t).rows,
      isNull (r.getD ci .null) = false ∧ isNull (r.getD yi .null) = false := by
  intro r hr
  have hcn : "country" ∈ t.cols.map normName := clean_tb_pre_cols t ▸ hc
  have hyn : "year" ∈ t.cols.map normName := clean_tb_pre_cols t ▸ hy
  rw [clean_tb_pre] at hr hci hyi
  dsimp only at hr hci hyi
  rw [if_pos ⟨hcn, hyn⟩] at hr hci hyi
  simp only [dropnaAny, List.mem_filter] at hr
  obtain ⟨-, hp⟩ := hr
  simp only [List.all_cons, List.all_nil, Bool.and_true, Bool.and_eq_true] at hp
  obtain ⟨h1, h2⟩ := hp
  have hci2 : colIdx (Table.mk (normalizeCols t).cols (normalizeCols t).dtypes
      (dedupRows (normalizeCols t).rows)) "country" = some ci := hci
  have hyi2 : colIdx (Table.mk (normalizeCols t).cols (normalizeCols t).dtypes
      (dedupRows (normalizeCols t).rows)) "year" = some yi := hyi
  rw [cellAt_of_colIdx hci2 r] at h1
  rw [cellAt_of_colIdx hyi2 r] at h2
  exact ⟨by simpa using h1, by simpa using h2⟩

/-- Combined postcondition of `clean_tb_data` when the cleaned table has both
key columns: the columns are the normalized input columns, every row has a
non-null country and an integer year within the window, the rows are sorted by
the (country, year) key, and the year column's dtype is nullable Int64. -/
theorem clean_tb_post {t d : Table} (h : clean_tb_data t = .ok d)
    {ci yi : ℕ} (hci : colIdx d "country" = some ci) (hyi : colIdx d "year" = some yi) :
    d.cols = t.cols.map normName ∧
      (∀ r ∈ d.rows, isNull (r.getD ci .null) = false) ∧
      (∀ r ∈ d.rows, ∃ n : ℤ, r.getD yi .null = .int n ∧ MIN_YEAR ≤ n ∧ n ≤ MAX_YEAR) ∧
      d.rows.Pairwise (fun a b => rowKeyCY ci yi a ≤ rowKeyCY ci yi b) ∧
      (yi < d.dtypes.length → d.dtypes.getD yi DType.obj = DType.i64n) := by
  simp only [clean_tb_data] at h
  by_cases hy3 : "year" ∈ (clean_tb_pre t).cols
  · rw [if_pos hy3] at h
    cases hys : yearStep (clean_tb_pre t) with
    | error e => rw [hys] at h; exact absurd h (by simp)
    | ok t4 =>
      rw [hys] at h
      replace h : Except.ok (if "country" ∈ t4.cols ∧ "year" ∈ t4.cols then sortStep t4
          else t4) = Except.ok d := h
      obtain ⟨i, hi⟩ := colIdx_mem hy3
      obtain ⟨hcols4, hdt4, hrows4⟩ := yearStep_post hi hys
      by_cases hc4 : "country" ∈ t4.cols
      · have hy4 : "year" ∈ t4.cols := hcols4 ▸ hy3
        rw [if_pos ⟨hc4, hy4⟩] at h
        simp only [Except.ok.injEq] at h
        have hd4 : colIdx d "country" = colIdx t4 "country" := by
          apply colIdx_congr
          rw [← h, sortStep]
          cases colIdx t4 "country" <;> cases colIdx t4 "year" <;> rfl
        have hd4y : colIdx d "year" = colIdx t4 "year" := by
          apply colIdx_congr
          rw [← h, sortStep]
          cases colIdx t4 "country" <;> cases colIdx t4 "year" <;> rfl
        have hci4 : colIdx t4 "country" = some ci := by rw [← hd4]; exact hci
        have hyi4 : colIdx t4 "year" = some yi := by rw [← hd4y]; exact hyi
        have hiyi : i = yi := by
          have : colIdx t4 "year" = some i := by
            rw [colIdx_congr hcols4]; exact hi
          rw [this] at hyi4
          simpa using hyi4
        subst hiyi
        have hprec : colIdx (clean_tb_pre t) "country" = some ci := by
          rw [← colIdx_congr hcols4]; exact hci4
        have hprey : colIdx (clean_tb_pre t) "year" = some i := by
          rw [← colIdx_congr hcols4]; exact hyi4
        have hkeys := clean_tb_pre_keys (hcols4 ▸ hc4) hy3 hprec hprey
        have hcine : ci ≠ i := colIdx_ne hci4 hyi4 (by decide)
        have hrowsd : d.rows = sortRowsBy (rowKeyCY ci i) t4.rows := by
          rw [← h, sortStep_spec hci4 hyi4]
        refine ⟨?_, ?_, ?_, ?_, ?_⟩
        · rw [← h, sortStep_spec hci4 hyi4]
          show t4.cols = _
          rw [hcols4, clean_tb_pre_cols]
        · intro r hr
          rw [hrowsd] at hr
          have hr4 := sortRowsBy_mem _ _ hr
          obtain ⟨⟨r0, hr0, hj⟩, -⟩ := hrows4 r hr4
          rw [hj ci hcine]
          exact (hkeys r0 hr0).1
        · intro r hr
          rw [hrowsd] at hr
          exact (hrows4 r (sortRowsBy_mem _ _ hr)).2
        · rw [hrowsd]
          exact sortRowsBy_pairwise _ _
        · intro hlt
          have hdd : d.dtypes = (clean_tb_pre t).dtypes.set i DType.i64n := by
            rw [← h, sortStep]
            cases colIdx t4 "country" <;> cases colIdx t4 "year" <;> exact hdt4
          rw [hdd] at hlt ⊢
          exact getD_set_self_lt _ (by simpa using hlt) _ _
      · rw [if_neg (by tauto)] at h
        simp only [Except.ok.injEq] at h
        subst h
        exact absurd (colIdx_isSome_iff.1 (by simp [hci]) : "country" ∈ t4.cols) hc4
  · rw [if_neg hy3] at h
    replace h : Except.ok (if "country" ∈ (clean_tb_pre t).cols ∧ "year" ∈ (clean_tb_pre t).cols
        then sortStep (clean_tb_pre t) else clean_tb_pre t) = Except.ok d := h
    simp only [Except.ok.injEq] at h
    have hyd : "year" ∈ d.cols := colIdx_isSome_iff.1 (by simp [hyi])
    rw [← h] at hyd
    rw [if_neg (by tauto)] at hyd
    exact absurd hyd hy3

/- ##### Forward-fill lemmas ##### -/

theorem isNull_iff {v : Val} : isNull v = true ↔ v = .null := by
  cases v <;> simp [isNull]

theorem valEq_null_left {k : Val} (h : isNull k = false) : valEq .null k = false := by
  cases k <;> simp_all [valEq, isNull]

theorem bool_neg_of_eq_false {b : Bool} (h : b = false) : ¬b = true := by
  simp [h]

theorem nearestPrev_snoc (ci colI : ℕ) (pre : List Row) (r : Row) (k : Val) :
    nearestPrev ci colI (pre ++ [r]) k =
      if valEq (r.getD ci .null) k && !isNull (r.getD colI .null) then r.getD colI .null
      else nearestPrev ci colI pre k := by
  rw [nearestPrev, List.filter_append]
  cases hp : (valEq (r.getD ci .null) k && !isNull (r.getD colI .null)) with
  | true =>
    rw [if_pos rfl]
    have hf : List.filter (fun r => valEq (r.getD ci .null) k && !isNull (r.getD colI .null)) [r]
        = [r] := by
      rw [List.filter_cons, if_pos hp, List.filter_nil]
    rw [hf, List.getLast?_concat]
  | false =>
    rw [if_neg (by simp)]
    have hf : List.filter (fun r => valEq (r.getD ci .null) k && !isNull (r.getD colI .null)) [r]
        = [] := by
      rw [List.filter_cons, if_neg (bool_neg_of_eq_false hp), List.filter_nil]
    rw [hf, List.append_nil, nearestPrev]

theorem nearestPrev_mem (ci colI : ℕ) (pre : List Row) (k : Val) :
    nearestPrev ci colI pre k = .null ∨
      ∃ r ∈ pre, nearestPrev ci colI pre k = r.getD colI .null ∧
        isNull (r.getD colI .null) = false := by
  rw [nearestPrev]
  cases hl : (pre.filter fun r => valEq (r.getD ci .null) k && !isNull (r.getD colI .null)).getLast? with
  | none => exact Or.inl rfl
  | some r =>
    right
    have hm := List.mem_of_getLast?_eq_some hl
    have hpred := List.of_mem_filter hm
    simp only [Bool.and_eq_true, Bool.not_eq_true'] at hpred
    exact ⟨r, List.mem_of_mem_filter hm, rfl, hpred.2⟩

theorem nearestPrev_eq_null_iff (ci colI : ℕ) (pre : List Row) (k : Val) :
    nearestPrev ci colI pre k = .null ↔
      ∀ r ∈ pre, valEq (r.getD ci .null) k = true → isNull (r.getD colI .null) = true := by
  constructor
  · intro h r hr hkeq
    by_contra hnn
    have hmem : r ∈ (pre.filter fun r =>
        valEq (r.getD ci .null) k && !isNull (r.getD colI .null)) := by
      apply List.mem_filter.2
      refine ⟨hr, ?_⟩
      rw [hkeq]
      simpa using hnn
    rw [nearestPrev] at h
    cases hl : (pre.filter fun r =>
        valEq (r.getD ci .null) k && !isNull (r.getD colI .null)).getLast? with
    | none =>
      rw [List.getLast?_eq_none_iff] at hl
      rw [hl] at hmem
      simp at hmem
    | some r0 =>
      rw [hl] at h
      replace h : r0.getD colI .null = Val.null := h
      have hpred := List.of_mem_filter (List.mem_of_getLast?_eq_some hl)
      simp only [Bool.and_eq_true, Bool.not_eq_true'] at hpred
      rw [h] at hpred
      simp [isNull] at hpred
  · intro h
    rw [nearestPrev]
    have hf : (pre.filter fun r =>
        valEq (r.getD ci .null) k && !isNull (r.getD colI .null)) = [] := by
      rw [List.filter_eq_nil_iff]
      intro r hr hcontra
      simp only [Bool.and_eq_true, Bool.not_eq_true'] at hcontra
      obtain ⟨hkeq, hnn⟩ := hcontra
      rw [h r hr hkeq] at hnn
      simp at hnn
    rw [hf]
    rfl

theorem lookupVal_cons (k0 v : Val) (acc : List (Val × Val)) (k : Val) :
    lookupVal ((k0, v) :: acc) k = if valEq k0 k = true then v else lookupVal acc k := by
  rw [lookupVal]
  cases h : valEq k0 k with
  | true =>
    rw [List.find?_cons_of_pos _ (by simpa using h)]
    simp
  | false =>
    rw [List.find?_cons_of_neg _ (by simpa using h), if_neg (by simp [h])]
    rfl

theorem ffillColAux_length (ci colI : ℕ) (acc : List (Val × Val)) (rows : List Row) :
    (ffillColAux ci colI acc rows).length = rows.length := by
  induction rows generalizing acc with
  | nil => rfl
  | cons r rest ih =>
    rw [ffillColAux]
    dsimp only
    split
    · simp [ih]
    · split <;> simp [ih]

/-- Declarative characterization of the grouped forward fill: a null-keyed row
gets a null cell, a known cell is kept, and a missing cell receives the nearest
earlier known value of its own group. -/
theorem ffillColAux_char (ci colI : ℕ) (rows : List Row) :
    ∀ (pre : List Row) (acc : List (Val × Val)),
      (∀ k, isNull k = false → lookupVal acc k = nearestPrev ci colI pre k) →
      ∀ p, p < rows.length →
        (ffillColAux ci colI acc rows).getD p [] =
          (if isNull ((rows.getD p []).getD ci .null) then (rows.getD p []).set colI .null
           else if isNull ((rows.getD p []).getD colI .null) then
             (rows.getD p []).set colI
               (nearestPrev ci colI (pre ++ rows.take p) ((rows.getD p []).getD ci .null))
           else rows.getD p []) := by
  induction rows with
  | nil => intro pre acc hacc p hp; exact absurd hp (by simp)
  | cons r rest ih =>
    intro pre acc hacc p hp
    rw [ffillColAux]
    dsimp only
    have hinv : ∀ acc2 : List (Val × Val),
        (∀ k, isNull k = false → lookupVal acc2 k = nearestPrev ci colI (pre ++ [r]) k) →
        ∀ p2, p2 < rest.length →
        (ffillColAux ci colI acc2 rest).getD p2 [] =
          (if isNull ((rest.getD p2 []).getD ci .null) then (rest.getD p2 []).set colI .null
           else if isNull ((rest.getD p2 []).getD colI .null) then
             (rest.getD p2 []).set colI
               (nearestPrev ci colI ((pre ++ [r]) ++ rest.take p2) ((rest.getD p2 []).getD ci .null))
           else rest.getD p2 []) := fun acc2 h2 => ih (pre ++ [r]) acc2 h2
    cases hk : isNull (r.getD ci .null) with
    | true =>
      rw [if_pos rfl]
      cases p with
      | zero =>
        simp only [List.getD_cons_zero, hk, if_pos]
      | succ p =>
        have hrec := hinv acc ?hia p (by simpa using hp)
        case hia =>
          intro k hknn
          rw [hacc k hknn, nearestPrev_snoc]
          have hb : (valEq (r.getD ci .null) k && !isNull (r.getD colI .null)) = false := by
            rw [isNull_iff.1 hk, valEq_null_left hknn]
            simp
          rw [if_neg (bool_neg_of_eq_false hb)]
        rw [List.getD_cons_succ, List.getD_cons_succ, hrec, List.take_succ_cons]
        have hl : pre ++ [r] ++ List.take p rest = pre ++ r :: List.take p rest := by simp
        rw [hl]
    | false =>
      rw [if_neg (by simp)]
      cases hv : isNull (r.getD colI .null) with
      | true =>
        rw [if_pos rfl]
        cases p with
        | zero =>
          simp only [List.getD_cons_zero, hk, hv, if_pos, Bool.false_eq_true, if_neg,
            List.take_zero, List.append_nil]
          exact congrArg (r.set colI) (hacc _ hk)
        | succ p =>
          have hrec := hinv acc ?hib p (by simpa using hp)
          case hib =>
            intro k hknn
            rw [hacc k hknn, nearestPrev_snoc]
            have hb : (valEq (r.getD ci .null) k && !isNull (r.getD colI .null)) = false := by
              rw [hv]
              simp
            rw [if_neg (bool_neg_of_eq_false hb)]
          rw [List.getD_cons_succ, List.getD_cons_succ, hrec, List.take_succ_cons]
          have hl : pre ++ [r] ++ List.take p rest = pre ++ r :: List.take p rest := by simp
          rw [hl]
      | false =>
        rw [if_neg (by simp)]
        cases p with
        | zero =>
          simp only [List.getD_cons_zero]
          rw [if_neg (bool_neg_of_eq_false hk), if_neg (bool_neg_of_eq_false hv)]
        | succ p =>
          have hrec := hinv ((r.getD ci .null, r.getD colI .null) :: acc) ?hic p (by simpa using hp)
          case hic =>
            intro k hknn
            rw [lookupVal_cons, nearestPrev_snoc]
            cases hkk : valEq (r.getD ci .null) k with
            | true =>
              rw [if_pos rfl, if_pos (show (true && !isNull (r.getD colI .null)) = true by
                rw [hv]; simp)]
            | false =>
              rw [if_neg (by simp), if_neg (by simp), hacc k hknn]
          rw [List.getD_cons_succ, List.getD_cons_succ, hrec, List.take_succ_cons]
          have hl : pre ++ [r] ++ List.take p rest = pre ++ r :: List.take p rest := by simp
          rw [hl]

theorem lookupVal_nil (k : Val) : lookupVal [] k = .null := rfl

theorem ffillColAt_char (ci colI : ℕ) (rows : List Row) {p : ℕ} (hp : p < rows.length) :
    (ffillColAt ci colI rows).getD p [] =
      (if isNull ((rows.getD p []).getD ci .null) then (rows.getD p []).set colI .null
       else if isNull ((rows.getD p []).getD colI .null) then
         (rows.getD p []).set colI
           (nearestPrev ci colI (rows.take p) ((rows.getD p []).getD ci .null))
       else rows.getD p []) := by
  have h := ffillColAux_char ci colI rows [] [] ?ha p hp
  case ha =>
    intro k hknn
    rw [lookupVal_nil, nearestPrev]
    rfl
  rw [ffillColAt, h]
  rw [List.nil_append]

theorem ffillColAt_length (ci colI : ℕ) (rows : List Row) :
    (ffillColAt ci colI rows).length = rows.length :=
  ffillColAux_length ci colI [] rows

theorem getD_mem {α : Type} (l : List α) {p : ℕ} (hp : p < l.length) (d : α) :
    l.getD p d ∈ l := by
  rw [List.getD_eq_getElem _ _ hp]
  exact List.getElem_mem hp

theorem ffillColAt_getD_other (ci colI : ℕ) (rows : List Row) {p : ℕ} (hp : p < rows.length)
    {j : ℕ} (hj : j ≠ colI) :
    ((ffillColAt ci colI rows).getD p []).getD j .null = (rows.getD p []).getD j .null := by
  rw [ffillColAt_char ci colI rows hp]
  split
  · rw [getD_set_ne _ hj]
  · split
    · rw [getD_set_ne _ hj]
    · rfl

theorem ffillColAt_getD_nonnull (ci colI : ℕ) (rows : List Row) {p : ℕ} (hp : p < rows.length)
    (hcn : isNull ((rows.getD p []).getD ci .null) = false)
    (hnn : isNull ((rows.getD p []).getD colI .null) = false) :
    (ffillColAt ci colI rows).getD p [] = rows.getD p [] := by
  rw [ffillColAt_char ci colI rows hp, if_neg (bool_neg_of_eq_false hcn),
    if_neg (bool_neg_of_eq_false hnn)]

theorem ffillColAt_getD_ci (ci colI : ℕ) (rows : List Row) {p : ℕ} (hp : p < rows.length)
    (hcn : isNull ((rows.getD p []).getD ci .null) = false) :
    ((ffillColAt ci colI rows).getD p []).getD ci .null = (rows.getD p []).getD ci .null := by
  by_cases hic : ci = colI
  · subst hic
    exact congrArg (fun r => List.getD r ci Val.null) (ffillColAt_getD_nonnull ci ci rows hp hcn hcn)
  · exact ffillColAt_getD_other ci colI rows hp hic

theorem ffillColAt_row_length (ci colI : ℕ) (rows : List Row) {p : ℕ} (hp : p < rows.length) :
    ((ffillColAt ci colI rows).getD p []).length = (rows.getD p []).length := by
  rw [ffillColAt_char ci colI rows hp]
  split
  · rw [List.length_set]
  · split
    · rw [List.length_set]
    · rfl

theorem ffillColAt_null_back (ci colI : ℕ) (rows : List Row) {p : ℕ} (hp : p < rows.length)
    (hcn : isNull ((rows.getD p []).getD ci .null) = false)
    (hnull : isNull (((ffillColAt ci colI rows).getD p []).getD colI .null) = true) :
    isNull ((rows.getD p []).getD colI .null) = true ∧
      (colI < (rows.getD p []).length →
        nearestPrev ci colI (rows.take p) ((rows.getD p []).getD ci .null) = .null) := by
  rw [ffillColAt_char ci colI rows hp, if_neg (bool_neg_of_eq_false hcn)] at hnull
  by_cases hv : isNull ((rows.getD p []).getD colI .null) = true
  · rw [if_pos hv] at hnull
    refine ⟨hv, fun hlen => ?_⟩
    rw [getD_set_self_lt _ hlen] at hnull
    exact isNull_iff.1 hnull
  · rw [if_neg hv] at hnull
    exact absurd hnull hv

theorem ffillColAt_null_fwd (ci colI : ℕ) (rows : List Row) {p : ℕ} (hp : p < rows.length)
    (hcn : isNull ((rows.getD p []).getD ci .null) = false)
    (hnull : isNull ((rows.getD p []).getD colI .null) = true)
    (hprev : nearestPrev ci colI (rows.take p) ((rows.getD p []).getD ci .null) = .null) :
    isNull (((ffillColAt ci colI rows).getD p []).getD colI .null) = true := by
  rw [ffillColAt_char ci colI rows hp, if_neg (bool_neg_of_eq_false hcn), if_pos hnull, hprev]
  by_cases hlen : colI < (rows.getD p []).length
  · rw [getD_set_self_lt _ hlen]
    rfl
  · rw [List.set_eq_of_length_le (Nat.le_of_not_lt hlen)]
    exact hnull

theorem ffillColAt_pred (P : Val → Prop) (hP : P .null) (ci colI : ℕ) (i : ℕ) (rows : List Row)
    (h : ∀ r ∈ rows, P (r.getD i .null)) :
    ∀ r' ∈ ffillColAt ci colI rows, P (r'.getD i .null) := by
  intro r' hr'
  rw [List.mem_iff_getElem] at hr'
  obtain ⟨p, hp, rfl⟩ := hr'
  have hplen : p < rows.length := by
    rw [← ffillColAt_length ci colI rows]
    exact hp
  have hge : (ffillColAt ci colI rows)[p] = (ffillColAt ci colI rows).getD p [] :=
    (List.getD_eq_getElem _ _ hp).symm
  rw [hge, ffillColAt_char ci colI rows hplen]
  have hmem : rows.getD p [] ∈ rows := getD_mem rows hplen []
  by_cases hcase : i = colI
  · subst hcase
    split
    · by_cases hil : i < (rows.getD p []).length
      · rw [getD_set_self_lt _ hil]
        exact hP
      · rw [List.set_eq_of_length_le (Nat.le_of_not_lt hil)]
        exact h _ hmem
    · split
      · by_cases hil : i < (rows.getD p []).length
        · rw [getD_set_self_lt _ hil]
          rcases nearestPrev_mem ci i (rows.take p) ((rows.getD p []).getD ci .null) with
            hnp | ⟨r0, hr0, hval, -⟩
          · rw [hnp]
            exact hP
          · rw [hval]
            exact h r0 (List.mem_of_mem_take hr0)
        · rw [List.set_eq_of_length_le (Nat.le_of_not_lt hil)]
          exact h _ hmem
      · exact h _ hmem
  · split
    · rw [getD_set_ne _ hcase]
      exact h _ hmem
    · split
      · rw [getD_set_ne _ hcase]
        exact h _ hmem
      · exact h _ hmem

theorem getD_take_of_lt {α : Type} (l : List α) {n m : ℕ} (h : m < n) (d : α) :
    (l.take n).getD m d = l.getD m d := by
  rw [List.getD_eq_getElem?_getD, List.getD_eq_getElem?_getD, List.getElem?_take_of_lt h]

theorem ffillColAt_leftSat (ci colI : ℕ) (rows : List Row)
    (hcnn : ∀ r ∈ rows, isNull (r.getD ci .null) = false) :
    (ffillColAt ci colI rows).Pairwise (leftP ci colI) := by
  rw [List.pairwise_iff_getElem]
  intro q p hq hp hqp
  have hql : q < rows.length := by rwa [ffillColAt_length] at hq
  have hpl : p < rows.length := by rwa [ffillColAt_length] at hp
  have hgq : (ffillColAt ci colI rows)[q] = (ffillColAt ci colI rows).getD q [] :=
    (List.getD_eq_getElem _ _ hq).symm
  have hgp : (ffillColAt ci colI rows)[p] = (ffillColAt ci colI rows).getD p [] :=
    (List.getD_eq_getElem _ _ hp).symm
  rw [leftP, hgq, hgp]
  have hcq := hcnn _ (getD_mem rows hql [])
  have hcp := hcnn _ (getD_mem rows hpl [])
  rw [ffillColAt_getD_ci ci colI rows hql hcq, ffillColAt_getD_ci ci colI rows hpl hcp,
    ffillColAt_row_length ci colI rows hpl]
  intro hkeq hpnull hplen
  obtain ⟨-, hprevp⟩ := ffillColAt_null_back ci colI rows hpl hcp hpnull
  have hprev := hprevp hplen
  rw [nearestPrev_eq_null_iff] at hprev
  have hqnull : isNull ((rows.getD q []).getD colI .null) = true := by
    apply hprev
    · rw [← getD_take_of_lt rows hqp ([] : Row)]
      apply getD_mem
      rw [List.length_take]
      omega
    · exact hkeq
  apply ffillColAt_null_fwd ci colI rows hql hcq hqnull
  rw [nearestPrev_eq_null_iff]
  intro r hr hkr
  apply hprev
  · have hsub : rows.take q = (rows.take p).take q := by
      rw [List.take_take, Nat.min_eq_left (Nat.le_of_lt hqp)]
    rw [hsub] at hr
    exact List.mem_of_mem_take hr
  · exact valEq_trans hkr hkeq

theorem ffillColAt_eq_self (ci colI : ℕ) (rows : List Row)
    (hcnn : ∀ r ∈ rows, isNull (r.getD ci .null) = false)
    (hsat : rows.Pairwise (leftP ci colI)) :
    ffillColAt ci colI rows = rows := by
  apply ext_getD [] (ffillColAt_length ci colI rows)
  intro p hp0
  have hp : p < rows.length := by rwa [ffillColAt_length] at hp0
  rw [ffillColAt_char ci colI rows hp]
  have hcn := hcnn _ (getD_mem rows hp [])
  rw [if_neg (bool_neg_of_eq_false hcn)]
  by_cases hv : isNull ((rows.getD p []).getD colI .null) = true
  · rw [if_pos hv]
    by_cases hlen : colI < (rows.getD p []).length
    · have hprev : nearestPrev ci colI (rows.take p) ((rows.getD p []).getD ci .null) = .null := by
        rw [nearestPrev_eq_null_iff]
        intro r hr hkeq
        rw [List.mem_iff_getElem] at hr
        obtain ⟨q, hq, rfl⟩ := hr
        have hqp : q < p := by
          have := hq
          rw [List.length_take] at this
          omega
        have hql : q < rows.length := by
          rw [List.length_take] at hq
          omega
        have hge : (rows.take p)[q] = rows[q] := by
          have h1 : (rows.take p)[q]? = rows[q]? := List.getElem?_take_of_lt hqp
          rw [List.getElem?_eq_getElem hq, List.getElem?_eq_getElem hql] at h1
          exact Option.some.inj h1
        rw [hge] at hkeq ⊢
        have hpair := (List.pairwise_iff_getElem.1 hsat) q p hql hp hqp
        rw [leftP] at hpair
        apply hpair
        · rw [← List.getD_eq_getElem _ _ hp]
          exact hkeq
        · rw [← List.getD_eq_getElem _ _ hp]
          exact hv
        · rw [← List.getD_eq_getElem _ _ hp]
          exact hlen
      rw [hprev, ← isNull_iff.1 hv, set_getD_self]
    · rw [List.set_eq_of_length_le (Nat.le_of_not_lt hlen)]
  · rw [if_neg hv]

theorem fixed_not_alias {c : String} (h : normName c = c) :
    c ≠ "Entity" ∧ c ≠ "Year" ∧ c ≠ "Estimated incidence of all forms of tuberculosis" := by
  refine ⟨?_, ?_, ?_⟩ <;> rintro rfl <;> revert h <;> decide

/- ##### Forward-fill fold lemmas ##### -/

theorem ffillFold_nil (ci : ℕ) (rows : List Row) : ffillFold ci [] rows = rows := rfl

theorem ffillFold_cons (ci i : ℕ) (rest : List ℕ) (rows : List Row) :
    ffillFold ci (i :: rest) rows = ffillFold ci rest (ffillColAt ci i rows) := rfl

theorem ffillFold_length (ci : ℕ) (idxs : List ℕ) (rows : List Row) :
    (ffillFold ci idxs rows).length = rows.length := by
  induction idxs generalizing rows with
  | nil => rfl
  | cons i rest ih =>
    rw [ffillFold_cons]
    exact (ih (ffillColAt ci i rows)).trans (ffillColAt_length ci i rows)

theorem ffillFold_pred (P : Val → Prop) (hP : P .null) (ci : ℕ) (idxs : List ℕ) (j : ℕ)
    (rows : List Row) (h : ∀ r ∈ rows, P (r.getD j .null)) :
    ∀ r' ∈ ffillFold ci idxs rows, P (r'.getD j .null) := by
  induction idxs generalizing rows with
  | nil => exact h
  | cons i rest ih =>
    rw [ffillFold_cons]
    exact ih _ (ffillColAt_pred P hP ci i j rows h)

theorem ffillColAt_getD_keep (ci colI : ℕ) (rows : List Row) {p : ℕ} (hp : p < rows.length)
    {j : ℕ} (hcn : isNull ((rows.getD p []).getD ci .null) = false)
    (hnn : isNull ((rows.getD p []).getD j .null) = false) :
    ((ffillColAt ci colI rows).getD p []).getD j .null = (rows.getD p []).getD j .null := by
  by_cases hj : j = colI
  · subst hj
    rw [ffillColAt_getD_nonnull ci j rows hp hcn hnn]
  · exact ffillColAt_getD_other ci colI rows hp hj

theorem ffillFold_getD_ci (ci : ℕ) (idxs : List ℕ) (rows : List Row) {p : ℕ}
    (hp : p < rows.length)
    (hcn : isNull ((rows.getD p []).getD ci .null) = false) :
    ((ffillFold ci idxs rows).getD p []).getD ci .null = (rows.getD p []).getD ci .null := by
  induction idxs generalizing rows with
  | nil => rfl
  | cons i rest ih =>
    rw [ffillFold_cons]
    have hp' : p < (ffillColAt ci i rows).length := by rwa [ffillColAt_length]
    have hcn' : isNull (((ffillColAt ci i rows).getD p []).getD ci .null) = false := by
      rw [ffillColAt_getD_ci ci i rows hp hcn]
      exact hcn
    rw [ih (ffillColAt ci i rows) hp' hcn', ffillColAt_getD_ci ci i rows hp hcn]

theorem ffillFold_getD_keep (ci : ℕ) (idxs : List ℕ) (rows : List Row) {p : ℕ}
    (hp : p < rows.length) {j : ℕ}
    (hcn : isNull ((rows.getD p []).getD ci .null) = false)
    (hnn : isNull ((rows.getD p []).getD j .null) = false) :
    ((ffillFold ci idxs rows).getD p []).getD j .null = (rows.getD p []).getD j .null := by
  induction idxs generalizing rows with
  | nil => rfl
  | cons i rest ih =>
    rw [ffillFold_cons]
    have hp' : p < (ffillColAt ci i rows).length := by rwa [ffillColAt_length]
    have hcn' : isNull (((ffillColAt ci i rows).getD p []).getD ci .null) = false := by
      rw [ffillColAt_getD_ci ci i rows hp hcn]
      exact hcn
    have hnn' : isNull (((ffillColAt ci i rows).getD p []).getD j .null) = false := by
      rw [ffillColAt_getD_keep ci i rows hp hcn hnn]
      exact hnn
    rw [ih (ffillColAt ci i rows) hp' hcn' hnn', ffillColAt_getD_keep ci i rows hp hcn hnn]

theorem ffillFold_row_length (ci : ℕ) (idxs : List ℕ) (rows : List Row) {p : ℕ}
    (hp : p < rows.length) :
    ((ffillFold ci idxs rows).getD p []).length = (rows.getD p []).length := by
  induction idxs generalizing rows with
  | nil => rfl
  | cons i rest ih =>
    rw [ffillFold_cons]
    have hp' : p < (ffillColAt ci i rows).length := by rwa [ffillColAt_length]
    rw [ih (ffillColAt ci i rows) hp', ffillColAt_row_length ci i rows hp]

theorem ffillColAt_keys_mem (ci colI : ℕ) (rows : List Row)
    (hcnn : ∀ r ∈ rows, isNull (r.getD ci .null) = false) :
    ∀ r' ∈ ffillColAt ci colI rows, isNull (r'.getD ci .null) = false := by
  intro r' hr'
  rw [List.mem_iff_getElem] at hr'
  obtain ⟨p, hp, rfl⟩ := hr'
  have hpl : p < rows.length := by rwa [ffillColAt_length] at hp
  rw [← List.getD_eq_getElem _ _ hp]
  rw [ffillColAt_getD_ci ci colI rows hpl (hcnn _ (getD_mem rows hpl []))]
  exact hcnn _ (getD_mem rows hpl [])

theorem ffillFold_keys_mem (ci : ℕ) (idxs : List ℕ) (rows : List Row)
    (hcnn : ∀ r ∈ rows, isNull (r.getD ci .null) = false) :
    ∀ r' ∈ ffillFold ci idxs rows, isNull (r'.getD ci .null) = false := by
  induction idxs generalizing rows with
  | nil => exact hcnn
  | cons i rest ih =>
    rw [ffillFold_cons]
    exact ih _ (ffillColAt_keys_mem ci i rows hcnn)

theorem ffillColAt_leftP_keep (ci colI j : ℕ) (hj : j ≠ colI) (rows : List Row)
    (hcnn : ∀ r ∈ rows, isNull (r.getD ci .null) = false)
    (hsat : rows.Pairwise (leftP ci j)) :
    (ffillColAt ci colI rows).Pairwise (leftP ci j) := by
  rw [List.pairwise_iff_getElem] at hsat ⊢
  intro q p hq hp hqp
  have hql : q < rows.length := by rwa [ffillColAt_length] at hq
  have hpl : p < rows.length := by rwa [ffillColAt_length] at hp
  have hgq : (ffillColAt ci colI rows)[q] = (ffillColAt ci colI rows).getD q [] :=
    (List.getD_eq_getElem _ _ hq).symm
  have hgp : (ffillColAt ci colI rows)[p] = (ffillColAt ci colI rows).getD p [] :=
    (List.getD_eq_getElem _ _ hp).symm
  rw [leftP, hgq, hgp]
  have hcq := hcnn _ (getD_mem rows hql [])
  have hcp := hcnn _ (getD_mem rows hpl [])
  rw [ffillColAt_getD_ci ci colI rows hql hcq, ffillColAt_getD_ci ci colI rows hpl hcp,
    ffillColAt_getD_other ci colI rows hql hj, ffillColAt_getD_other ci colI rows hpl hj,
    ffillColAt_row_length ci colI rows hpl]
  have hpair := hsat q p hql hpl hqp
  rw [leftP] at hpair
  rw [List.getD_eq_getElem _ _ hql, List.getD_eq_getElem _ _ hpl]
  exact hpair

theorem ffillFold_leftP_keep (ci j : ℕ) (idxs : List ℕ) (hj : j ∉ idxs) (rows : List Row)
    (hcnn : ∀ r ∈ rows, isNull (r.getD ci .null) = false)
    (hsat : rows.Pairwise (leftP ci j)) :
    (ffillFold ci idxs rows).Pairwise (leftP ci j) := by
  induction idxs generalizing rows with
  | nil => exact hsat
  | cons i rest ih =>
    rw [ffillFold_cons]
    have hji : j ≠ i := fun h => hj (h ▸ List.mem_cons_self i rest)
    exact ih (fun h => hj (List.mem_cons_of_mem i h)) _
      (ffillColAt_keys_mem ci i rows hcnn)
      (ffillColAt_leftP_keep ci i j hji rows hcnn hsat)

theorem ffillFold_leftSat (ci : ℕ) (idxs : List ℕ) (hnd : idxs.Nodup) (rows : List Row)
    (hcnn : ∀ r ∈ rows, isNull (r.getD ci .null) = false) :
    ∀ j ∈ idxs, (ffillFold ci idxs rows).Pairwise (leftP ci j) := by
  induction idxs generalizing rows with
  | nil => intro j hj; cases hj
  | cons i rest ih =>
    intro j hj
    rw [ffillFold_cons]
    have hcnn' := ffillColAt_keys_mem ci i rows hcnn
    rcases List.mem_cons.1 hj with rfl | hj
    · exact ffillFold_leftP_keep ci j rest (by simpa using (List.nodup_cons.1 hnd).1) _
        hcnn' (ffillColAt_leftSat ci j rows hcnn)
    · exact ih (List.nodup_cons.1 hnd).2 _ hcnn' j hj

theorem ffillFold_eq_self (ci : ℕ) (idxs : List ℕ) (rows : List Row)
    (hcnn : ∀ r ∈ rows, isNull (r.getD ci .null) = false)
    (hsat : ∀ j ∈ idxs, rows.Pairwise (leftP ci j)) :
    ffillFold ci idxs rows = rows := by
  induction idxs with
  | nil => rfl
  | cons i rest ih =>
    rw [ffillFold_cons, ffillColAt_eq_self ci i rows hcnn (hsat i (by simp))]
    exact ih fun j hj => hsat j (by simp [hj])

theorem ffillFold_year_mem (ci yi : ℕ) (idxs : List ℕ) (rows : List Row)
    (hcnn : ∀ r ∈ rows, isNull (r.getD ci .null) = false)
    (hyr : ∀ r ∈ rows, ∃ n : ℤ, r.getD yi .null = .int n ∧ MIN_YEAR ≤ n ∧ n ≤ MAX_YEAR) :
    ∀ r' ∈ ffillFold ci idxs rows,
      ∃ n : ℤ, r'.getD yi .null = .int n ∧ MIN_YEAR ≤ n ∧ n ≤ MAX_YEAR := by
  intro r' hr'
  rw [List.mem_iff_getElem] at hr'
  obtain ⟨p, hp, rfl⟩ := hr'
  have hpl : p < rows.length := by rwa [ffillFold_length] at hp
  have hnn : isNull ((rows.getD p []).getD yi .null) = false := by
    obtain ⟨n, he, -⟩ := hyr _ (getD_mem rows hpl [])
    rw [he]
    rfl
  rw [← List.getD_eq_getElem _ _ hp,
    ffillFold_getD_keep ci idxs rows hpl (hcnn _ (getD_mem rows hpl [])) hnn]
  exact hyr _ (getD_mem rows hpl [])

theorem ffillFold_sorted_keep (ci yi : ℕ) (idxs : List ℕ) (rows : List Row)
    (hcnn : ∀ r ∈ rows, isNull (r.getD ci .null) = false)
    (hynn : ∀ r ∈ rows, isNull (r.getD yi .null) = false)
    (hsort : rows.Pairwise fun a b => rowKeyCY ci yi a ≤ rowKeyCY ci yi b) :
    (ffillFold ci idxs rows).Pairwise
      fun a b => rowKeyCY ci yi a ≤ rowKeyCY ci yi b := by
  rw [List.pairwise_iff_getElem] at hsort ⊢
  intro q p hq hp hqp
  have hql : q < rows.length := by rwa [ffillFold_length] at hq
  have hpl : p < rows.length := by rwa [ffillFold_length] at hp
  have hkey : ∀ m : ℕ, m < rows.length →
      rowKeyCY ci yi ((ffillFold ci idxs rows).getD m []) =
        rowKeyCY ci yi (rows.getD m []) := by
    intro m hm
    rw [rowKeyCY, rowKeyCY, ffillFold_getD_ci ci idxs rows hm (hcnn _ (getD_mem rows hm [])),
      ffillFold_getD_keep ci idxs rows hm (hcnn _ (getD_mem rows hm []))
        (hynn _ (getD_mem rows hm []))]
  have hgq : (ffillFold ci idxs rows)[q] = (ffillFold ci idxs rows).getD q [] :=
    (List.getD_eq_getElem _ _ hq).symm
  have hgp : (ffillFold ci idxs rows)[p] = (ffillFold ci idxs rows).getD p [] :=
    (List.getD_eq_getElem _ _ hp).symm
  rw [hgq, hgp, hkey q hql, hkey p hpl, List.getD_eq_getElem _ _ hql,
    List.getD_eq_getElem _ _ hpl]
  exact hsort q p hql hpl hqp

theorem ffillNumeric_rows {t : Table} {ci : ℕ} (hci : colIdx t "country" = some ci) :
    ffillNumeric t = { t with rows := ffillFold ci (numericIdxs t) t.rows } := by
  rw [ffillNumeric, hci]
  rfl

theorem numericIdxs_nodup (t : Table) : (numericIdxs t).Nodup :=
  (List.nodup_range _).filter _

theorem numericIdxs_congr {t u : Table} (hc : t.cols.length = u.cols.length)
    (hd : t.dtypes = u.dtypes) : numericIdxs t = numericIdxs u := by
  rw [numericIdxs, numericIdxs, hc, hd]

/- ##### Percentage-step lemmas ##### -/

theorem pctRow_nil (r : Row) : pctRow [] r = r := rfl

theorem pctRow_cons (i : ℕ) (rest : List ℕ) (r : Row) :
    pctRow (i :: rest) r = pctRow rest (r.set i (pctCell (r.getD i .null))) := rfl

theorem setF64_cons (i : ℕ) (rest : List ℕ) (d : List DType) :
    setF64 (i :: rest) d = setF64 rest (d.set i .f64) := rfl

theorem pctStep_char (t : Table) :
    pctStep t = ⟨t.cols, setF64 (pctIdxs t) t.dtypes, t.rows.map (pctRow (pctIdxs t))⟩ := by
  rw [pctStep]
  generalize pctIdxs t = idxs
  induction idxs generalizing t with
  | nil =>
    cases t with
    | mk cols dtypes rows =>
      show Table.mk cols dtypes rows = Table.mk cols (setF64 [] dtypes) (rows.map (pctRow []))
      rw [show setF64 [] dtypes = dtypes from rfl,
        show rows.map (pctRow []) = rows.map (fun r => r) from rfl]
      rw [map_eq_self_of fun a _ => rfl]
  | cons i rest ih =>
    rw [List.foldl_cons, ih]
    show Table.mk t.cols (setF64 rest (t.dtypes.set i .f64))
        ((t.rows.map fun r => r.set i (pctCell (r.getD i .null))).map (pctRow rest)) =
      Table.mk t.cols (setF64 (i :: rest) t.dtypes) (t.rows.map (pctRow (i :: rest)))
    rw [setF64_cons, List.map_map]
    rfl

theorem pctCell_eq (v : Val) :
    pctCell v = if valGt100 (toNumeric v) then .null else toNumeric v := rfl

theorem pctCell_null : pctCell .null = .null := rfl

theorem toNumeric_idem (v : Val) : toNumeric (toNumeric v) = toNumeric v := by
  cases v with
  | null => rfl
  | int n => rfl
  | num q => rfl
  | bool b => rfl
  | str s =>
    rw [toNumeric]
    cases parseNum s with
    | none => rfl
    | some q =>
      dsimp only
      split
      · rfl
      · rfl

theorem pctCell_idem (v : Val) : pctCell (pctCell v) = pctCell v := by
  by_cases h : valGt100 (toNumeric v) = true
  · rw [pctCell_eq v, if_pos h, pctCell_null]
  · rw [pctCell_eq v, if_neg h, pctCell_eq (toNumeric v), toNumeric_idem, if_neg h]

theorem set_pctCell_getD (r : Row) (i : ℕ) :
    (r.set i (pctCell (r.getD i .null))).getD i .null = pctCell (r.getD i .null) := by
  by_cases hi : i < r.length
  · exact getD_set_self_lt _ hi _ _
  · rw [List.set_eq_of_length_le (Nat.le_of_not_lt hi),
      List.getD_eq_default _ _ (Nat.le_of_not_lt hi)]
    rfl

theorem pctRow_getD_notmem {idxs : List ℕ} {j : ℕ} (hj : j ∉ idxs) (r : Row) :
    (pctRow idxs r).getD j .null = r.getD j .null := by
  induction idxs generalizing r with
  | nil => rfl
  | cons i rest ih =>
    rw [pctRow_cons, ih fun h => hj (List.mem_cons_of_mem i h)]
    exact getD_set_ne _ (fun h => hj (by simp [h])) _ _

theorem pctRow_getD_mem {idxs : List ℕ} (hnd : idxs.Nodup) {j : ℕ} (hj : j ∈ idxs) (r : Row) :
    (pctRow idxs r).getD j .null = pctCell (r.getD j .null) := by
  induction idxs generalizing r with
  | nil => cases hj
  | cons i rest ih =>
    rw [pctRow_cons]
    rcases List.mem_cons.1 hj with rfl | hj'
    · rw [pctRow_getD_notmem (by simpa using (List.nodup_cons.1 hnd).1), set_pctCell_getD]
    · have hji : j ≠ i := fun h =>
        (by simpa [h] using (List.nodup_cons.1 hnd).1 : i ∉ rest) (h ▸ hj')
      rw [ih (List.nodup_cons.1 hnd).2 hj', getD_set_ne _ hji]

theorem pctRow_length (idxs : List ℕ) (r : Row) : (pctRow idxs r).length = r.length := by
  induction idxs generalizing r with
  | nil => rfl
  | cons i rest ih => rw [pctRow_cons, ih, List.length_set]

theorem pctRow_eq_self {idxs : List ℕ} {r : Row}
    (h : ∀ j ∈ idxs, pctCell (r.getD j .null) = r.getD j .null) : pctRow idxs r = r := by
  induction idxs with
  | nil => rfl
  | cons i rest ih =>
    rw [pctRow_cons, h i (by simp), set_getD_self]
    exact ih fun j hj => h j (by simp [hj])

theorem setF64_length (idxs : List ℕ) (d : List DType) : (setF64 idxs d).length = d.length := by
  induction idxs generalizing d with
  | nil => rfl
  | cons i rest ih => rw [setF64_cons, ih, List.length_set]

theorem setF64_getD_notmem {idxs : List ℕ} {j : ℕ} (hj : j ∉ idxs) (d : List DType) :
    (setF64 idxs d).getD j .obj = d.getD j .obj := by
  induction idxs generalizing d with
  | nil => rfl
  | cons i rest ih =>
    rw [setF64_cons, ih fun h => hj (List.mem_cons_of_mem i h)]
    exact getD_set_ne _ (fun h => hj (by simp [h])) _ _

theorem setF64_getD_mem {idxs : List ℕ} {j : ℕ} (hj : j ∈ idxs) (d : List DType)
    (hlt : j < d.length) : (setF64 idxs d).getD j .obj = .f64 := by
  induction idxs generalizing d with
  | nil => cases hj
  | cons i rest ih =>
    rw [setF64_cons]
    by_cases hm : j ∈ rest
    · exact ih hm _ (by rwa [List.length_set])
    · obtain rfl : j = i := by
        rcases List.mem_cons.1 hj with rfl | hj' <;> [rfl; exact absurd hj' hm]
      rw [setF64_getD_notmem hm, getD_set_self_lt _ hlt]

theorem setF64_eq_self {idxs : List ℕ} {d : List DType}
    (h : ∀ j ∈ idxs, j < d.length → d.getD j .obj = .f64) : setF64 idxs d = d := by
  induction idxs with
  | nil => rfl
  | cons i rest ih =>
    have hset : d.set i .f64 = d := by
      by_cases hi : i < d.length
      · rw [← h i (by simp) hi, set_getD_self]
      · exact List.set_eq_of_length_le (Nat.le_of_not_lt hi)
    rw [setF64_cons, hset]
    exact ih fun j hj => h j (by simp [hj])

theorem pctIdxs_congr {t u : Table} (h : t.cols = u.cols) : pctIdxs t = pctIdxs u := by
  rw [pctIdxs, pctIdxs, h]

theorem pctIdxs_nodup (t : Table) : (pctIdxs t).Nodup :=
  (List.nodup_range _).filter _

/- ##### Error classification of the cleaner ##### -/

theorem astypeInt64Cell_error {x : Val} {e : String} (h : astypeInt64Cell x = .error e) :
    e = "cannot safely cast non-equivalent float64 to int64" ∨
      e = "object cannot be cast to Int64" := by
  cases x with
  | null => simp [astypeInt64Cell] at h
  | int n => simp [astypeInt64Cell] at h
  | num q =>
    rw [astypeInt64Cell] at h
    split at h
    · simp at h
    · simp only [Except.error.injEq] at h
      exact Or.inl h.symm
  | str s =>
    simp only [astypeInt64Cell, Except.error.injEq] at h
    exact Or.inr h.symm
  | bool b => simp [astypeInt64Cell] at h

theorem astypeCol_error {i : ℕ} {rows : List Row} {e : String}
    (h : astypeCol i rows = .error e) :
    e = "cannot safely cast non-equivalent float64 to int64" ∨
      e = "object cannot be cast to Int64" := by
  induction rows with
  | nil => simp [astypeCol] at h
  | cons r rest ih =>
    rw [astypeCol] at h
    cases hr : astypeCol i rest with
    | error e2 =>
      rw [hr] at h
      cases hv : astypeInt64Cell (r.getD i .null) with
      | error e' =>
        rw [hv] at h
        replace h : Except.error e' = (Except.error e : Except String (List Row)) := h
        simp only [Except.error.injEq] at h
        subst h
        exact astypeInt64Cell_error hv
      | ok v =>
        rw [hv] at h
        replace h : Except.error e2 = (Except.error e : Except String (List Row)) := h
        simp only [Except.error.injEq] at h
        subst h
        exact ih hr
    | ok rest2 =>
      rw [hr] at h
      cases hv : astypeInt64Cell (r.getD i .null) with
      | error e' =>
        rw [hv] at h
        replace h : Except.error e' = (Except.error e : Except String (List Row)) := h
        simp only [Except.error.injEq] at h
        subst h
        exact astypeInt64Cell_error hv
      | ok v =>
        rw [hv] at h
        simp at h

theorem yearStep_error {t : Table} {e : String} (h : yearStep t = .error e) :
    e = "cannot safely cast non-equivalent float64 to int64" ∨
      e = "object cannot be cast to Int64" := by
  rw [yearStep] at h
  cases hy : colIdx t "year" with
  | none =>
    rw [hy] at h
    simp at h
  | some i =>
    rw [hy] at h
    dsimp only at h
    cases hac : astypeCol i (t.rows.map fun r => r.set i (toNumeric (r.getD i .null))) with
    | error e' =>
      rw [hac] at h
      replace h : Except.error e' = (Except.error e : Except String Table) := h
      simp only [Except.error.injEq] at h
      subst h
      exact astypeCol_error hac
    | ok rows2 =>
      rw [hac] at h
      simp at h

theorem clean_tb_error {t : Table} {e : String} (h : clean_tb_data t = .error e) :
    e = "cannot safely cast non-equivalent float64 to int64" ∨
      e = "object cannot be cast to Int64" := by
  simp only [clean_tb_data] at h
  by_cases hy : "year" ∈ (clean_tb_pre t).cols
  · rw [if_pos hy] at h
    cases hys : yearStep (clean_tb_pre t) with
    | error e' =>
      rw [hys] at h
      replace h : Except.error e' = (Except.error e : Except String Table) := h
      simp only [Except.error.injEq] at h
      subst h
      exact yearStep_error hys
    | ok t4 =>
      rw [hys] at h
      simp at h
  · rw [if_neg hy] at h
    replace h : Except.ok (if "country" ∈ (clean_tb_pre t).cols ∧ "year" ∈ (clean_tb_pre t).cols
        then sortStep (clean_tb_pre t) else clean_tb_pre t) =
        (Except.error e : Except String Table) := h
    simp at h

theorem clean_tb_missing_year {t : Table} (h : "year" ∉ t.cols.map normName) :
    clean_tb_data t = .ok (clean_tb_pre t) := by
  have hy : "year" ∉ (clean_tb_pre t).cols := by rwa [clean_tb_pre_cols]
  simp only [clean_tb_data]
  rw [if_neg hy]
  show Except.ok (if "country" ∈ (clean_tb_pre t).cols ∧ "year" ∈ (clean_tb_pre t).cols
    then sortStep (clean_tb_pre t) else clean_tb_pre t) = Except.ok (clean_tb_pre t)
  rw [if_neg (by tauto)]

/- ##### Second-pass identity lemmas ##### -/

theorem cellAt_congr {t u : Table} (h : t.cols = u.cols) (c : String) (r : Row) :
    cellAt t c r = cellAt u c r := by
  rw [cellAt, cellAt, colIdx_congr h]

theorem renameIf_notmem {t : Table} {o : String} (h : o ∉ t.cols) (n : String) :
    renameIf t o n = t := by
  rw [renameIf, if_neg h]

theorem applyRenames_eq_self {t : Table} (h : ∀ c ∈ t.cols, normName c = c) :
    applyRenames t = t := by
  have h1 : "Entity" ∉ t.cols := fun hm => (fixed_not_alias (h _ hm)).1 rfl
  have h2 : "Year" ∉ t.cols := fun hm => (fixed_not_alias (h _ hm)).2.1 rfl
  have h3 : "Estimated incidence of all forms of tuberculosis" ∉ t.cols := fun hm =>
    (fixed_not_alias (h _ hm)).2.2 rfl
  rw [applyRenames, renameIf_notmem h1, renameIf_notmem h2, renameIf_notmem h3]

theorem normalizeCols_eq_self {t : Table} (h : ∀ c ∈ t.cols, normName c = c) :
    normalizeCols t = t := by
  rw [normalizeCols, map_eq_self_of h]

theorem dropnaAny_eq_self {t : Table} {cs : List String}
    (h : ∀ r ∈ t.rows, (cs.all fun c => !isNull (cellAt t c r)) = true) :
    dropnaAny t cs = t := by
  rw [dropnaAny, List.filter_eq_self.2 h]

theorem clean_tb_pre_eq_self {t : Table}
    (hfix : ∀ c ∈ t.cols, normName c = c)
    (hc : "country" ∈ t.cols) (hy : "year" ∈ t.cols)
    (hdist : t.rows.Pairwise fun a b => rowEqB a b = false)
    {ci yi : ℕ} (hci : colIdx t "country" = some ci) (hyi : colIdx t "year" = some yi)
    (hcnn : ∀ r ∈ t.rows, isNull (r.getD ci .null) = false)
    (hynn : ∀ r ∈ t.rows, isNull (r.getD yi .null) = false) :
    clean_tb_pre t = t := by
  rw [clean_tb_pre]
  dsimp only
  rw [normalizeCols_eq_self hfix, dedupRows_eq_self hdist]
  rw [if_pos ⟨hc, hy⟩]
  show dropnaAny t ["country", "year"] = t
  apply dropnaAny_eq_self
  intro r hr
  simp only [List.all_cons, List.all_nil, Bool.and_true, Bool.and_eq_true]
  rw [cellAt_of_colIdx hci, cellAt_of_colIdx hyi]
  exact ⟨by rw [hcnn r hr]; rfl, by rw [hynn r hr]; rfl⟩

theorem yearStep_eq_self {t : Table} {yi : ℕ} (hyi : colIdx t "year" = some yi)
    (hyr : ∀ r ∈ t.rows, ∃ n : ℤ, r.getD yi .null = .int n ∧ MIN_YEAR ≤ n ∧ n ≤ MAX_YEAR)
    (hdt : yi < t.dtypes.length → t.dtypes.getD yi DType.obj = DType.i64n) :
    yearStep t = .ok t := by
  rw [yearStep, hyi]
  dsimp only
  have hmap : (t.rows.map fun r => r.set yi (toNumeric (r.getD yi .null))) = t.rows := by
    apply map_eq_self_of
    intro r hr
    have hnum : toNumeric (r.getD yi .null) = r.getD yi .null := by
      obtain ⟨n, he, -⟩ := hyr r hr
      rw [he]
      rfl
    rw [hnum, set_getD_self]
  rw [hmap, astypeCol_eq_self ?hcast]
  case hcast =>
    intro r hr
    obtain ⟨n, he, -⟩ := hyr r hr
    rw [he]
    rfl
  have hset : t.dtypes.set yi .i64n = t.dtypes := by
    by_cases hl : yi < t.dtypes.length
    · rw [← hdt hl, set_getD_self]
    · exact List.set_eq_of_length_le (Nat.le_of_not_lt hl)
  show Except.ok { dropnaAny (Table.mk t.cols (t.dtypes.set yi .i64n) t.rows) ["year"] with
    rows := (dropnaAny (Table.mk t.cols (t.dtypes.set yi .i64n) t.rows) ["year"]).rows.filter
      fun r => yearInRange (r.getD yi .null) } = Except.ok t
  rw [hset]
  have hdrop : dropnaAny (Table.mk t.cols t.dtypes t.rows) ["year"] = t := by
    apply dropnaAny_eq_self
    intro r hr
    simp only [List.all_cons, List.all_nil, Bool.and_true]
    have hcell : cellAt (Table.mk t.cols t.dtypes t.rows) "year" r = r.getD yi .null := by
      rw [cellAt_congr (u := t) rfl, cellAt_of_colIdx hyi]
    obtain ⟨n, he, -⟩ := hyr r hr
    rw [hcell, he]
    rfl
  rw [hdrop]
  have hfilt : (t.rows.filter fun r => yearInRange (r.getD yi .null)) = t.rows := by
    apply List.filter_eq_self.2
    intro r hr
    obtain ⟨n, he, h1, h2⟩ := hyr r hr
    rw [he]
    simp only [yearInRange]
    simp [h1, h2]
  show Except.ok { t with rows := t.rows.filter fun r => yearInRange (r.getD yi .null) } =
    Except.ok t
  rw [hfilt]

theorem clean_tb_eq_self {t : Table}
    (hfix : ∀ c ∈ t.cols, normName c = c)
    (hc : "country" ∈ t.cols) (hy : "year" ∈ t.cols)
    (hdist : t.rows.Pairwise fun a b => rowEqB a b = false)
    {ci yi : ℕ} (hci : colIdx t "country" = some ci) (hyi : colIdx t "year" = some yi)
    (hcnn : ∀ r ∈ t.rows, isNull (r.getD ci .null) = false)
    (hyr : ∀ r ∈ t.rows, ∃ n : ℤ, r.getD yi .null = .int n ∧ MIN_YEAR ≤ n ∧ n ≤ MAX_YEAR)
    (hdt : yi < t.dtypes.length → t.dtypes.getD yi DType.obj = DType.i64n)
    (hsort : t.rows.Pairwise fun a b => rowKeyCY ci yi a ≤ rowKeyCY ci yi b) :
    clean_tb_data t = .ok t := by
  have hynn : ∀ r ∈ t.rows, isNull (r.getD yi .null) = false := by
    intro r hr
    obtain ⟨n, he, -⟩ := hyr r hr
    rw [he]
    rfl
  have hpre := clean_tb_pre_eq_self hfix hc hy hdist hci hyi hcnn hynn
  simp only [clean_tb_data, hpre]
  rw [if_pos hy, yearStep_eq_self hyi hyr hdt]
  show Except.ok (if "country" ∈ t.cols ∧ "year" ∈ t.cols then sortStep t else t) = Except.ok t
  rw [if_pos ⟨hc, hy⟩, sortStep_spec hci hyi, sortRowsBy_eq_self _ _ hsort]

theorem dropAllNullIndicators_idem (f : Table) (ind : List String) :
    dropAllNullIndicators (dropAllNullIndicators f ind) ind = dropAllNullIndicators f ind := by
  by_cases he : (ind.filter (· ∈ f.cols)).isEmpty = true
  · have hid : dropAllNullIndicators f ind = f := by
      rw [dropAllNullIndicators, if_pos he]
    rw [hid, dropAllNullIndicators, if_pos he]
  · have hd : dropAllNullIndicators f ind = dropnaAllNull f (ind.filter (· ∈ f.cols)) := by
      rw [dropAllNullIndicators, if_neg he]
    rw [hd]
    have hcols : (dropnaAllNull f (ind.filter (· ∈ f.cols))).cols = f.cols := rfl
    rw [dropAllNullIndicators, hcols, if_neg he]
    show Table.mk f.cols f.dtypes
        (List.filter (fun r => !((ind.filter (· ∈ f.cols)).all fun c => isNull (cellAt f c r)))
          (List.filter
            (fun r => !((ind.filter (· ∈ f.cols)).all fun c => isNull (cellAt f c r)))
            f.rows)) =
      Table.mk f.cols f.dtypes
        (List.filter (fun r => !((ind.filter (· ∈ f.cols)).all fun c => isNull (cellAt f c r)))
          f.rows)
    rw [List.filter_eq_self.2 fun a ha => (List.mem_filter.1 ha).2]

theorem map_normName_fixed {l : List String} {c : String} (h : c ∈ l.map normName) :
    normName c = c := by
  obtain ⟨a, -, rfl⟩ := List.mem_map.1 h
  exact normName_idem a

theorem dropAllNullIndicators_parts (t : Table) (ind : List String) :
    (dropAllNullIndicators t ind).cols = t.cols ∧
      (dropAllNullIndicators t ind).dtypes = t.dtypes ∧
      (dropAllNullIndicators t ind).rows.Sublist t.rows := by
  rw [dropAllNullIndicators]
  split
  · exact ⟨rfl, rfl, List.Sublist.refl _⟩
  · exact ⟨rfl, rfl, List.filter_sublist _⟩

theorem clean_owid_second {t d : Table} (h : clean_owid_data t = .ok d)
    (hc : "country" ∈ d.cols) (hy : "year" ∈ d.cols)
    (hdist : d.rows.Pairwise fun a b => rowEqB a b = false) :
    clean_owid_data d = .ok d := by
  simp only [clean_owid_data] at h
  cases h1 : clean_tb_data (applyRenames t) with
  | error e =>
    rw [h1] at h
    exact absurd h (by simp)
  | ok d1 =>
    rw [h1] at h
    replace h : Except.ok (dropAllNullIndicators
        (if "country" ∈ d1.cols then ffillNumeric d1 else d1) tb_indicators) = Except.ok d := h
    simp only [Except.ok.injEq] at h
    have hfc : (if "country" ∈ d1.cols then ffillNumeric d1 else d1).cols = d1.cols := by
      split
      · next hcc =>
          obtain ⟨ci, hci⟩ := colIdx_mem hcc
          rw [ffillNumeric_rows hci]
      · rfl
    have hdc : d.cols = d1.cols := by
      rw [← h]
      exact ((dropAllNullIndicators_parts _ _).1).trans hfc
    have hcc : "country" ∈ d1.cols := by rw [← hdc]; exact hc
    have hyc : "year" ∈ d1.cols := by rw [← hdc]; exact hy
    obtain ⟨ci, hci⟩ := colIdx_mem hcc
    obtain ⟨yi, hyi⟩ := colIdx_mem hyc
    obtain ⟨hcols1, hI1, hI2, hI4, hI3⟩ := clean_tb_post h1 hci hyi
    rw [if_pos hcc, ffillNumeric_rows hci] at h
    set f : Table := { d1 with rows := ffillFold ci (numericIdxs d1) d1.rows } with hfdef
    have hynn1 : ∀ r ∈ d1.rows, isNull (r.getD yi .null) = false := by
      intro r hr
      obtain ⟨n, he, -⟩ := hI2 r hr
      rw [he]
      rfl
    have hf1 : ∀ r ∈ f.rows, isNull (r.getD ci .null) = false :=
      ffillFold_keys_mem ci _ d1.rows hI1
    have hf2 : ∀ r ∈ f.rows, ∃ n : ℤ, r.getD yi .null = .int n ∧
        MIN_YEAR ≤ n ∧ n ≤ MAX_YEAR :=
      ffillFold_year_mem ci yi _ d1.rows hI1 hI2
    have hf4 : f.rows.Pairwise (fun a b => rowKeyCY ci yi a ≤ rowKeyCY ci yi b) :=
      ffillFold_sorted_keep ci yi _ d1.rows hI1 hynn1 hI4
    have hf5 : ∀ j ∈ numericIdxs d1, f.rows.Pairwise (leftP ci j) :=
      ffillFold_leftSat ci _ (numericIdxs_nodup d1) d1.rows hI1
    have hsub : d.rows.Sublist f.rows := by
      rw [← h]
      exact (dropAllNullIndicators_parts f _).2.2
    have hd1 : ∀ r ∈ d.rows, isNull (r.getD ci .null) = false := fun r hr =>
      hf1 r (hsub.subset hr)
    have hd2 : ∀ r ∈ d.rows, ∃ n : ℤ, r.getD yi .null = .int n ∧
        MIN_YEAR ≤ n ∧ n ≤ MAX_YEAR := fun r hr => hf2 r (hsub.subset hr)
    have hd4 : d.rows.Pairwise (fun a b => rowKeyCY ci yi a ≤ rowKeyCY ci yi b) :=
      hf4.sublist hsub
    have hd5 : ∀ j ∈ numericIdxs d1, d.rows.Pairwise (leftP ci j) := fun j hj =>
      (hf5 j hj).sublist hsub
    have hdt : d.dtypes = d1.dtypes := by
      rw [← h]
      exact (dropAllNullIndicators_parts f _).2.1
    have hfix : ∀ c ∈ d.cols, normName c = c := by
      intro c hcm
      apply map_normName_fixed (l := (applyRenames t).cols)
      rw [← hcols1, ← hdc]
      exact hcm
    have hcid : colIdx d "country" = some ci := by rw [colIdx_congr hdc]; exact hci
    have hyid : colIdx d "year" = some yi := by rw [colIdx_congr hdc]; exact hyi
    have hdtc : yi < d.dtypes.length → d.dtypes.getD yi DType.obj = DType.i64n := by
      rw [hdt]
      exact hI3
    simp only [clean_owid_data]
    rw [applyRenames_eq_self hfix, clean_tb_eq_self hfix hc hy hdist hcid hyid hd1 hd2 hdtc hd4]
    show Except.ok (dropAllNullIndicators
      (if "country" ∈ d.cols then ffillNumeric d else d) tb_indicators) = Except.ok d
    rw [if_pos hc, ffillNumeric_rows hcid,
      numericIdxs_congr (u := d1) (by rw [hdc]) hdt, ffillFold_eq_self ci _ d.rows hd1 hd5]
    show Except.ok (dropAllNullIndicators d tb_indicators) = Except.ok d
    rw [← h, dropAllNullIndicators_idem]

theorem colIdx_not_pct {t : Table} {c : String} {i : ℕ} (h : colIdx t c = some i)
    (hn : isPctName c = false) : i ∉ pctIdxs t := by
  intro hm
  rw [pctIdxs, List.mem_filter] at hm
  obtain ⟨-, hp⟩ := hm
  obtain ⟨hlt, hcol⟩ := colIdx_spec h
  rw [List.getD_eq_getElem _ _ hlt, hcol] at hp
  exact absurd hp (by simp [hn])

theorem clean_who_second {t d : Table} (h : clean_who_data t = .ok d)
    (hc : "country" ∈ d.cols) (hy : "year" ∈ d.cols)
    (hdist : d.rows.Pairwise fun a b => rowEqB a b = false) :
    clean_who_data d = .ok d := by
  simp only [clean_who_data] at h
  cases h1 : clean_tb_data (applyRenames t) with
  | error e =>
    rw [h1] at h
    exact absurd h (by simp)
  | ok d1 =>
    rw [h1] at h
    replace h : Except.ok (dropAllNullIndicators
        (if "country" ∈ (pctStep d1).cols then ffillNumeric (pctStep d1) else pctStep d1)
        who_indicators) = Except.ok d := h
    simp only [Except.ok.injEq] at h
    have hpcols : (pctStep d1).cols = d1.cols := by rw [pctStep_char]
    have hpdt : (pctStep d1).dtypes = setF64 (pctIdxs d1) d1.dtypes := by rw [pctStep_char]
    have hprows : (pctStep d1).rows = d1.rows.map (pctRow (pctIdxs d1)) := by rw [pctStep_char]
    have hfc : (if "country" ∈ (pctStep d1).cols then ffillNumeric (pctStep d1)
        else pctStep d1).cols = d1.cols := by
      split
      · next hcc =>
          obtain ⟨ci, hci⟩ := colIdx_mem hcc
          rw [ffillNumeric_rows hci]
          exact hpcols
      · exact hpcols
    have hdc : d.cols = d1.cols := by
      rw [← h]
      exact ((dropAllNullIndicators_parts _ _).1).trans hfc
    have hcc : "country" ∈ d1.cols := by rw [← hdc]; exact hc
    have hyc : "year" ∈ d1.cols := by rw [← hdc]; exact hy
    obtain ⟨ci, hci⟩ := colIdx_mem hcc
    obtain ⟨yi, hyi⟩ := colIdx_mem hyc
    obtain ⟨hcols1, hI1, hI2, hI4, hI3⟩ := clean_tb_post h1 hci hyi
    have hcip : colIdx (pctStep d1) "country" = some ci := by
      rw [colIdx_congr hpcols]
      exact hci
    have hccp : "country" ∈ (pctStep d1).cols := by rw [hpcols]; exact hcc
    rw [if_pos hccp, ffillNumeric_rows hcip] at h
    have hcinp : ci ∉ pctIdxs d1 := colIdx_not_pct hci (by decide)
    have hyinp : yi ∉ pctIdxs d1 := colIdx_not_pct hyi (by decide)
    have hp1 : ∀ r ∈ (pctStep d1).rows, isNull (r.getD ci .null) = false := by
      rw [hprows]
      intro r hr
      obtain ⟨r0, hr0, rfl⟩ := List.mem_map.1 hr
      rw [pctRow_getD_notmem hcinp]
      exact hI1 r0 hr0
    have hp2 : ∀ r ∈ (pctStep d1).rows, ∃ n : ℤ, r.getD yi .null = .int n ∧
        MIN_YEAR ≤ n ∧ n ≤ MAX_YEAR := by
      rw [hprows]
      intro r hr
      obtain ⟨r0, hr0, rfl⟩ := List.mem_map.1 hr
      rw [pctRow_getD_notmem hyinp]
      exact hI2 r0 hr0
    have hkeyrow : ∀ r : Row, rowKeyCY ci yi (pctRow (pctIdxs d1) r) = rowKeyCY ci yi r := by
      intro r
      rw [rowKeyCY, rowKeyCY, pctRow_getD_notmem hcinp, pctRow_getD_notmem hyinp]
    have hp4 : (pctStep d1).rows.Pairwise
        (fun a b => rowKeyCY ci yi a ≤ rowKeyCY ci yi b) := by
      rw [hprows, List.pairwise_map]
      exact hI4.imp fun {a b} hab => by rw [hkeyrow a, hkeyrow b]; exact hab
    have hp7 : ∀ j ∈ pctIdxs d1, ∀ r ∈ (pctStep d1).rows,
        pctCell (r.getD j .null) = r.getD j .null := by
      intro j hj r hr
      rw [hprows] at hr
      obtain ⟨r0, hr0, rfl⟩ := List.mem_map.1 hr
      rw [pctRow_getD_mem (pctIdxs_nodup d1) hj]
      exact pctCell_idem _
    set f : Table := { pctStep d1 with
      rows := ffillFold ci (numericIdxs (pctStep d1)) (pctStep d1).rows } with hfdef
    have hf1 : ∀ r ∈ f.rows, isNull (r.getD ci .null) = false :=
      ffillFold_keys_mem ci _ (pctStep d1).rows hp1
    have hf2 : ∀ r ∈ f.rows, ∃ n : ℤ, r.getD yi .null = .int n ∧
        MIN_YEAR ≤ n ∧ n ≤ MAX_YEAR :=
      ffillFold_year_mem ci yi _ (pctStep d1).rows hp1 hp2
    have hpynn : ∀ r ∈ (pctStep d1).rows, isNull (r.getD yi .null) = false := by
      intro r hr
      obtain ⟨n, he, -⟩ := hp2 r hr
      rw [he]
      rfl
    have hf4 : f.rows.Pairwise (fun a b => rowKeyCY ci yi a ≤ rowKeyCY ci yi b) :=
      ffillFold_sorted_keep ci yi _ (pctStep d1).rows hp1 hpynn hp4
    have hf5 : ∀ j ∈ numericIdxs (pctStep d1), f.rows.Pairwise (leftP ci j) :=
      ffillFold_leftSat ci _ (numericIdxs_nodup (pctStep d1)) (pctStep d1).rows hp1
    have hf7 : ∀ j ∈ pctIdxs d1, ∀ r ∈ f.rows, pctCell (r.getD j .null) = r.getD j .null :=
      fun j hj => ffillFold_pred (fun v => pctCell v = v) pctCell_null ci _ j
        (pctStep d1).rows (hp7 j hj)
    have hsub : d.rows.Sublist f.rows := by
      rw [← h]
      exact (dropAllNullIndicators_parts f _).2.2
    have hd1 : ∀ r ∈ d.rows, isNull (r.getD ci .null) = false := fun r hr =>
      hf1 r (hsub.subset hr)
    have hd2 : ∀ r ∈ d.rows, ∃ n : ℤ, r.getD yi .null = .int n ∧
        MIN_YEAR ≤ n ∧ n ≤ MAX_YEAR := fun r hr => hf2 r (hsub.subset hr)
    have hd4 : d.rows.Pairwise (fun a b => rowKeyCY ci yi a ≤ rowKeyCY ci yi b) :=
      hf4.sublist hsub
    have hd5 : ∀ j ∈ numericIdxs (pctStep d1), d.rows.Pairwise (leftP ci j) := fun j hj =>
      (hf5 j hj).sublist hsub
    have hd7 : ∀ j ∈ pctIdxs d1, ∀ r ∈ d.rows, pctCell (r.getD j .null) = r.getD j .null :=
      fun j hj r hr => hf7 j hj r (hsub.subset hr)
    have hdt : d.dtypes = setF64 (pctIdxs d1) d1.dtypes := by
      rw [← h]
      exact ((dropAllNullIndicators_parts f _).2.1).trans hpdt
    have hfix : ∀ c ∈ d.cols, normName c = c := by
      intro c hcm
      apply map_normName_fixed (l := (applyRenames t).cols)
      rw [← hcols1, ← hdc]
      exact hcm
    have hcid : colIdx d "country" = some ci := by rw [colIdx_congr hdc]; exact hci
    have hyid : colIdx d "year" = some yi := by rw [colIdx_congr hdc]; exact hyi
    have hdtc : yi < d.dtypes.length → d.dtypes.getD yi DType.obj = DType.i64n := by
      intro hlt
      rw [hdt] at hlt ⊢
      rw [setF64_length] at hlt
      rw [setF64_getD_notmem hyinp]
      exact hI3 hlt
    have hd8 : ∀ j ∈ pctIdxs d1, j < d.dtypes.length → d.dtypes.getD j DType.obj = DType.f64 := by
      intro j hj hlt
      rw [hdt] at hlt ⊢
      rw [setF64_length] at hlt
      exact setF64_getD_mem hj d1.dtypes hlt
    simp only [clean_who_data]
    rw [applyRenames_eq_self hfix, clean_tb_eq_self hfix hc hy hdist hcid hyid hd1 hd2 hdtc hd4]
    show Except.ok (dropAllNullIndicators
      (if "country" ∈ (pctStep d).cols then ffillNumeric (pctStep d) else pctStep d)
      who_indicators) = Except.ok d
    have hpd : pctStep d = d := by
      rw [pctStep_char, pctIdxs_congr (u := d1) hdc, setF64_eq_self hd8,
        map_eq_self_of fun r hr => pctRow_eq_self fun j hj => hd7 j hj r hr]
    rw [hpd, if_pos hc, ffillNumeric_rows hcid,
      numericIdxs_congr (u := pctStep d1) (by rw [hdc, hpcols]) (by rw [hdt, hpdt]),
      ffillFold_eq_self ci _ d.rows hd1 hd5]
    show Except.ok (dropAllNullIndicators d who_indicators) = Except.ok d
    rw [← h, dropAllNullIndicators_idem]

/- ##### nearestPrev provenance ##### -/

theorem nearestPrev_mem_key (ci colI : ℕ) (pre : List Row) (k : Val) :
    nearestPrev ci colI pre k = .null ∨
      ∃ r ∈ pre, valEq (r.getD ci .null) k = true ∧
        isNull (r.getD colI .null) = false ∧
        nearestPrev ci colI pre k = r.getD colI .null := by
  rw [nearestPrev]
  cases hl : (pre.filter fun r =>
      valEq (r.getD ci .null) k && !isNull (r.getD colI .null)).getLast? with
  | none => exact Or.inl rfl
  | some r =>
    right
    have hm := List.mem_of_getLast?_eq_some hl
    have hpred := List.of_mem_filter hm
    simp only [Bool.and_eq_true, Bool.not_eq_true'] at hpred
    exact ⟨r, List.mem_of_mem_filter hm, hpred.1, hpred.2, rfl⟩

/- ##### Outlier-flag characterization ##### -/

theorem colIdx_eq_none {t : Table} {c : String} : colIdx t c = none ↔ c ∉ t.cols := by
  constructor
  · intro h hm
    obtain ⟨i, hi⟩ := colIdx_mem hm
    rw [h] at hi
    cases hi
  · intro h
    cases hcase : colIdx t c with
    | none => rfl
    | some i => exact absurd (colIdx_isSome_iff.1 (by simp [hcase])) h

theorem colIdx_append_mem {t : Table} {c : String} {i : ℕ} (h : colIdx t c = some i)
    (x : String) (dts : List DType) (rows : List Row) :
    colIdx ⟨t.cols ++ [x], dts, rows⟩ c = some i := by
  rw [colIdx] at h ⊢
  dsimp only at h ⊢
  rw [List.findIdx?_append, h]
  rfl

theorem colIdx_append_self {t : Table} {x : String} (h : x ∉ t.cols)
    (dts : List DType) (rows : List Row) :
    colIdx ⟨t.cols ++ [x], dts, rows⟩ x = some t.cols.length := by
  rw [colIdx]
  dsimp only
  rw [List.findIdx?_append]
  have hnone : t.cols.findIdx? (fun c2 => c2 == x) = none := by
    have : colIdx t x = none := colIdx_eq_none.2 h
    exact this
  rw [hnone, Option.none_or]
  simp [List.findIdx?_cons]

theorem set_append_last {α : Type} (l : List α) (a v : α) :
    (l ++ [a]).set l.length v = l ++ [v] := by
  induction l with
  | nil => rfl
  | cons x l ih =>
    rw [List.cons_append, List.length_cons, List.set_cons_succ, ih, List.cons_append]

theorem flagNonNull_spec {t : Table} {c : String} {fi vi : ℕ}
    (hf : colIdx t "is_outlier" = some fi) (hv : colIdx t c = some vi) :
    flagNonNull t c = { t with rows := t.rows.map fun r =>
      (if isNull (r.getD vi .null) then r else r.set fi (.bool true)) } := by
  rw [flagNonNull, hf, hv]

theorem any_map_general {α β : Type} (f : α → β) (p : β → Bool) (l : List α) :
    (l.map f).any p = l.any fun a => p (f a) := by
  induction l with
  | nil => rfl
  | cons a rest ih => rw [List.map_cons, List.any_cons, List.any_cons, ih]

theorem any_congr {α : Type} {p q : α → Bool} {l : List α} (h : ∀ a ∈ l, p a = q a) :
    l.any p = l.any q := by
  induction l with
  | nil => rfl
  | cons a rest ih =>
    rw [List.any_cons, List.any_cons, h a (by simp), ih fun a ha => h a (by simp [ha])]

theorem outlierStep_error (e : String) (c : String) : outlierStep (.error e) c = .error e := rfl

theorem outlierStep_ok (tb : Table) (c : String) :
    outlierStep (.ok tb) c =
      (if c ∈ tb.cols then
        (if hasNonNull tb c then .ok (flagNonNull tb c)
         else .error "AttributeError: 'numpy.ndarray' object has no attribute 'index'")
      else .ok tb) := rfl

theorem outlier_fold_char (t : Table) (hfl : "is_outlier" ∉ t.cols)
    (hw : ∀ r ∈ t.rows, r.length = t.cols.length) :
    ∀ (columns : List String), "is_outlier" ∉ columns → ∀ f : Row → Bool,
      columns.foldl outlierStep (.ok ⟨t.cols ++ ["is_outlier"], t.dtypes ++ [.boolean],
          t.rows.map fun r => r ++ [.bool (f r)]⟩) =
      (if columns.all (fun c => decide (c ∉ t.cols) ||
          t.rows.any fun r => !isNull (cellAt t c r)) then
        .ok ⟨t.cols ++ ["is_outlier"], t.dtypes ++ [.boolean],
          t.rows.map fun r => r ++ [.bool (f r || columns.any fun c =>
            decide (c ∈ t.cols) && !isNull (cellAt t c r))]⟩
      else .error "AttributeError: 'numpy.ndarray' object has no attribute 'index'") := by
  intro columns
  induction columns with
  | nil =>
    intro _ f
    rw [List.foldl_nil, List.all_nil, if_pos rfl]
    apply congrArg Except.ok
    apply congrArg (Table.mk _ _)
    apply List.map_congr_left
    intro r _
    rw [List.any_nil, Bool.or_false]
  | cons c rest ih =>
    intro hio f
    rw [List.foldl_cons, outlierStep_ok]
    have hio' : "is_outlier" ∉ rest := fun h => hio (List.mem_cons_of_mem c h)
    have hcio : c ≠ "is_outlier" := fun h => hio (by simp [h])
    by_cases hc : c ∈ t.cols
    · have hcacc : c ∈ (⟨t.cols ++ ["is_outlier"], t.dtypes ++ [.boolean],
          t.rows.map fun r => r ++ [.bool (f r)]⟩ : Table).cols :=
        List.mem_append_left _ hc
      rw [if_pos hcacc]
      obtain ⟨vi, hvi⟩ := colIdx_mem hc
      obtain ⟨hvlt, -⟩ := colIdx_spec hvi
      have hz : hasNonNull (⟨t.cols ++ ["is_outlier"], t.dtypes ++ [.boolean],
          t.rows.map fun r => r ++ [.bool (f r)]⟩ : Table) c =
          (t.rows.any fun r => !isNull (cellAt t c r)) := by
        rw [hasNonNull]
        show ((t.rows.map fun r => r ++ [Val.bool (f r)]).any fun r =>
          !isNull (cellAt (⟨t.cols ++ ["is_outlier"], t.dtypes ++ [.boolean],
            t.rows.map fun r => r ++ [.bool (f r)]⟩ : Table) c r)) = _
        rw [any_map_general]
        apply any_congr
        intro r0 hr0
        rw [cellAt_of_colIdx (colIdx_append_mem hvi _ _ _),
          List.getD_append _ _ _ _ (by rw [hw r0 hr0]; exact hvlt),
          ← cellAt_of_colIdx hvi]
      rw [hz]
      by_cases hnn : (t.rows.any fun r => !isNull (cellAt t c r)) = true
      · rw [if_pos hnn]
        rw [flagNonNull_spec (colIdx_append_self hfl _ _) (colIdx_append_mem hvi _ _ _)]
        have hrows : ((t.rows.map fun r => r ++ [Val.bool (f r)]).map fun r =>
            if isNull (r.getD vi .null) then r else r.set t.cols.length (.bool true)) =
            t.rows.map fun r => r ++
              [Val.bool (f r || (decide (c ∈ t.cols) && !isNull (cellAt t c r)))] := by
          rw [List.map_map]
          apply List.map_congr_left
          intro r0 hr0
          show (if isNull ((r0 ++ [Val.bool (f r0)]).getD vi .null) then r0 ++ [Val.bool (f r0)]
            else (r0 ++ [Val.bool (f r0)]).set t.cols.length (.bool true)) = _
          have hvr : vi < r0.length := by rw [hw r0 hr0]; exact hvlt
          rw [List.getD_append _ _ _ _ hvr]
          rw [show (r0 ++ [Val.bool (f r0)]).set t.cols.length (.bool true) =
            r0 ++ [Val.bool true] from by rw [← hw r0 hr0]; exact set_append_last r0 _ _]
          rw [cellAt_of_colIdx hvi]
          cases hn : isNull (r0.getD vi .null) with
          | true => simp [hc]
          | false => simp [hc]
        rw [hrows, ih hio' (fun r => f r || (decide (c ∈ t.cols) && !isNull (cellAt t c r)))]
        have hall : ((c :: rest).all fun c2 => decide (c2 ∉ t.cols) ||
            t.rows.any fun r => !isNull (cellAt t c2 r)) =
            (rest.all fun c2 => decide (c2 ∉ t.cols) ||
              t.rows.any fun r => !isNull (cellAt t c2 r)) := by
          rw [List.all_cons, hnn, Bool.or_true, Bool.true_and]
        rw [hall]
        by_cases hrest : (rest.all fun c2 => decide (c2 ∉ t.cols) ||
            t.rows.any fun r => !isNull (cellAt t c2 r)) = true
        · rw [if_pos hrest, if_pos hrest]
          apply congrArg Except.ok
          apply congrArg (Table.mk _ _)
          apply List.map_congr_left
          intro r _
          rw [List.any_cons, Bool.or_assoc]
        · rw [if_neg hrest, if_neg hrest]
      · rw [if_neg hnn,
          foldl_eq_self fun c2 _ => outlierStep_error
            "AttributeError: 'numpy.ndarray' object has no attribute 'index'" c2]
        have hna : (t.rows.any fun r => !isNull (cellAt t c r)) = false := by
          cases hh : t.rows.any fun r => !isNull (cellAt t c r) with
          | false => rfl
          | true => exact absurd hh hnn
        have hall : ((c :: rest).all fun c2 => decide (c2 ∉ t.cols) ||
            t.rows.any fun r => !isNull (cellAt t c2 r)) = false := by
          rw [List.all_cons]
          have hfirst : (decide (c ∉ t.cols) ||
              t.rows.any fun r => !isNull (cellAt t c r)) = false := by
            simp [hc, hna]
          rw [hfirst, Bool.false_and]
        rw [hall, if_neg (by simp)]
    · have hcacc : c ∉ (⟨t.cols ++ ["is_outlier"], t.dtypes ++ [.boolean],
          t.rows.map fun r => r ++ [.bool (f r)]⟩ : Table).cols := by
        intro hm
        rcases List.mem_append.1 hm with h1 | h2
        · exact hc h1
        · exact hcio (by simpa using h2)
      rw [if_neg hcacc, ih hio' f]
      have hall : ((c :: rest).all fun c2 => decide (c2 ∉ t.cols) ||
          t.rows.any fun r => !isNull (cellAt t c2 r)) =
          (rest.all fun c2 => decide (c2 ∉ t.cols) ||
            t.rows.any fun r => !isNull (cellAt t c2 r)) := by
        rw [List.all_cons]
        have hfirst : (decide (c ∉ t.cols) ||
            t.rows.any fun r => !isNull (cellAt t c r)) = true := by
          simp [hc]
        rw [hfirst, Bool.true_and]
      rw [hall]
      by_cases hrest : (rest.all fun c2 => decide (c2 ∉ t.cols) ||
          t.rows.any fun r => !isNull (cellAt t c2 r)) = true
      · rw [if_pos hrest, if_pos hrest]
        apply congrArg Except.ok
        apply congrArg (Table.mk _ _)
        apply List.map_congr_left
        intro r _
        rw [List.any_cons]
        simp [hc]
      · rw [if_neg hrest, if_neg hrest]

theorem identify_outliers_char (t : Table) (columns : List String) (thr : ℚ)
    (hfl : "is_outlier" ∉ t.cols) (hcf : "is_outlier" ∉ columns)
    (hw : ∀ r ∈ t.rows, r.length = t.cols.length) :
    identify_outliers t columns thr =
      (if columns.all (fun c => decide (c ∉ t.cols) ||
          t.rows.any fun r => !isNull (cellAt t c r)) then
        .ok ⟨t.cols ++ ["is_outlier"], t.dtypes ++ [.boolean],
          t.rows.map fun r => r ++ [.bool (columns.any fun c =>
            decide (c ∈ t.cols) && !isNull (cellAt t c r))]⟩
      else .error "AttributeError: 'numpy.ndarray' object has no attribute 'index'") := by
  rw [identify_outliers]
  have haddf : addFlagCol t = ⟨t.cols ++ ["is_outlier"], t.dtypes ++ [.boolean],
      t.rows.map fun r => r ++ [.bool false]⟩ := by
    rw [addFlagCol, colIdx_eq_none.2 hfl]
  rw [haddf, outlier_fold_char t hfl hw columns hcf (fun _ => false)]
  by_cases hcond : (columns.all fun c => decide (c ∉ t.cols) ||
      t.rows.any fun r => !isNull (cellAt t c r)) = true
  · rw [if_pos hcond, if_pos hcond]
    apply congrArg Except.ok
    apply congrArg (Table.mk _ _)
    apply List.map_congr_left
    intro r _
    rw [Bool.false_or]
  · rw [if_neg hcond, if_neg hcond]

/- ##### Merge counting lemmas ##### -/

theorem valEq_refl (a : Val) : valEq a a = true := by
  cases a <;> simp [valEq]

theorem pairEqB_refl (a : Val × Val) : pairEqB a a = true := by
  rw [pairEqB, valEq_refl, valEq_refl]
  rfl

theorem pairEqB_symm (a b : Val × Val) : pairEqB a b = pairEqB b a := by
  rw [pairEqB, pairEqB, valEq_symm a.1, valEq_symm a.2]

theorem pairEqB_trans {a b c : Val × Val} (h1 : pairEqB a b = true) (h2 : pairEqB b c = true) :
    pairEqB a c = true := by
  rw [pairEqB, Bool.and_eq_true] at h1 h2 ⊢
  exact ⟨valEq_trans h1.1 h2.1, valEq_trans h1.2 h2.2⟩

theorem dedupByAux_eq_self {α : Type} {eq : α → α → Bool} {seen l : List α}
    (hseen : ∀ s ∈ seen, ∀ a ∈ l, eq s a = false)
    (h : l.Pairwise fun a b => eq a b = false) : dedupByAux eq seen l = l := by
  induction l generalizing seen with
  | nil => rfl
  | cons a rest ih =>
    rw [dedupByAux, if_neg]
    · rw [ih ?hs (List.Pairwise.of_cons h)]
      case hs =>
        intro s hsmem a' ha'
        rcases List.mem_cons.1 hsmem with rfl | hsmem
        · exact (List.pairwise_cons.1 h).1 a' ha'
        · exact hseen s hsmem a' (by simp [ha'])
    · simp only [List.any_eq_true, not_exists, not_and]
      intro s hsmem
      simp [hseen s hsmem a (by simp)]

theorem dedupBy_eq_self {α : Type} {eq : α → α → Bool} {l : List α}
    (h : l.Pairwise fun a b => eq a b = false) : dedupBy eq l = l :=
  dedupByAux_eq_self (by simp) h

theorem filter_length_unique {α : Type} {p : α → Bool} {l : List α}
    (h : l.Pairwise fun a b => p a = true → p b = false) :
    (l.filter p).length = if l.any p = true then 1 else 0 := by
  induction l with
  | nil => rfl
  | cons a rest ih =>
    obtain ⟨ha, hrest⟩ := List.pairwise_cons.1 h
    by_cases hp : p a = true
    · rw [List.filter_cons_of_pos hp]
      have hnone : rest.filter p = [] :=
        List.filter_eq_nil_iff.2 fun b hb => by simp [ha b hb hp]
      rw [hnone]
      have hany : (a :: rest).any p = true := by simp [List.any_cons, hp]
      rw [if_pos hany]
      rfl
    · rw [List.filter_cons_of_neg (by simpa using hp), ih hrest]
      have hpa : p a = false := by
        cases hh : p a
        · rfl
        · exact absurd hh hp
      have hany : (a :: rest).any p = rest.any p := by
        rw [List.any_cons, hpa, Bool.false_or]
      rw [hany]

theorem length_flatMap_count {α β : Type} (l : List α) (f : α → List β) :
    (l.flatMap f).length = (l.map fun a => (f a).length).sum := by
  rw [List.flatMap_def, List.length_flatten, List.map_map]
  rfl

theorem sum_map_ite_one {α : Type} (p : α → Bool) (l : List α) :
    (l.map fun a => if p a = true then 1 else 0).sum = (l.filter p).length := by
  induction l with
  | nil => rfl
  | cons a rest ih =>
    rw [List.map_cons, List.sum_cons, ih]
    by_cases hp : p a = true
    · rw [if_pos hp, List.filter_cons_of_pos hp, List.length_cons]
      omega
    · rw [if_neg hp, List.filter_cons_of_neg (by simpa using hp), Nat.zero_add]

theorem selectCols_ok {t : Table} (cs : List String)
    (h : (cs.all fun c => decide (c ∈ t.cols)) = true) :
    selectCols t cs = .ok ⟨cs, cs.map (fun c => t.dtypes.getD ((colIdx t c).getD 0) .obj),
      t.rows.map fun r => cs.map fun c => cellAt t c r⟩ := by
  rw [selectCols, if_pos h]

/-- C5: the cross-source merge `compare_incidence_vs_treatment_success` is the
inner join on (country, year): when each input's (country, year) keys are
pairwise distinct, its row count equals the number of keys present in both
inputs, every result key occurs in both inputs, each source's indicator column
is preserved under a distinct source-qualified name (no collision), and the
result is sorted by (country, year).  Without the key-uniqueness hypotheses
duplicate keys multiply join rows, refuting the spec's unconditional count. -/
theorem C5_merge_inner_join {owid who : Table}
    (hoc : "country" ∈ owid.cols) (hoy : "year" ∈ owid.cols)
    (hot : "tb_incidence" ∈ owid.cols)
    (hwc : "country" ∈ who.cols) (hwy : "year" ∈ who.cols)
    (hwt : "tb_incidence" ∈ who.cols)
    (hokeys : (keyPairs owid).Pairwise fun a b => pairEqB a b = false)
    (hwkeys : (keyPairs who).Pairwise fun a b => pairEqB a b = false) :
    ∃ M, compare_incidence_vs_treatment_success owid who = .ok M ∧
      M.cols = ["country", "year", "tb_incidence", "who_tb_incidence"] ∧
      M.cols.Nodup ∧
      M.rows.length = sharedKeyCount owid who ∧
      (∀ r ∈ M.rows,
        ((keyPairs owid).any fun k => pairEqB k (r.getD 0 .null, r.getD 1 .null)) = true ∧
        ((keyPairs who).any fun k => pairEqB k (r.getD 0 .null, r.getD 1 .null)) = true) ∧
      M.rows.Pairwise fun a b => rowKeyCY 0 1 a ≤ rowKeyCY 0 1 b := by
  have hselO := selectCols_ok (t := owid) ["country", "year", "tb_incidence"]
    (by simp [hoc, hoy, hot])
  have hselW := selectCols_ok (t := who) ["country", "year", "tb_incidence"]
    (by simp [hwc, hwy, hwt])
  set O : Table := Table.mk ["country", "year", "tb_incidence"]
    (["country", "year", "tb_incidence"].map
      (fun c => owid.dtypes.getD ((colIdx owid c).getD 0) DType.obj))
    (owid.rows.map fun r => ["country", "year", "tb_incidence"].map
      fun c => cellAt owid c r) with hOdef
  set W0 : Table := Table.mk ["country", "year", "tb_incidence"]
    (["country", "year", "tb_incidence"].map
      (fun c => who.dtypes.getD ((colIdx who c).getD 0) DType.obj))
    (who.rows.map fun r => ["country", "year", "tb_incidence"].map
      fun c => cellAt who c r) with hW0def
  set W : Table := renameCol W0 "tb_incidence" "who_tb_incidence" with hWdef
  set J : Table := innerMerge O W ["country", "year"] with hJdef
  have hcomp : compare_incidence_vs_treatment_success owid who =
      .ok { J with rows := sortRowsBy (rowKeyCY 0 1) J.rows } := by
    rw [compare_incidence_vs_treatment_success, if_pos hot, hselO]
    show (if "tb_incidence" ∈ who.cols then
        (match selectCols who ["country", "year", "tb_incidence"] with
        | Except.error e => Except.error e
        | Except.ok who_subset0 => Except.ok (sortStep (innerMerge O
            (renameCol who_subset0 "tb_incidence" "who_tb_incidence") ["country", "year"]))
        : Except String Table)
      else Except.ok emptyTable) =
      Except.ok { J with rows := sortRowsBy (rowKeyCY 0 1) J.rows }
    rw [if_pos hwt, hselW]
    show Except.ok (sortStep J) =
      Except.ok { J with rows := sortRowsBy (rowKeyCY 0 1) J.rows }
    rw [sortStep_spec (t := J) (show colIdx J "country" = some 0 from rfl)
      (show colIdx J "year" = some 1 from rfl)]
  refine ⟨_, hcomp, rfl,
    (show (["country", "year", "tb_incidence", "who_tb_incidence"] : List String).Nodup by
      decide), ?_, ?_, ?_⟩
  · -- row count
    show (sortRowsBy (rowKeyCY 0 1) J.rows).length = sharedKeyCount owid who
    rw [sortRowsBy_length]
    have hciO : colIdx O "country" = some 0 := rfl
    have hyiO : colIdx O "year" = some 1 := rfl
    have hciW : colIdx W "country" = some 0 := rfl
    have hyiW : colIdx W "year" = some 1 := rfl
    have hq : ∀ r0 w0 : Row,
        (["country", "year"].all fun c => valEq
          (cellAt O c (["country", "year", "tb_incidence"].map fun c2 => cellAt owid c2 r0))
          (cellAt W c (["country", "year", "tb_incidence"].map fun c2 => cellAt who c2 w0))) =
        pairEqB (cellAt owid "country" r0, cellAt owid "year" r0)
          (cellAt who "country" w0, cellAt who "year" w0) := by
      intro r0 w0
      rw [List.all_cons, List.all_cons, List.all_nil, Bool.and_true,
        cellAt_of_colIdx hciO, cellAt_of_colIdx hyiO,
        cellAt_of_colIdx hciW, cellAt_of_colIdx hyiW, pairEqB]
      rfl
    have hwho_pair : ∀ r0 : Row, who.rows.Pairwise fun a b =>
        (pairEqB (cellAt owid "country" r0, cellAt owid "year" r0)
          (cellAt who "country" a, cellAt who "year" a)) = true →
        (pairEqB (cellAt owid "country" r0, cellAt owid "year" r0)
          (cellAt who "country" b, cellAt who "year" b)) = false := by
      intro r0
      have hw := List.pairwise_map.1 hwkeys
      apply hw.imp
      intro a b hab hpa
      cases hh : pairEqB (cellAt owid "country" r0, cellAt owid "year" r0)
        (cellAt who "country" b, cellAt who "year" b) with
      | false => rfl
      | true =>
        exfalso
        have := pairEqB_trans (pairEqB_symm _ _ ▸ hpa) hh
        rw [hab] at this
        cases this
    rw [hJdef, innerMerge]
    show (O.rows.flatMap fun lr => (W.rows.filter fun rr => ["country", "year"].all
        fun c => valEq (cellAt O c lr) (cellAt W c rr)).map
        fun rr => lr ++ nonKeyCells W ["country", "year"] rr).length = _
    rw [length_flatMap_count]
    have hOrows : O.rows = owid.rows.map fun r =>
        ["country", "year", "tb_incidence"].map fun c => cellAt owid c r := rfl
    have hWrows : W.rows = who.rows.map fun r =>
        ["country", "year", "tb_incidence"].map fun c => cellAt who c r := rfl
    rw [hOrows, List.map_map]
    have hinner : ∀ r0 : Row,
        ((W.rows.filter fun rr => ["country", "year"].all fun c => valEq
          (cellAt O c (["country", "year", "tb_incidence"].map fun c2 => cellAt owid c2 r0))
          (cellAt W c rr)).map
          (fun rr => (["country", "year", "tb_incidence"].map fun c2 => cellAt owid c2 r0) ++
            nonKeyCells W ["country", "year"] rr)).length =
        if (who.rows.any fun w0 => pairEqB
            (cellAt owid "country" r0, cellAt owid "year" r0)
            (cellAt who "country" w0, cellAt who "year" w0)) = true then 1 else 0 := by
      intro r0
      rw [List.length_map, hWrows, List.filter_map, List.length_map]
      show (List.filter (fun w0 => ["country", "year"].all fun c => valEq
          (cellAt O c (["country", "year", "tb_incidence"].map fun c2 => cellAt owid c2 r0))
          (cellAt W c (["country", "year", "tb_incidence"].map fun c2 => cellAt who c2 w0)))
          who.rows).length = _
      rw [List.filter_congr fun w0 _ => hq r0 w0]
      exact filter_length_unique (hwho_pair r0)
    show (List.map (fun r0 => ((W.rows.filter fun rr => ["country", "year"].all
        fun c => valEq
          (cellAt O c (["country", "year", "tb_incidence"].map fun c2 => cellAt owid c2 r0))
          (cellAt W c rr)).map
        (fun rr => (["country", "year", "tb_incidence"].map fun c2 => cellAt owid c2 r0) ++
          nonKeyCells W ["country", "year"] rr)).length) owid.rows).sum = _
    rw [List.map_congr_left fun r0 _ => hinner r0]
    rw [sum_map_ite_one]
    rw [sharedKeyCount, dedupBy_eq_self hokeys,
      show keyPairs owid = owid.rows.map
        (fun r => (cellAt owid "country" r, cellAt owid "year" r)) from rfl,
      List.filter_map, List.length_map]
    apply congrArg List.length
    apply List.filter_congr
    intro r0 _
    show (who.rows.any fun w0 => pairEqB
        (cellAt owid "country" r0, cellAt owid "year" r0)
        (cellAt who "country" w0, cellAt who "year" w0)) =
      ((keyPairs who).any fun k' => pairEqB
        (cellAt owid "country" r0, cellAt owid "year" r0) k')
    rw [show keyPairs who = who.rows.map
        (fun r => (cellAt who "country" r, cellAt who "year" r)) from rfl,
      any_map_general]
  · -- membership of keys in both inputs
    intro r hr
    have hrJ : r ∈ J.rows := sortRowsBy_mem _ _ hr
    rw [hJdef, innerMerge] at hrJ
    replace hrJ : r ∈ O.rows.flatMap fun lr => (W.rows.filter fun rr =>
        ["country", "year"].all fun c => valEq (cellAt O c lr) (cellAt W c rr)).map
        fun rr => lr ++ nonKeyCells W ["country", "year"] rr := hrJ
    rw [List.mem_flatMap] at hrJ
    obtain ⟨lr, hlr, hrin⟩ := hrJ
    rw [List.mem_map] at hrin
    obtain ⟨rr, hrrf, rfl⟩ := hrin
    rw [List.mem_filter] at hrrf
    obtain ⟨hrrW, hmatch⟩ := hrrf
    have hlrO : lr ∈ owid.rows.map fun r =>
        ["country", "year", "tb_incidence"].map fun c => cellAt owid c r := hlr
    rw [List.mem_map] at hlrO
    obtain ⟨r0, hr0, rfl⟩ := hlrO
    have hrrW' : rr ∈ who.rows.map fun r =>
        ["country", "year", "tb_incidence"].map fun c => cellAt who c r := hrrW
    rw [List.mem_map] at hrrW'
    obtain ⟨w0, hw0, rfl⟩ := hrrW'
    have hciO : colIdx O "country" = some 0 := rfl
    have hyiO : colIdx O "year" = some 1 := rfl
    have hciW : colIdx W "country" = some 0 := rfl
    have hyiW : colIdx W "year" = some 1 := rfl
    have hlen : (["country", "year", "tb_incidence"].map fun c => cellAt owid c r0).length = 3 :=
      rfl
    have hg0 : ((["country", "year", "tb_incidence"].map fun c => cellAt owid c r0) ++
        nonKeyCells W ["country", "year"]
          (["country", "year", "tb_incidence"].map fun c => cellAt who c w0)).getD 0 .null =
        cellAt owid "country" r0 := by
      rw [List.getD_append _ _ _ _ (by rw [hlen]; omega)]
      rfl
    have hg1 : ((["country", "year", "tb_incidence"].map fun c => cellAt owid c r0) ++
        nonKeyCells W ["country", "year"]
          (["country", "year", "tb_incidence"].map fun c => cellAt who c w0)).getD 1 .null =
        cellAt owid "year" r0 := by
      rw [List.getD_append _ _ _ _ (by rw [hlen]; omega)]
      rfl
    rw [List.all_cons, List.all_cons, List.all_nil, Bool.and_true,
      cellAt_of_colIdx hciO, cellAt_of_colIdx hyiO,
      cellAt_of_colIdx hciW, cellAt_of_colIdx hyiW, Bool.and_eq_true] at hmatch
    obtain ⟨hmc, hmy⟩ := hmatch
    have hmc' : valEq (cellAt owid "country" r0) (cellAt who "country" w0) = true := hmc
    have hmy' : valEq (cellAt owid "year" r0) (cellAt who "year" w0) = true := hmy
    constructor
    · rw [List.any_eq_true]
      refine ⟨(cellAt owid "country" r0, cellAt owid "year" r0), ?_, ?_⟩
      · rw [keyPairs, List.mem_map]
        exact ⟨r0, hr0, rfl⟩
      · rw [hg0, hg1]
        exact pairEqB_refl _
    · rw [List.any_eq_true]
      refine ⟨(cellAt who "country" w0, cellAt who "year" w0), ?_, ?_⟩
      · rw [keyPairs, List.mem_map]
        exact ⟨w0, hw0, rfl⟩
      · rw [hg0, hg1, pairEqB, Bool.and_eq_true]
        exact ⟨by rw [valEq_symm]; exact hmc', by rw [valEq_symm]; exact hmy'⟩
  · exact sortRowsBy_pairwise _ _

theorem sortRowsBy_sortsByKey : sortsByKey sortRowsBy := fun key rows =>
  ⟨sortRowsBy_perm key rows, sortRowsBy_pairwise key rows⟩

theorem revSort_sortsByKey : sortsByKey revSort := by
  intro key rows
  haveI : IsTotal Row (fun a b => key a ≤ key b) := ⟨fun a b => le_total (key a) (key b)⟩
  haveI : IsTrans Row (fun a b => key a ≤ key b) := ⟨fun a b c hab hbc => le_trans hab hbc⟩
  exact ⟨(List.perm_insertionSort _ _).trans rows.reverse_perm,
    List.sorted_insertionSort (fun a b => key a ≤ key b) rows.reverse⟩

theorem sorted_unique_of_distinct {α K : Type} [LinearOrder K] (f : α → K)
    {l1 l2 : List α} (hp : l1.Perm l2)
    (h1 : l1.Pairwise fun a b => f a ≤ f b)
    (h2 : l2.Pairwise fun a b => f a ≤ f b)
    (hd : l2.Pairwise fun a b => f a ≠ f b) : l1 = l2 := by
  haveI : IsAntisymm α (fun a b => f a < f b) :=
    ⟨fun a b hab hba => absurd (lt_trans hab hba) (lt_irrefl _)⟩
  have hd1 : l1.Pairwise fun a b => f a ≠ f b :=
    (hp.pairwise_iff fun h => Ne.symm h).2 hd
  have h1s : l1.Pairwise fun a b => f a < f b :=
    (h1.and hd1).imp fun h => lt_of_le_of_ne h.1 h.2
  have h2s : l2.Pairwise fun a b => f a < f b :=
    (h2.and hd).imp fun h => lt_of_le_of_ne h.1 h.2
  exact List.eq_of_perm_of_sorted hp h1s h2s

/-- C8: corrected top-N ranking for the default period (the maximum year
present).  The single-column `sort_values(ranking_col, ascending=False)` uses
numpy's default unstable `kind='quicksort'`, so — contrary to the spec's
"stable tie-break preserving insertion order" — the tie order is unspecified:
for every sorting algorithm satisfying the `sortsByKey` contract the result is
the first `n` rows, projected to country/year/indicator, of SOME permutation of
the period's non-null-indicator rows ordered descending by the indicator; and
only when the indicator values of those rows are pairwise distinct is the
result determined, coinciding with the spec-side `topAffectedSpec`. -/
theorem C8_top_n_sorted_by_indicator
    {sortImpl : (Row → KVᵒᵈ) → List Row → List Row} (hs : sortsByKey sortImpl)
    {t : Table} (n : ℕ) (hne : t.rows.isEmpty = false)
    {y : ℤ} (hmax : maxYearZ t = some y)
    (hc : "country" ∈ t.cols) (hy : "year" ∈ t.cols) (hti : "tb_incidence" ∈ t.cols) :
    ∃ (M : Table) (L : List Row), owid_top_affected_countries sortImpl t none n = .ok M ∧
      M.cols = ["country", "year", "tb_incidence"] ∧
      L.Perm ((t.rows.filter fun r => valEq (cellAt t "year" r) (.int y)).filter
        fun r => !isNull (cellAt t "tb_incidence" r)) ∧
      (L.Pairwise fun a b =>
        valKV (cellAt t "tb_incidence" b) ≤ valKV (cellAt t "tb_incidence" a)) ∧
      M.rows = (L.take n).map
        (fun r => ["country", "year", "tb_incidence"].map fun c => cellAt t c r) ∧
      (((t.rows.filter fun r => valEq (cellAt t "year" r) (.int y)).filter
          fun r => !isNull (cellAt t "tb_incidence" r)).Pairwise
          (fun a b => valKV (cellAt t "tb_incidence" a) ≠ valKV (cellAt t "tb_incidence" b)) →
        M.rows = (topAffectedSpec t y n).map
          fun r => ["country", "year", "tb_incidence"].map fun c => cellAt t c r) := by
  have hstep : owid_top_affected_countries sortImpl t none n = selectCols
      { t with rows := (sortImpl
          (fun r => OrderDual.toDual (valKV (cellAt t "tb_incidence" r)))
          ((t.rows.filter fun r => valEq (cellAt t "year" r) (.int y)).filter
            fun r => ["tb_incidence"].all fun c => !isNull (cellAt t c r))).take n }
      ["country", "year", "tb_incidence"] := by
    rw [owid_top_affected_countries, if_neg (bool_neg_of_eq_false hne), hmax]
    show (if "tb_incidence" ∈ t.cols then selectCols
        { t with rows := (sortImpl
            (fun r => OrderDual.toDual (valKV (cellAt t "tb_incidence" r)))
            ((t.rows.filter fun r => valEq (cellAt t "year" r) (.int y)).filter
              fun r => ["tb_incidence"].all fun c => !isNull (cellAt t c r))).take n }
        ["country", "year", "tb_incidence"]
      else Except.ok emptyTable) = _
    rw [if_pos hti]
  have hnn : ((t.rows.filter fun r => valEq (cellAt t "year" r) (.int y)).filter
      fun r => ["tb_incidence"].all fun c => !isNull (cellAt t c r)) =
      ((t.rows.filter fun r => valEq (cellAt t "year" r) (.int y)).filter
        fun r => !isNull (cellAt t "tb_incidence" r)) := by
    apply List.filter_congr
    intro r _
    rw [List.all_cons, List.all_nil, Bool.and_true]
  rw [hnn] at hstep
  have hfull := hstep.trans (selectCols_ok _ (by simp [hc, hy, hti]))
  obtain ⟨hLperm, hLpair⟩ :=
    hs (fun r => OrderDual.toDual (valKV (cellAt t "tb_incidence" r)))
      ((t.rows.filter fun r => valEq (cellAt t "year" r) (.int y)).filter
        fun r => !isNull (cellAt t "tb_incidence" r))
  refine ⟨_, _, hfull, rfl, hLperm,
    hLpair.imp fun h => OrderDual.toDual_le_toDual.mp h, rfl, ?_⟩
  intro hdist
  haveI : IsTotal Row (fun a b : Row =>
      valKV (cellAt t "tb_incidence" b) ≤ valKV (cellAt t "tb_incidence" a)) :=
    ⟨fun a b => le_total _ _⟩
  haveI : IsTrans Row (fun a b : Row =>
      valKV (cellAt t "tb_incidence" b) ≤ valKV (cellAt t "tb_incidence" a)) :=
    ⟨fun a b c hab hbc => le_trans hbc hab⟩
  have hSperm := List.perm_insertionSort
    (fun a b : Row => valKV (cellAt t "tb_incidence" b) ≤ valKV (cellAt t "tb_incidence" a))
    ((t.rows.filter fun r => valEq (cellAt t "year" r) (.int y)).filter
      fun r => !isNull (cellAt t "tb_incidence" r))
  have hSpair := List.sorted_insertionSort
    (fun a b : Row => valKV (cellAt t "tb_incidence" b) ≤ valKV (cellAt t "tb_incidence" a))
    ((t.rows.filter fun r => valEq (cellAt t "year" r) (.int y)).filter
      fun r => !isNull (cellAt t "tb_incidence" r))
  have hdist' : ((t.rows.filter fun r => valEq (cellAt t "year" r) (.int y)).filter
      fun r => !isNull (cellAt t "tb_incidence" r)).Pairwise
      (fun a b : Row => OrderDual.toDual (valKV (cellAt t "tb_incidence" a)) ≠
        OrderDual.toDual (valKV (cellAt t "tb_incidence" b))) :=
    hdist.imp fun h he => h (OrderDual.toDual_inj.mp he)
  have hLS : sortImpl (fun r => OrderDual.toDual (valKV (cellAt t "tb_incidence" r)))
      ((t.rows.filter fun r => valEq (cellAt t "year" r) (.int y)).filter
        fun r => !isNull (cellAt t "tb_incidence" r)) =
      List.insertionSort
        (fun a b : Row => valKV (cellAt t "tb_incidence" b) ≤ valKV (cellAt t "tb_incidence" a))
        ((t.rows.filter fun r => valEq (cellAt t "year" r) (.int y)).filter
          fun r => !isNull (cellAt t "tb_incidence" r)) := by
    apply sorted_unique_of_distinct
      (fun r => OrderDual.toDual (valKV (cellAt t "tb_incidence" r)))
      (hLperm.trans hSperm.symm) hLpair
    · exact hSpair.imp fun h => OrderDual.toDual_le_toDual.mpr h
    · exact (hSperm.pairwise_iff fun h => Ne.symm h).2 hdist'
  show ((sortImpl (fun r => OrderDual.toDual (valKV (cellAt t "tb_incidence" r)))
      ((t.rows.filter fun r => valEq (cellAt t "year" r) (.int y)).filter
        fun r => !isNull (cellAt t "tb_incidence" r))).take n).map
      (fun r => ["country", "year", "tb_incidence"].map fun c => cellAt t c r) =
    (topAffectedSpec t y n).map
      (fun r => ["country", "year", "tb_incidence"].map fun c => cellAt t c r)
  rw [hLS]
  rfl

/- ##### Shape lemmas for the percentage invariant ##### -/

theorem toNumeric_shape (v : Val) : toNumeric v = .null ∨
    (∃ n : ℤ, toNumeric v = .int n) ∨ ∃ q : ℚ, toNumeric v = .num q := by
  cases v with
  | null => exact Or.inl rfl
  | int n => exact Or.inr (Or.inl ⟨n, rfl⟩)
  | num q => exact Or.inr (Or.inr ⟨q, rfl⟩)
  | bool b => exact Or.inr (Or.inl ⟨_, rfl⟩)
  | str s =>
    rw [toNumeric]
    cases parseNum s with
    | none => exact Or.inl rfl
    | some q =>
      dsimp only
      split
      · exact Or.inr (Or.inl ⟨_, rfl⟩)
      · exact Or.inr (Or.inr ⟨_, rfl⟩)

theorem pctCell_post (v : Val) : valGt100 (pctCell v) = false ∧
    (pctCell v = .null ∨ (∃ n : ℤ, pctCell v = .int n) ∨ ∃ q : ℚ, pctCell v = .num q) := by
  rw [pctCell_eq]
  by_cases hgt : valGt100 (toNumeric v) = true
  · rw [if_pos hgt]
    exact ⟨rfl, Or.inl rfl⟩
  · rw [if_neg hgt]
    refine ⟨?_, toNumeric_shape v⟩
    cases hh : valGt100 (toNumeric v) with
    | false => rfl
    | true => exact absurd hh hgt

/- ##### Claim theorems ##### -/

/-- C1: corrected error behaviour of cleaning.  No `SchemaError` exists in the
code: when "year" is absent after column normalization the cleaner returns the
pre-cleaned table successfully (the key-dependent steps are skipped, nothing is
rejected), and the only failures `clean_tb_data` can ever produce are the two
`astype('Int64')` cast errors on a non-integral or non-numeric year column. -/
theorem C1_no_schema_error :
    (∀ t : Table, "year" ∉ t.cols.map normName → clean_tb_data t = .ok (clean_tb_pre t)) ∧
    (∀ (t : Table) (e : String), clean_tb_data t = .error e →
      e = "cannot safely cast non-equivalent float64 to int64" ∨
      e = "object cannot be cast to Int64") :=
  ⟨fun _ h => clean_tb_missing_year h, fun _ _ h => clean_tb_error h⟩

/-- C1 witness: a table whose only column normalizes to "location" is cleaned
without any error. -/
theorem C1_no_schema_error_witness :
    clean_tb_data (Table.mk ["Location"] [DType.obj] [[Val.str "A"]]) =
      .ok (clean_tb_pre (Table.mk ["Location"] [DType.obj] [[Val.str "A"]])) :=
  C1_no_schema_error.1 _ (by decide)

/-- C1 counterexample: a raw table with no "country" column after aliasing is
returned cleaned (`.ok`, its columns still lacking "country"), not rejected
with a `SchemaError`. -/
theorem C1_missing_key_not_rejected :
    clean_owid_data (Table.mk ["location", "year", "tb_incidence"]
        [DType.obj, DType.i64, DType.i64] [[Val.str "A", Val.int 2000, Val.int 5]]) =
      .ok (Table.mk ["location", "year", "tb_incidence"]
        [DType.obj, DType.i64n, DType.i64] [[Val.str "A", Val.int 2000, Val.int 5]]) ∧
    "country" ∉ ["location", "year", "tb_incidence"] := by
  constructor
  · decide
  · decide

/-- C2: corrected percentage invariant.  In the cleaned WHO output every cell
of a percentage column (name containing "success_rate" or "coverage") is null
or a numeric value, and never exceeds 100 — it is never capped to 100.  (The
spec's stronger claim that an input value above 100 is null in the output is
false: the nulled cell can be refilled by the later forward fill, see the
counterexample.) -/
theorem C2_pct_cells_bounded {t d : Table} (h : clean_who_data t = .ok d) :
    ∀ j ∈ pctIdxs d, ∀ r ∈ d.rows,
      valGt100 (r.getD j .null) = false ∧
      (r.getD j .null = .null ∨ (∃ n : ℤ, r.getD j .null = .int n) ∨
        ∃ q : ℚ, r.getD j .null = .num q) := by
  simp only [clean_who_data] at h
  cases h1 : clean_tb_data (applyRenames t) with
  | error e =>
    rw [h1] at h
    exact absurd h (by simp)
  | ok d1 =>
    rw [h1] at h
    replace h : Except.ok (dropAllNullIndicators
        (if "country" ∈ (pctStep d1).cols then ffillNumeric (pctStep d1) else pctStep d1)
        who_indicators) = Except.ok d := h
    simp only [Except.ok.injEq] at h
    have hPnull : valGt100 (Val.null) = false ∧
        ((Val.null : Val) = .null ∨ (∃ n : ℤ, (Val.null : Val) = .int n) ∨
          ∃ q : ℚ, (Val.null : Val) = .num q) := ⟨rfl, Or.inl rfl⟩
    have hp7 : ∀ j ∈ pctIdxs d1, ∀ r ∈ (pctStep d1).rows,
        valGt100 (r.getD j .null) = false ∧
        (r.getD j .null = .null ∨ (∃ n : ℤ, r.getD j .null = .int n) ∨
          ∃ q : ℚ, r.getD j .null = .num q) := by
      intro j hj r hr
      rw [show (pctStep d1).rows = d1.rows.map (pctRow (pctIdxs d1)) from
        by rw [pctStep_char]] at hr
      obtain ⟨r0, hr0, rfl⟩ := List.mem_map.1 hr
      rw [pctRow_getD_mem (pctIdxs_nodup d1) hj]
      exact pctCell_post _
    have hf : ∀ j ∈ pctIdxs d1, ∀ r ∈ (if "country" ∈ (pctStep d1).cols
        then ffillNumeric (pctStep d1) else pctStep d1).rows,
        valGt100 (r.getD j .null) = false ∧
        (r.getD j .null = .null ∨ (∃ n : ℤ, r.getD j .null = .int n) ∨
          ∃ q : ℚ, r.getD j .null = .num q) := by
      intro j hj
      split
      · next hcc =>
          obtain ⟨ci, hci⟩ := colIdx_mem hcc
          rw [ffillNumeric_rows hci]
          exact ffillFold_pred (fun v => valGt100 v = false ∧
            (v = .null ∨ (∃ n : ℤ, v = .int n) ∨ ∃ q : ℚ, v = .num q))
            hPnull ci _ j (pctStep d1).rows (hp7 j hj)
      · exact hp7 j hj
    have hsub := (dropAllNullIndicators_parts
      (if "country" ∈ (pctStep d1).cols then ffillNumeric (pctStep d1) else pctStep d1)
      who_indicators).2.2
    rw [h] at hsub
    have hdc : d.cols = d1.cols := by
      rw [← h]
      refine ((dropAllNullIndicators_parts _ _).1).trans ?_
      split
      · next hcc =>
          obtain ⟨ci, hci⟩ := colIdx_mem hcc
          rw [ffillNumeric_rows hci, pctStep_char]
      · rw [pctStep_char]
    intro j hj r hr
    rw [pctIdxs_congr hdc] at hj
    exact hf j hj r (hsub.subset hr)

/-- C2 witness: in the cleaned form of a WHO table with success rates 50 and
150, the success-rate cell of the second row is a numeric value not above
100. -/
theorem C2_pct_cells_bounded_witness :
    valGt100 (([Val.str "A", Val.int 2001, Val.int 50] : Row).getD 2 .null) = false ∧
      (([Val.str "A", Val.int 2001, Val.int 50] : Row).getD 2 .null = .null ∨
        (∃ n : ℤ, ([Val.str "A", Val.int 2001, Val.int 50] : Row).getD 2 .null = .int n) ∨
        ∃ q : ℚ, ([Val.str "A", Val.int 2001, Val.int 50] : Row).getD 2 .null = .num q) :=
  C2_pct_cells_bounded
    (t := Table.mk ["country", "year", "tb_treatment_success_rate"]
      [DType.obj, DType.i64, DType.i64]
      [[Val.str "A", Val.int 2000, Val.int 50], [Val.str "A", Val.int 2001, Val.int 150]])
    (d := Table.mk ["country", "year", "tb_treatment_success_rate"]
      [DType.obj, DType.i64n, DType.f64]
      [[Val.str "A", Val.int 2000, Val.int 50], [Val.str "A", Val.int 2001, Val.int 50]])
    (by decide) 2 (by decide) _ (by decide)

/-- C2 counterexample: the input success rate 150 (> 100) is first nulled but
then refilled by the per-country forward fill, so the cleaned cell is the
non-null number 50 — the spec's "any input value > 100 becomes null in the
output" is false. -/
theorem C2_over100_refilled :
    clean_who_data (Table.mk ["country", "year", "tb_treatment_success_rate"]
        [DType.obj, DType.i64, DType.i64]
        [[Val.str "A", Val.int 2000, Val.int 50], [Val.str "A", Val.int 2001, Val.int 150]]) =
      .ok (Table.mk ["country", "year", "tb_treatment_success_rate"]
        [DType.obj, DType.i64n, DType.f64]
        [[Val.str "A", Val.int 2000, Val.int 50], [Val.str "A", Val.int 2001, Val.int 50]]) := by
  decide

/-- C3: corrected fill semantics of the per-country imputation step
(`groupby('country')[col].fillna(method='ffill')`, `ffillColAt`): a non-null
cell is left unchanged; a null cell receives the nearest earlier non-null value
among the preceding rows of the same country (pandas-equal key) and remains
null when no such earlier value exists — there is no backward fill, and a fill
value never comes from a row of a different country. -/
theorem C3_ffill_forward_within_country (ci colI : ℕ) (rows : List Row) {p : ℕ}
    (hp : p < rows.length)
    (hcn : isNull ((rows.getD p []).getD ci .null) = false) :
    (isNull ((rows.getD p []).getD colI .null) = false →
      ((ffillColAt ci colI rows).getD p []).getD colI .null =
        (rows.getD p []).getD colI .null) ∧
    (isNull ((rows.getD p []).getD colI .null) = true →
      colI < (rows.getD p []).length →
      ((ffillColAt ci colI rows).getD p []).getD colI .null =
        nearestPrev ci colI (rows.take p) ((rows.getD p []).getD ci .null) ∧
      (nearestPrev ci colI (rows.take p) ((rows.getD p []).getD ci .null) = .null ∨
        ∃ r ∈ rows.take p,
          valEq (r.getD ci .null) ((rows.getD p []).getD ci .null) = true ∧
          isNull (r.getD colI .null) = false ∧
          nearestPrev ci colI (rows.take p) ((rows.getD p []).getD ci .null) =
            r.getD colI .null)) := by
  constructor
  · intro hnn
    rw [ffillColAt_getD_nonnull ci colI rows hp hcn hnn]
  · intro hnull hlen
    constructor
    · rw [ffillColAt_char ci colI rows hp, if_neg (bool_neg_of_eq_false hcn), if_pos hnull,
        getD_set_self_lt _ hlen]
    · exact nearestPrev_mem_key ci colI (rows.take p) _

/-- C3 witness: filling the null second cell of the second row from the first
row of the same country. -/
theorem C3_ffill_forward_within_country_witness :
    (isNull ((([[Val.str "A", Val.int 5], [Val.str "A", Val.null]] : List Row).getD 1
        []).getD 1 .null) = false →
      ((ffillColAt 0 1 [[Val.str "A", Val.int 5], [Val.str "A", Val.null]]).getD 1
        []).getD 1 .null =
        (([[Val.str "A", Val.int 5], [Val.str "A", Val.null]] : List Row).getD 1
          []).getD 1 .null) ∧
    (isNull ((([[Val.str "A", Val.int 5], [Val.str "A", Val.null]] : List Row).getD 1
        []).getD 1 .null) = true →
      1 < (([[Val.str "A", Val.int 5], [Val.str "A", Val.null]] : List Row).getD 1 []).length →
      ((ffillColAt 0 1 [[Val.str "A", Val.int 5], [Val.str "A", Val.null]]).getD 1
        []).getD 1 .null =
        nearestPrev 0 1 (([[Val.str "A", Val.int 5], [Val.str "A", Val.null]] :
          List Row).take 1)
          ((([[Val.str "A", Val.int 5], [Val.str "A", Val.null]] : List Row).getD 1
            []).getD 0 .null) ∧
      (nearestPrev 0 1 (([[Val.str "A", Val.int 5], [Val.str "A", Val.null]] :
          List Row).take 1)
          ((([[Val.str "A", Val.int 5], [Val.str "A", Val.null]] : List Row).getD 1
            []).getD 0 .null) = .null ∨
        ∃ r ∈ ([[Val.str "A", Val.int 5], [Val.str "A", Val.null]] : List Row).take 1,
          valEq (r.getD 0 .null)
            ((([[Val.str "A", Val.int 5], [Val.str "A", Val.null]] : List Row).getD 1
              []).getD 0 .null) = true ∧
          isNull (r.getD 1 .null) = false ∧
          nearestPrev 0 1 (([[Val.str "A", Val.int 5], [Val.str "A", Val.null]] :
            List Row).take 1)
            ((([[Val.str "A", Val.int 5], [Val.str "A", Val.null]] : List Row).getD 1
              []).getD 0 .null) = r.getD 1 .null)) :=
  C3_ffill_forward_within_country 0 1 _ (by decide) (by decide)

/-- C3 counterexample: no backward fill.  Country A's tb_incidence is null in
2000 with a known later value 7 in 2001; after cleaning, the 2000 cell is still
null (the spec's "carries the next-known value backward" does not happen),
while population is forward-filled 3 → 2001. -/
theorem C3_no_backward_fill :
    clean_owid_data (Table.mk ["country", "year", "tb_incidence", "population"]
        [DType.obj, DType.i64, DType.i64, DType.i64]
        [[Val.str "A", Val.int 2000, Val.null, Val.int 3],
         [Val.str "A", Val.int 2001, Val.int 7, Val.null]]) =
      .ok (Table.mk ["country", "year", "tb_incidence", "population"]
        [DType.obj, DType.i64n, DType.i64, DType.i64]
        [[Val.str "A", Val.int 2000, Val.null, Val.int 3],
         [Val.str "A", Val.int 2001, Val.int 7, Val.int 3]]) := by
  decide

/-- C4: canonical-table invariants of `clean_tb_data`: in the cleaned output no
row has a null country or null year, every year is an integer within
[MIN_YEAR, MAX_YEAR], and the rows are sorted by (country, year)
non-decreasing. -/
theorem C4_canonical_invariants {t d : Table} (h : clean_tb_data t = .ok d)
    {ci yi : ℕ} (hci : colIdx d "country" = some ci) (hyi : colIdx d "year" = some yi) :
    (∀ r ∈ d.rows, isNull (r.getD ci .null) = false) ∧
    (∀ r ∈ d.rows, isNull (r.getD yi .null) = false) ∧
    (∀ r ∈ d.rows, ∃ n : ℤ, r.getD yi .null = .int n ∧ MIN_YEAR ≤ n ∧ n ≤ MAX_YEAR) ∧
    d.rows.Pairwise fun a b => rowKeyCY ci yi a ≤ rowKeyCY ci yi b := by
  obtain ⟨-, h1, h2, h3, -⟩ := clean_tb_post h hci hyi
  refine ⟨h1, ?_, h2, h3⟩
  intro r hr
  obtain ⟨n, he, -⟩ := h2 r hr
  rw [he]
  rfl

/-- C4 witness: cleaning a two-row raw table yields non-null keys, in-window
integer years, and (country, year)-sorted rows. -/
theorem C4_canonical_invariants_witness :
    (∀ r ∈ (Table.mk ["country", "year", "tb_incidence"]
        [DType.obj, DType.i64n, DType.i64]
        [[Val.str "A", Val.int 2000, Val.int 5],
         [Val.str "B", Val.int 2001, Val.int 9]]).rows,
      isNull (r.getD 0 .null) = false) ∧
    (∀ r ∈ (Table.mk ["country", "year", "tb_incidence"]
        [DType.obj, DType.i64n, DType.i64]
        [[Val.str "A", Val.int 2000, Val.int 5],
         [Val.str "B", Val.int 2001, Val.int 9]]).rows,
      isNull (r.getD 1 .null) = false) ∧
    (∀ r ∈ (Table.mk ["country", "year", "tb_incidence"]
        [DType.obj, DType.i64n, DType.i64]
        [[Val.str "A", Val.int 2000, Val.int 5],
         [Val.str "B", Val.int 2001, Val.int 9]]).rows,
      ∃ n : ℤ, r.getD 1 .null = .int n ∧ MIN_YEAR ≤ n ∧ n ≤ MAX_YEAR) ∧
    (Table.mk ["country", "year", "tb_incidence"]
        [DType.obj, DType.i64n, DType.i64]
        [[Val.str "A", Val.int 2000, Val.int 5],
         [Val.str "B", Val.int 2001, Val.int 9]]).rows.Pairwise
      fun a b => rowKeyCY 0 1 a ≤ rowKeyCY 0 1 b :=
  C4_canonical_invariants
    (t := Table.mk ["Country", "Year", "tb_incidence"] [DType.obj, DType.i64, DType.i64]
      [[Val.str "B", Val.int 2001, Val.int 9], [Val.str "A", Val.int 2000, Val.int 5]])
    (by decide) (by decide) (by decide)

/-- C5 witness: a two-row OWID table and a one-row WHO table with unique keys
share one key, and the merge has the claimed shape. -/
theorem C5_merge_inner_join_witness :
    ∃ M, compare_incidence_vs_treatment_success
        (Table.mk ["country", "year", "tb_incidence"] [DType.obj, DType.i64n, DType.i64]
          [[Val.str "A", Val.int 2000, Val.int 5], [Val.str "B", Val.int 2001, Val.int 6]])
        (Table.mk ["country", "year", "tb_incidence"] [DType.obj, DType.i64n, DType.i64]
          [[Val.str "A", Val.int 2000, Val.int 7]]) = .ok M ∧
      M.cols = ["country", "year", "tb_incidence", "who_tb_incidence"] ∧
      M.cols.Nodup ∧
      M.rows.length = sharedKeyCount
        (Table.mk ["country", "year", "tb_incidence"] [DType.obj, DType.i64n, DType.i64]
          [[Val.str "A", Val.int 2000, Val.int 5], [Val.str "B", Val.int 2001, Val.int 6]])
        (Table.mk ["country", "year", "tb_incidence"] [DType.obj, DType.i64n, DType.i64]
          [[Val.str "A", Val.int 2000, Val.int 7]]) ∧
      (∀ r ∈ M.rows,
        ((keyPairs (Table.mk ["country", "year", "tb_incidence"]
            [DType.obj, DType.i64n, DType.i64]
            [[Val.str "A", Val.int 2000, Val.int 5],
             [Val.str "B", Val.int 2001, Val.int 6]])).any
          fun k => pairEqB k (r.getD 0 .null, r.getD 1 .null)) = true ∧
        ((keyPairs (Table.mk ["country", "year", "tb_incidence"]
            [DType.obj, DType.i64n, DType.i64]
            [[Val.str "A", Val.int 2000, Val.int 7]])).any
          fun k => pairEqB k (r.getD 0 .null, r.getD 1 .null)) = true) ∧
      M.rows.Pairwise fun a b => rowKeyCY 0 1 a ≤ rowKeyCY 0 1 b :=
  C5_merge_inner_join (by decide) (by decide) (by decide) (by decide) (by decide) (by decide)
    (by decide) (by decide)

/-- C5 counterexample: with a duplicated (A, 2000) key on the OWID side the
merge has 2 rows while only 1 distinct key is shared — the spec's unconditional
"row count equals the number of shared keys" is false. -/
theorem C5_duplicate_keys_multiply :
    compare_incidence_vs_treatment_success
        (Table.mk ["country", "year", "tb_incidence"] [DType.obj, DType.i64n, DType.i64]
          [[Val.str "A", Val.int 2000, Val.int 5], [Val.str "A", Val.int 2000, Val.int 6]])
        (Table.mk ["country", "year", "tb_incidence"] [DType.obj, DType.i64n, DType.i64]
          [[Val.str "A", Val.int 2000, Val.int 7]]) =
      .ok (Table.mk ["country", "year", "tb_incidence", "who_tb_incidence"]
        [DType.obj, DType.i64n, DType.i64, DType.i64]
        [[Val.str "A", Val.int 2000, Val.int 5, Val.int 7],
         [Val.str "A", Val.int 2000, Val.int 6, Val.int 7]]) ∧
    sharedKeyCount
        (Table.mk ["country", "year", "tb_incidence"] [DType.obj, DType.i64n, DType.i64]
          [[Val.str "A", Val.int 2000, Val.int 5], [Val.str "A", Val.int 2000, Val.int 6]])
        (Table.mk ["country", "year", "tb_incidence"] [DType.obj, DType.i64n, DType.i64]
          [[Val.str "A", Val.int 2000, Val.int 7]]) = 1 := by
  constructor
  · decide
  · decide

/-- C6: corrected pipeline semantics.  `run` builds the full list
`[load, clean, owid, who, combined]` of stage results before `all` folds it, so
every stage executes unconditionally in order — nothing short-circuits — and
the overall success is exactly the conjunction of the five results. -/
theorem C6_all_stages_execute (st0 : PipeState) :
    (pipelineRun st0).executed = [.load, .clean, .owid, .who, .combined] ∧
    ((pipelineRun st0).success = true ↔
      ∀ b ∈ (pipelineRun st0).results, b = true) := by
  rcases hl : loadStage st0 with ⟨b1, s1⟩
  rcases hc : cleanStage s1 with ⟨b2, s2⟩
  rcases ho : owidAnalysisStage s2 with ⟨b3, s3⟩
  rcases hw : whoAnalysisStage s3 with ⟨b4, s4⟩
  rcases hm : combinedStage s4 with ⟨b5, s5⟩
  have hrun : pipelineRun st0 = ⟨[.load, .clean, .owid, .who, .combined],
      [b1, b2, b3, b4, b5], [b1, b2, b3, b4, b5].all id, s5⟩ := by
    simp only [pipelineRun, hl, hc, ho, hw, hm]
  rw [hrun]
  refine ⟨rfl, ?_⟩
  show ([b1, b2, b3, b4, b5].all id = true) ↔ ∀ b ∈ [b1, b2, b3, b4, b5], b = true
  simp [List.all_eq_true]

/-- C6 counterexample: a run whose cleaning stage fails (the WHO year column
holds a non-integral float) still executes and reports the downstream stages —
the OWID analysis even succeeds — refuting the spec's short-circuit. -/
theorem C6_no_short_circuit :
    (pipelineRun (PipeState.mk
        (some (Table.mk ["country", "year", "tb_incidence"]
          [DType.obj, DType.i64, DType.i64] [[Val.str "A", Val.int 2000, Val.int 5]]))
        (some (Table.mk ["country", "year"] [DType.obj, DType.f64]
          [[Val.str "A", Val.num ⟨3, 2, by norm_num, by norm_num⟩]]))
        none none none)).results = [true, false, true, false, false] ∧
    (pipelineRun (PipeState.mk
        (some (Table.mk ["country", "year", "tb_incidence"]
          [DType.obj, DType.i64, DType.i64] [[Val.str "A", Val.int 2000, Val.int 5]]))
        (some (Table.mk ["country", "year"] [DType.obj, DType.f64]
          [[Val.str "A", Val.num ⟨3, 2, by norm_num, by norm_num⟩]]))
        none none none)).executed = [.load, .clean, .owid, .who, .combined] := by
  constructor
  · decide
  · decide

/-- C7: corrected outlier semantics.  When every requested present column has
some non-null value, `identify_outliers` returns the table with the flag column
appended and a row marked true iff some requested present column holds a
non-null value in that row: the `df.loc[outliers.index]` assignment indexes
with the full non-null index, so the z-scores and the threshold never influence
the flag, and apart from the appended flag column no cell is removed or
altered.  When some requested present column has no non-null value, the call
raises instead of returning: `stats.zscore` of the empty series is a bare
ndarray, so `outliers.index` raises `AttributeError`. -/
theorem C7_flag_iff_nonnull {t : Table} (columns : List String) (thr : ℚ)
    (hfl : "is_outlier" ∉ t.cols) (hcf : "is_outlier" ∉ columns)
    (hw : ∀ r ∈ t.rows, r.length = t.cols.length) :
    identify_outliers t columns thr =
      (if columns.all (fun c => decide (c ∉ t.cols) ||
          t.rows.any fun r => !isNull (cellAt t c r)) then
        .ok ⟨t.cols ++ ["is_outlier"], t.dtypes ++ [.boolean],
          t.rows.map fun r => r ++ [.bool (columns.any fun c =>
            decide (c ∈ t.cols) && !isNull (cellAt t c r))]⟩
      else .error "AttributeError: 'numpy.ndarray' object has no attribute 'index'") :=
  identify_outliers_char t columns thr hfl hcf hw

/-- C7 witness: flagging over one column sets true exactly on the non-null row,
and on a column holding only nulls the call raises `AttributeError`. -/
theorem C7_flag_iff_nonnull_witness :
    identify_outliers (Table.mk ["v"] [DType.i64] [[Val.int 1], [Val.null]]) ["v"] 3 =
      .ok (Table.mk ["v", "is_outlier"] [DType.i64, DType.boolean]
        [[Val.int 1, Val.bool true], [Val.null, Val.bool false]]) ∧
    identify_outliers (Table.mk ["v"] [DType.i64] [[Val.null]]) ["v"] 3 =
      .error "AttributeError: 'numpy.ndarray' object has no attribute 'index'" := by
  constructor
  · exact (C7_flag_iff_nonnull (t := Table.mk ["v"] [DType.i64] [[Val.int 1], [Val.null]])
      ["v"] 3 (by decide) (by decide) (by decide)).trans (by decide)
  · exact (C7_flag_iff_nonnull (t := Table.mk ["v"] [DType.i64] [[Val.null]])
      ["v"] 3 (by decide) (by decide) (by decide)).trans (by decide)

/-- C7 counterexample: with threshold 3 over the values [1, 2, 2, 3, 100] every
row is flagged true, not only the row holding 100 (whose z-score 2.0 does not
even exceed 3) — the spec's standardized-score semantics is false. -/
theorem C7_all_rows_flagged :
    identify_outliers (Table.mk ["v"] [DType.i64]
        [[Val.int 1], [Val.int 2], [Val.int 2], [Val.int 3], [Val.int 100]]) ["v"] 3 =
      .ok (Table.mk ["v", "is_outlier"] [DType.i64, DType.boolean]
        [[Val.int 1, Val.bool true], [Val.int 2, Val.bool true],
         [Val.int 2, Val.bool true], [Val.int 3, Val.bool true],
         [Val.int 100, Val.bool true]]) := by
  decide

/-- C9: corrected idempotence.  Cleaning is not idempotent on arbitrary raw
input (the forward fill can create duplicate rows that only a second pass
deduplicates — see the counterexample); amended: every cleaned table that has
both key columns and pairwise-distinct rows is a fixed point of its cleaner,
for the OWID and the WHO cleaner alike. -/
theorem C9_clean_fixed_point {t d : Table}
    (hc : "country" ∈ d.cols) (hy : "year" ∈ d.cols)
    (hdist : d.rows.Pairwise fun a b => rowEqB a b = false) :
    (clean_owid_data t = .ok d → clean_owid_data d = .ok d) ∧
    (clean_who_data t = .ok d → clean_who_data d = .ok d) :=
  ⟨fun h => clean_owid_second h hc hy hdist, fun h => clean_who_second h hc hy hdist⟩

/-- C9 witness: re-cleaning the cleaned one-row OWID table returns it
unchanged. -/
theorem C9_clean_fixed_point_witness :
    clean_owid_data (Table.mk ["country", "year", "tb_incidence"]
        [DType.obj, DType.i64n, DType.i64] [[Val.str "A", Val.int 2000, Val.int 5]]) =
      .ok (Table.mk ["country", "year", "tb_incidence"]
        [DType.obj, DType.i64n, DType.i64] [[Val.str "A", Val.int 2000, Val.int 5]]) :=
  (C9_clean_fixed_point
    (t := Table.mk ["country", "year", "tb_incidence"] [DType.obj, DType.i64, DType.i64]
      [[Val.str "A", Val.int 2000, Val.int 5]])
    (by decide) (by decide) (by decide)).1 (by decide)

/-- C9 counterexample: cleaning is not idempotent as claimed — the rows
(A, 2000, 5) and (A, 2000, null) survive the first pass's deduplication, the
forward fill then makes them equal, and only the second pass drops the
duplicate, so clean(clean t) ≠ clean t. -/
theorem C9_not_idempotent :
    clean_owid_data (Table.mk ["country", "year", "tb_incidence"]
        [DType.obj, DType.i64, DType.i64]
        [[Val.str "A", Val.int 2000, Val.int 5], [Val.str "A", Val.int 2000, Val.null]]) =
      .ok (Table.mk ["country", "year", "tb_incidence"]
        [DType.obj, DType.i64n, DType.i64]
        [[Val.str "A", Val.int 2000, Val.int 5], [Val.str "A", Val.int 2000, Val.int 5]]) ∧
    clean_owid_data (Table.mk ["country", "year", "tb_incidence"]
        [DType.obj, DType.i64n, DType.i64]
        [[Val.str "A", Val.int 2000, Val.int 5], [Val.str "A", Val.int 2000, Val.int 5]]) =
      .ok (Table.mk ["country", "year", "tb_incidence"]
        [DType.obj, DType.i64n, DType.i64]
        [[Val.str "A", Val.int 2000, Val.int 5]]) ∧
    (Table.mk ["country", "year", "tb_incidence"]
        [DType.obj, DType.i64n, DType.i64]
        [[Val.str "A", Val.int 2000, Val.int 5]] : Table) ≠
      Table.mk ["country", "year", "tb_incidence"]
        [DType.obj, DType.i64n, DType.i64]
        [[Val.str "A", Val.int 2000, Val.int 5], [Val.str "A", Val.int 2000, Val.int 5]] := by
  refine ⟨?_, ?_, ?_⟩
  · decide
  · decide
  · decide

/-- C10: the cross-source merge returns an empty table without raising whenever
`tb_incidence` is absent from either input (only that indicator is ever
joined); for a well-formed OWID table a WHO table lacking `tb_incidence`
always yields the empty result, however many keys the inputs share. -/
theorem C10_merge_empty_without_incidence (owid who : Table)
    (hc : "country" ∈ owid.cols) (hy : "year" ∈ owid.cols)
    (h : "tb_incidence" ∉ owid.cols ∨ "tb_incidence" ∉ who.cols) :
    compare_incidence_vs_treatment_success owid who = .ok emptyTable := by
  rcases h with h | h
  · rw [compare_incidence_vs_treatment_success, if_neg h]
  · by_cases ho : "tb_incidence" ∈ owid.cols
    · rw [compare_incidence_vs_treatment_success, if_pos ho,
        selectCols_ok _ (by simp [hc, hy, ho])]
      show (if "tb_incidence" ∈ who.cols then
          (match selectCols who ["country", "year", "tb_incidence"] with
          | Except.error e => Except.error e
          | Except.ok who_subset0 => Except.ok (sortStep (innerMerge
              (Table.mk ["country", "year", "tb_incidence"]
                (["country", "year", "tb_incidence"].map
                  (fun c => owid.dtypes.getD ((colIdx owid c).getD 0) DType.obj))
                (owid.rows.map fun r => ["country", "year", "tb_incidence"].map
                  fun c => cellAt owid c r))
              (renameCol who_subset0 "tb_incidence" "who_tb_incidence")
              ["country", "year"]))
          : Except String Table)
        else Except.ok emptyTable) = Except.ok emptyTable
      rw [if_neg h]
    · rw [compare_incidence_vs_treatment_success, if_neg ho]

/-- C10 witness: a WHO table without `tb_incidence` produces the empty merge
result against a well-formed OWID table sharing its key. -/
theorem C10_merge_empty_without_incidence_witness :
    compare_incidence_vs_treatment_success
        (Table.mk ["country", "year", "tb_incidence"] [DType.obj, DType.i64n, DType.i64]
          [[Val.str "A", Val.int 2000, Val.int 5]])
        (Table.mk ["country", "year", "tb_cases_notified"] [DType.obj, DType.i64n, DType.i64]
          [[Val.str "A", Val.int 2000, Val.int 9]]) = .ok emptyTable :=
  C10_merge_empty_without_incidence _ _ (by decide) (by decide) (Or.inr (by decide))

/-- C8 witness: with the stable algorithm instantiating the sort contract,
the top-2 ranking over the period-2020 rows (X, 90), (Y, 95), (Z, null) is a
descending permutation of the two non-null rows, and since 95 ≠ 90 the tie-free
refinement pins the result to the spec-side ranking (Y then X, excluding Z). -/
theorem C8_top_n_sorted_by_indicator_witness :
    ∃ (M : Table) (L : List Row),
      owid_top_affected_countries sortRowsBy (Table.mk ["country", "year", "tb_incidence"]
        [DType.obj, DType.i64, DType.i64]
        [[Val.str "X", Val.int 2020, Val.int 90], [Val.str "Y", Val.int 2020, Val.int 95],
         [Val.str "Z", Val.int 2020, Val.null]]) none 2 = .ok M ∧
      M.cols = ["country", "year", "tb_incidence"] ∧
      L.Perm (((Table.mk ["country", "year", "tb_incidence"]
          [DType.obj, DType.i64, DType.i64]
          [[Val.str "X", Val.int 2020, Val.int 90], [Val.str "Y", Val.int 2020, Val.int 95],
           [Val.str "Z", Val.int 2020, Val.null]] : Table).rows.filter
            fun r => valEq (cellAt (Table.mk ["country", "year", "tb_incidence"]
              [DType.obj, DType.i64, DType.i64]
              [[Val.str "X", Val.int 2020, Val.int 90], [Val.str "Y", Val.int 2020, Val.int 95],
               [Val.str "Z", Val.int 2020, Val.null]]) "year" r) (.int 2020)).filter
          fun r => !isNull (cellAt (Table.mk ["country", "year", "tb_incidence"]
            [DType.obj, DType.i64, DType.i64]
            [[Val.str "X", Val.int 2020, Val.int 90], [Val.str "Y", Val.int 2020, Val.int 95],
             [Val.str "Z", Val.int 2020, Val.null]]) "tb_incidence" r)) ∧
      (L.Pairwise fun a b =>
        valKV (cellAt (Table.mk ["country", "year", "tb_incidence"]
          [DType.obj, DType.i64, DType.i64]
          [[Val.str "X", Val.int 2020, Val.int 90], [Val.str "Y", Val.int 2020, Val.int 95],
           [Val.str "Z", Val.int 2020, Val.null]]) "tb_incidence" b) ≤
        valKV (cellAt (Table.mk ["country", "year", "tb_incidence"]
          [DType.obj, DType.i64, DType.i64]
          [[Val.str "X", Val.int 2020, Val.int 90], [Val.str "Y", Val.int 2020, Val.int 95],
           [Val.str "Z", Val.int 2020, Val.null]]) "tb_incidence" a)) ∧
      M.rows = (L.take 2).map
        (fun r => ["country", "year", "tb_incidence"].map
          fun c => cellAt (Table.mk ["country", "year", "tb_incidence"]
            [DType.obj, DType.i64, DType.i64]
            [[Val.str "X", Val.int 2020, Val.int 90], [Val.str "Y", Val.int 2020, Val.int 95],
             [Val.str "Z", Val.int 2020, Val.null]]) c r) ∧
      ((((Table.mk ["country", "year", "tb_incidence"]
          [DType.obj, DType.i64, DType.i64]
          [[Val.str "X", Val.int 2020, Val.int 90], [Val.str "Y", Val.int 2020, Val.int 95],
           [Val.str "Z", Val.int 2020, Val.null]] : Table).rows.filter
            fun r => valEq (cellAt (Table.mk ["country", "year", "tb_incidence"]
              [DType.obj, DType.i64, DType.i64]
              [[Val.str "X", Val.int 2020, Val.int 90], [Val.str "Y", Val.int 2020, Val.int 95],
               [Val.str "Z", Val.int 2020, Val.null]]) "year" r) (.int 2020)).filter
          fun r => !isNull (cellAt (Table.mk ["country", "year", "tb_incidence"]
            [DType.obj, DType.i64, DType.i64]
            [[Val.str "X", Val.int 2020, Val.int 90], [Val.str "Y", Val.int 2020, Val.int 95],
             [Val.str "Z", Val.int 2020, Val.null]]) "tb_incidence" r)).Pairwise
          (fun a b => valKV (cellAt (Table.mk ["country", "year", "tb_incidence"]
            [DType.obj, DType.i64, DType.i64]
            [[Val.str "X", Val.int 2020, Val.int 90], [Val.str "Y", Val.int 2020, Val.int 95],
             [Val.str "Z", Val.int 2020, Val.null]]) "tb_incidence" a) ≠
            valKV (cellAt (Table.mk ["country", "year", "tb_incidence"]
              [DType.obj, DType.i64, DType.i64]
              [[Val.str "X", Val.int 2020, Val.int 90], [Val.str "Y", Val.int 2020, Val.int 95],
               [Val.str "Z", Val.int 2020, Val.null]]) "tb_incidence" b)) →
        M.rows = (topAffectedSpec (Table.mk ["country", "year", "tb_incidence"]
            [DType.obj, DType.i64, DType.i64]
            [[Val.str "X", Val.int 2020, Val.int 90], [Val.str "Y", Val.int 2020, Val.int 95],
             [Val.str "Z", Val.int 2020, Val.null]]) 2020 2).map
          fun r => ["country", "year", "tb_incidence"].map
            fun c => cellAt (Table.mk ["country", "year", "tb_incidence"]
              [DType.obj, DType.i64, DType.i64]
              [[Val.str "X", Val.int 2020, Val.int 90], [Val.str "Y", Val.int 2020, Val.int 95],
               [Val.str "Z", Val.int 2020, Val.null]]) c r) :=
  C8_top_n_sorted_by_indicator sortRowsBy_sortsByKey 2 (by decide) (by decide)
    (by decide) (by decide) (by decide)

/-- C8 counterexample: the sort contract does not determine the tie order, so
the spec's "stable tie-break preserving insertion order" over-specifies the
program.  On two period-2020 rows both at incidence 90, the stable algorithm
returns X as the top 1 while `revSort` — which satisfies the same contract that
a `kind='quicksort'` `sort_values` gives — returns Y, a different table. -/
theorem C8_tie_order_unspecified :
    sortsByKey revSort ∧
    owid_top_affected_countries sortRowsBy (Table.mk ["country", "year", "tb_incidence"]
        [DType.obj, DType.i64, DType.i64]
        [[Val.str "X", Val.int 2020, Val.int 90], [Val.str "Y", Val.int 2020, Val.int 90]])
      none 1 =
      .ok (Table.mk ["country", "year", "tb_incidence"] [DType.obj, DType.i64, DType.i64]
        [[Val.str "X", Val.int 2020, Val.int 90]]) ∧
    owid_top_affected_countries revSort (Table.mk ["country", "year", "tb_incidence"]
        [DType.obj, DType.i64, DType.i64]
        [[Val.str "X", Val.int 2020, Val.int 90], [Val.str "Y", Val.int 2020, Val.int 90]])
      none 1 =
      .ok (Table.mk ["country", "year", "tb_incidence"] [DType.obj, DType.i64, DType.i64]
        [[Val.str "Y", Val.int 2020, Val.int 90]]) ∧
    (Table.mk ["country", "year", "tb_incidence"] [DType.obj, DType.i64, DType.i64]
        [[Val.str "X", Val.int 2020, Val.int 90]] : Table) ≠
      Table.mk ["country", "year", "tb_incidence"] [DType.obj, DType.i64, DType.i64]
        [[Val.str "Y", Val.int 2020, Val.int 90]] := by
  refine ⟨revSort_sortsByKey, ?_, ?_, ?_⟩
  · decide
  · decide
  · decide

/-- C8 scenario check: with the stable algorithm the top-2 result for the
period-2020 rows is [Y, X] in that order, with Z excluded. -/
theorem C8_scenario_top2 :
    owid_top_affected_countries sortRowsBy (Table.mk ["country", "year", "tb_incidence"]
        [DType.obj, DType.i64, DType.i64]
        [[Val.str "X", Val.int 2020, Val.int 90], [Val.str "Y", Val.int 2020, Val.int 95],
         [Val.str "Z", Val.int 2020, Val.null]]) none 2 =
      .ok (Table.mk ["country", "year", "tb_incidence"] [DType.obj, DType.i64, DType.i64]
        [[Val.str "Y", Val.int 2020, Val.int 95], [Val.str "X", Val.int 2020, Val.int 90]]) := by
  decide

end TBGA
